import Mathlib

/-!
Shallow embedding of the grow-a-cache server core (storage, dispatcher and
protocol handlers) and proofs about the sentences of its specification.

Conventions of the embedding:
  * machine bytes are `Nat` values below 256, byte strings are `List Nat`;
  * Rust `u64`/`usize` arithmetic is `Nat` arithmetic reduced mod `2 ^ 64`
    exactly where the source uses wrapping atomic operations;
  * `Instant` values are abstract `Nat` timestamps; every operation takes the
    timestamp `now` at which it runs (all `Instant::now()` calls inside one
    operation observe the same instant);
  * the two `HashMap`s of the store are association lists with unique keys;
    `insert` replaces in place, iteration order is list order (the source's
    hash iteration order is arbitrary; the only order-sensitive spot,
    the `find_lru_key` fallback, is modelled as the list head);
  * UTF-8 decoding, `str::trim` and `to_uppercase` are modelled for ASCII
    byte sequences, which covers every input the claims are about.
-/

/-- 2 ^ 64, the modulus of Rust `u64` / 64-bit `usize` arithmetic. -/
def U64 : Nat := 18446744073709551616

/-- Wrapping 64-bit addition (`fetch_add` / release-mode `+`). -/
def u64add (a b : Nat) : Nat := (a + b) % U64

/-- Wrapping 64-bit subtraction (`fetch_sub`); callers keep both arguments
below `U64`. -/
def u64sub (a b : Nat) : Nat := (a + U64 - b) % U64

/-- Bytes of an ASCII string literal. -/
def strBytes (s : String) : List Nat := s.data.map Char.toNat

/-- ASCII bytes back to a string (used where the source decodes UTF-8;
only applied to byte lists the decoder has checked). -/
def bytesToString (bs : List Nat) : String := ⟨bs.map Char.ofNat⟩

/-- Association-list lookup, the model of `HashMap::get`. -/
def mapFind? {α : Type} : List (String × α) → String → Option α
  | [], _ => none
  | (k, v) :: rest, key => if k = key then some v else mapFind? rest key

/-- Association-list insert replacing in place, the model of
`HashMap::insert`. -/
def mapInsert {α : Type} : List (String × α) → String → α → List (String × α)
  | [], key, v => [(key, v)]
  | (k, w) :: rest, key, v =>
      if k = key then (key, v) :: rest else (k, w) :: mapInsert rest key v

/-- Association-list removal, the model of `HashMap::remove`. -/
def mapErase {α : Type} (l : List (String × α)) (key : String) :
    List (String × α) :=
  l.filter (fun p => p.1 != key)

/-- `src/storage.rs`: result of a storage operation. -/
inductive StorageResult : Type
  | Stored
  | NotStored
  | Exists
  | NotFound
  | CasMismatch
  | Deleted
deriving DecidableEq, Repr

/-- Models `std::mem::size_of::<CacheItem>()`: the fixed per-item overhead
added by `CacheItem::memory_size`.  Its concrete value is irrelevant to every
claim; 64 stands in for the real struct size. -/
def itemOverhead : Nat := 64

/-- `src/storage.rs`: a single cached item. -/
structure CacheItem : Type where
  value : List Nat
  flags : Nat
  expires_at : Option Nat
  cas_unique : Nat
  last_accessed : Nat
deriving DecidableEq, Repr

/-- `CacheItem::memory_size`: `size_of::<Self>() + self.value.len()`. -/
def CacheItem.memory_size (item : CacheItem) : Nat :=
  itemOverhead + item.value.length

/-- `CacheItem::is_expired` at instant `now`. -/
def CacheItem.is_expired (item : CacheItem) (now : Nat) : Bool :=
  match item.expires_at with
  | some e => decide (e ≤ now)
  | none => false

/-- `src/storage.rs`: the store.  `data` and `access_order` model the two
hash maps, the three counters model the atomics. -/
structure Storage : Type where
  data : List (String × CacheItem)
  memory_used : Nat
  max_memory : Nat
  default_ttl : Nat
  cas_counter : Nat
  access_order : List (String × Nat)
  access_counter : Nat
deriving Repr

/-- `Storage::new`. -/
def Storage.new (max_memory default_ttl : Nat) : Storage :=
  { data := []
    memory_used := 0
    max_memory := max_memory
    default_ttl := default_ttl
    cas_counter := 1
    access_order := []
    access_counter := 0 }

/-- `Storage::next_cas_unique`: `fetch_add(1)` returning the old value. -/
def Storage.next_cas_unique (s : Storage) : Nat × Storage :=
  (s.cas_counter, { s with cas_counter := u64add s.cas_counter 1 })

/-- `Storage::record_access`. -/
def Storage.record_access (s : Storage) (key : String) : Storage :=
  { s with
    access_order := mapInsert s.access_order key s.access_counter
    access_counter := u64add s.access_counter 1 }

/-- `Storage::calculate_expiry`. -/
def Storage.calculate_expiry (s : Storage) (now ttl : Nat) : Option Nat :=
  let effective_ttl := if ttl = 0 then s.default_ttl else ttl
  if effective_ttl = 0 then none else some (now + effective_ttl)

/-- `Storage::delete`. -/
def Storage.delete (s : Storage) (key : String) : StorageResult × Storage :=
  match mapFind? s.data key with
  | some item =>
      let size := item.memory_size + key.utf8ByteSize
      (StorageResult.Deleted,
        { s with
          data := mapErase s.data key
          memory_used := u64sub s.memory_used size
          access_order := mapErase s.access_order key })
  | none => (StorageResult.NotFound, s)

/-- `Storage::find_lru_key`: scan `access_order` for the live key with the
least sequence number, falling back to an arbitrary key of `data`
(modelled as the list head). -/
def Storage.find_lru_key (s : Storage) (now : Nat) : Option String :=
  let scan := s.access_order.foldl
    (fun (acc : Nat × Option String) p =>
      match mapFind? s.data p.1 with
      | some item =>
          if item.is_expired now then acc
          else if p.2 < acc.1 then (p.2, some p.1) else acc
      | none => acc)
    (U64 - 1, none)
  match scan.2 with
  | some k => some k
  | none => (s.data.head?).map (·.1)

/-- The eviction loop of `Storage::ensure_memory_available`; `fuel` bounds
the iteration count (each pass deletes one present key, so `data.length`
iterations reproduce the source's unbounded loop exactly). -/
def Storage.ensureMemAux (needed now : Nat) : Nat → Storage → Storage
  | 0, s => s
  | Nat.succ fuel, s =>
      if u64add s.memory_used needed > s.max_memory then
        match s.find_lru_key now with
        | some k => Storage.ensureMemAux needed now fuel (s.delete k).2
        | none => s
      else s

/-- `Storage::ensure_memory_available`. -/
def Storage.ensure_memory_available (s : Storage) (needed now : Nat) :
    Storage :=
  Storage.ensureMemAux needed now s.data.length s

/-- `Storage::get`. -/
def Storage.get (s : Storage) (now : Nat) (key : String) :
    Option CacheItem × Storage :=
  match mapFind? s.data key with
  | some item =>
      if item.is_expired now then (none, (s.delete key).2)
      else (some item, s.record_access key)
  | none => (none, s)

/-- `Storage::get_multi`: one pass collecting live results (recording
accesses) and expired keys, then a deletion pass over the expired keys. -/
def Storage.get_multi (s : Storage) (now : Nat) (keys : List String) :
    List (String × CacheItem) × Storage :=
  let pass := keys.foldl
    (fun (acc : List (String × CacheItem) × List String × Storage) key =>
      match mapFind? acc.2.2.data key with
      | some item =>
          if item.is_expired now then (acc.1, acc.2.1 ++ [key], acc.2.2)
          else (acc.1 ++ [(key, item)], acc.2.1, acc.2.2.record_access key)
      | none => acc)
    ([], [], s)
  (pass.1, pass.2.1.foldl (fun st k => (st.delete k).2) pass.2.2)

/-- `Storage::set`. -/
def Storage.set (s : Storage) (now : Nat) (key : String) (value : List Nat)
    (flags ttl : Nat) : StorageResult × Storage :=
  let expiry := s.calculate_expiry now ttl
  let tokAndS := s.next_cas_unique
  let item : CacheItem :=
    { value := value, flags := flags, expires_at := expiry
      cas_unique := tokAndS.1, last_accessed := now }
  let new_size := item.memory_size + key.utf8ByteSize
  let s2 := tokAndS.2.ensure_memory_available new_size now
  let s3 :=
    match mapFind? s2.data key with
    | some old_item =>
        { s2 with
          memory_used :=
            u64sub s2.memory_used (old_item.memory_size + key.utf8ByteSize) }
    | none => s2
  let s4 :=
    { s3 with
      memory_used := u64add s3.memory_used new_size
      data := mapInsert s3.data key item }
  (StorageResult.Stored, s4.record_access key)

/-- `Storage::add`. -/
def Storage.add (s : Storage) (now : Nat) (key : String) (value : List Nat)
    (flags ttl : Nat) : StorageResult × Storage :=
  match mapFind? s.data key with
  | some item =>
      if item.is_expired now then s.set now key value flags ttl
      else (StorageResult.NotStored, s)
  | none => s.set now key value flags ttl

/-- `Storage::replace`. -/
def Storage.replace (s : Storage) (now : Nat) (key : String)
    (value : List Nat) (flags ttl : Nat) : StorageResult × Storage :=
  match mapFind? s.data key with
  | some item =>
      if item.is_expired now then (StorageResult.NotStored, s)
      else s.set now key value flags ttl
  | none => (StorageResult.NotStored, s)

/-- `Storage::cas`. -/
def Storage.cas (s : Storage) (now : Nat) (key : String) (value : List Nat)
    (flags ttl cas_unique : Nat) : StorageResult × Storage :=
  match mapFind? s.data key with
  | none => (StorageResult.NotFound, s)
  | some item =>
      if item.is_expired now then
        let old_size := item.memory_size + key.utf8ByteSize
        (StorageResult.NotFound,
          { s with
            data := mapErase s.data key
            memory_used := u64sub s.memory_used old_size })
      else if item.cas_unique ≠ cas_unique then
        (StorageResult.CasMismatch, s)
      else
        let old_size := item.memory_size + key.utf8ByteSize
        let expiry := s.calculate_expiry now ttl
        let tokAndS := s.next_cas_unique
        let new_item : CacheItem :=
          { value := value, flags := flags, expires_at := expiry
            cas_unique := tokAndS.1, last_accessed := now }
        let new_size := new_item.memory_size + key.utf8ByteSize
        let s2 := { tokAndS.2 with memory_used := u64sub tokAndS.2.memory_used old_size }
        let s3 := s2.ensure_memory_available new_size now
        let s4 :=
          { s3 with
            memory_used := u64add s3.memory_used new_size
            data := mapInsert s3.data key new_item }
        (StorageResult.Stored, s4.record_access key)

/-- `Storage::append`. -/
def Storage.append (s : Storage) (now : Nat) (key : String)
    (data_to_append : List Nat) : StorageResult × Storage :=
  match mapFind? s.data key with
  | none => (StorageResult.NotStored, s)
  | some item =>
      if item.is_expired now then
        let old_size := item.memory_size + key.utf8ByteSize
        (StorageResult.NotStored,
          { s with
            data := mapErase s.data key
            memory_used := u64sub s.memory_used old_size })
      else
        let additional_size := data_to_append.length
        if u64add s.memory_used additional_size > s.max_memory then
          let s1 := s.ensure_memory_available additional_size now
          match mapFind? s1.data key with
          | some item1 =>
              if item1.is_expired now then (StorageResult.NotStored, s1)
              else
                let tokAndS := s1.next_cas_unique
                let item2 :=
                  { item1 with
                    value := item1.value ++ data_to_append
                    cas_unique := tokAndS.1
                    last_accessed := now }
                let s2 :=
                  { tokAndS.2 with
                    data := mapInsert tokAndS.2.data key item2
                    memory_used := u64add tokAndS.2.memory_used additional_size }
                (StorageResult.Stored, s2.record_access key)
          | none => (StorageResult.NotStored, s1)
        else
          let tokAndS := s.next_cas_unique
          let item2 :=
            { item with
              value := item.value ++ data_to_append
              cas_unique := tokAndS.1
              last_accessed := now }
          let s2 :=
            { tokAndS.2 with
              data := mapInsert tokAndS.2.data key item2
              memory_used := u64add tokAndS.2.memory_used additional_size }
          (StorageResult.Stored, s2.record_access key)

/-- `Storage::prepend`. -/
def Storage.prepend (s : Storage) (now : Nat) (key : String)
    (data_to_prepend : List Nat) : StorageResult × Storage :=
  match mapFind? s.data key with
  | none => (StorageResult.NotStored, s)
  | some item =>
      if item.is_expired now then
        let old_size := item.memory_size + key.utf8ByteSize
        (StorageResult.NotStored,
          { s with
            data := mapErase s.data key
            memory_used := u64sub s.memory_used old_size })
      else
        let additional_size := data_to_prepend.length
        if u64add s.memory_used additional_size > s.max_memory then
          let s1 := s.ensure_memory_available additional_size now
          match mapFind? s1.data key with
          | some item1 =>
              if item1.is_expired now then (StorageResult.NotStored, s1)
              else
                let tokAndS := s1.next_cas_unique
                let item2 :=
                  { item1 with
                    value := data_to_prepend ++ item1.value
                    cas_unique := tokAndS.1
                    last_accessed := now }
                let s2 :=
                  { tokAndS.2 with
                    data := mapInsert tokAndS.2.data key item2
                    memory_used := u64add tokAndS.2.memory_used additional_size }
                (StorageResult.Stored, s2.record_access key)
          | none => (StorageResult.NotStored, s1)
        else
          let tokAndS := s.next_cas_unique
          let item2 :=
            { item with
              value := data_to_prepend ++ item.value
              cas_unique := tokAndS.1
              last_accessed := now }
          let s2 :=
            { tokAndS.2 with
              data := mapInsert tokAndS.2.data key item2
              memory_used := u64add tokAndS.2.memory_used additional_size }
          (StorageResult.Stored, s2.record_access key)

/-- `Storage::cleanup_expired`. -/
def Storage.cleanup_expired (s : Storage) (now : Nat) : Nat × Storage :=
  let expired_keys :=
    (s.data.filter (fun p => p.2.is_expired now)).map (·.1)
  (expired_keys.length,
    expired_keys.foldl (fun st k => (st.delete k).2) s)

/-- `Storage::flush_all`. -/
def Storage.flush_all (s : Storage) : Storage :=
  { s with data := [], access_order := [], memory_used := 0 }

/-- `src/storage.rs`: storage statistics. -/
structure StorageStats : Type where
  item_count : Nat
  memory_used : Nat
  max_memory : Nat
  cas_counter : Nat
deriving DecidableEq, Repr

/-- `Storage::stats`. -/
def Storage.stats (s : Storage) : StorageStats :=
  { item_count := s.data.length
    memory_used := s.memory_used
    max_memory := s.max_memory
    cas_counter := s.cas_counter }

/-- ASCII decimal digits of `n`, most significant first: the model of
`u64::to_string` (and of `Display` for the other unsigned integers). -/
def natToDec (n : Nat) : List Nat :=
  if h : n < 10 then [48 + n]
  else natToDec (n / 10) ++ [48 + n % 10]
decreasing_by exact Nat.div_lt_self (by omega) (by omega)

/-- ASCII whitespace, the restriction of `char::is_whitespace` to ASCII. -/
def isWsByte (b : Nat) : Bool := b = 32 || (9 ≤ b && b ≤ 13)

/-- `str::trim` restricted to ASCII byte sequences. -/
def trimAscii (bs : List Nat) : List Nat :=
  ((bs.dropWhile isWsByte).reverse.dropWhile isWsByte).reverse

/-- Whether a byte sequence is plain ASCII; the model of `str::from_utf8`
succeeding (multi-byte UTF-8 does not occur in any input the claims use). -/
def isAsciiBytes (bs : List Nat) : Bool := bs.all (· < 128)

/-- `str::parse` for an unsigned integer type with exclusive bound `lim`:
an optional leading `+`, then one or more ASCII digits, rejecting overflow. -/
def parseNatLt (lim : Nat) (bs : List Nat) : Option Nat :=
  let ds := match bs with
    | b :: rest => if b = 43 then rest else bs
    | [] => []
  if ds.isEmpty then none
  else if ds.all (fun b => 48 ≤ b && b ≤ 57) then
    let v := ds.foldl (fun acc b => acc * 10 + (b - 48)) 0
    if v < lim then some v else none
  else none

/-- `str::parse::<u64>` (also `usize` on a 64-bit target). -/
def parseU64 (bs : List Nat) : Option Nat := parseNatLt U64 bs

/-- `str::parse::<u32>`. -/
def parseU32 (bs : List Nat) : Option Nat := parseNatLt 4294967296 bs

/-- ASCII lowercasing of a byte (`to_lowercase` / `eq_ignore_ascii_case`). -/
def lowerByte (b : Nat) : Nat := if 65 ≤ b && b ≤ 90 then b + 32 else b

/-- ASCII uppercasing of a byte (`to_uppercase` on ASCII). -/
def upperByte (b : Nat) : Nat := if 97 ≤ b && b ≤ 122 then b - 32 else b

/-- `a.eq_ignore_ascii_case(b)`. -/
def eqIgnoreAsciiCase (a b : List Nat) : Bool :=
  a.map lowerByte == b.map lowerByte

/- `src/protocol.rs`: the memcached response vocabulary, as byte
sequences. -/
namespace Response

def value (key : String) (flags : Nat) (data : List Nat) (cas : Option Nat) :
    List Nat :=
  let header :=
    match cas with
    | some cas_unique =>
        strBytes ("VALUE " ++ key ++ " ") ++ natToDec flags ++ strBytes " " ++
          natToDec data.length ++ strBytes " " ++ natToDec cas_unique ++
          strBytes "\r\n"
    | none =>
        strBytes ("VALUE " ++ key ++ " ") ++ natToDec flags ++ strBytes " " ++
          natToDec data.length ++ strBytes "\r\n"
  header ++ data ++ strBytes "\r\n"

def «end» : List Nat := strBytes "END\r\n"

def stored : List Nat := strBytes "STORED\r\n"

def not_stored : List Nat := strBytes "NOT_STORED\r\n"

def exists_ : List Nat := strBytes "EXISTS\r\n"

def not_found : List Nat := strBytes "NOT_FOUND\r\n"

def deleted : List Nat := strBytes "DELETED\r\n"

def ok : List Nat := strBytes "OK\r\n"

def error : List Nat := strBytes "ERROR\r\n"

def client_error (msg : String) : List Nat :=
  strBytes ("CLIENT_ERROR " ++ msg ++ "\r\n")

def version : List Nat := strBytes "VERSION grow-a-cache 0.1.0\r\n"

def numeric (v : Nat) : List Nat := natToDec v ++ strBytes "\r\n"

def stat (name : String) (v : List Nat) : List Nat :=
  strBytes ("STAT " ++ name ++ " ") ++ v ++ strBytes "\r\n"

end Response

/-- `handle_incr_decr` from `src/runtime/request.rs` (the copy in
`src/protocols/memcached/handler.rs` is byte-for-byte the same logic):
read the item, parse its value as a decimal `u64`, wrap on `incr` /
saturate on `decr`, re-store with `ttl = 0` and the old flags. -/
def handle_incr_decr (s : Storage) (now : Nat) (key : String) (delta : Nat)
    (is_incr : Bool) : List Nat × Storage :=
  match s.get now key with
  | (none, s1) => (Response.not_found, s1)
  | (some item, s1) =>
      if isAsciiBytes item.value then
        let current_str := trimAscii item.value
        match parseU64 current_str with
        | some current =>
            let new_value :=
              if is_incr then u64add current delta else current - delta
            let s2 := (s1.set now key (natToDec new_value) item.flags 0).2
            (Response.numeric new_value, s2)
        | none =>
            (Response.client_error
              "cannot increment or decrement non-numeric value", s1)
      else
        (Response.client_error
          "cannot increment or decrement non-numeric value", s1)

/-- One store operation of a sequence, tagged with the instant at which it
runs; `incr`/`decr` are the dispatcher's `handle_incr_decr`. -/
inductive Op : Type
  | get (now : Nat) (key : String)
  | get_multi (now : Nat) (keys : List String)
  | set (now : Nat) (key : String) (value : List Nat) (flags ttl : Nat)
  | add (now : Nat) (key : String) (value : List Nat) (flags ttl : Nat)
  | replace (now : Nat) (key : String) (value : List Nat) (flags ttl : Nat)
  | cas (now : Nat) (key : String) (value : List Nat) (flags ttl tok : Nat)
  | append (now : Nat) (key : String) (data : List Nat)
  | prepend (now : Nat) (key : String) (data : List Nat)
  | delete (key : String)
  | flush_all
  | cleanup (now : Nat)
  | incr (now : Nat) (key : String) (delta : Nat)
  | decr (now : Nat) (key : String) (delta : Nat)

/-- The state reached by one operation. -/
def applyOp (s : Storage) : Op → Storage
  | Op.get now key => (s.get now key).2
  | Op.get_multi now keys => (s.get_multi now keys).2
  | Op.set now key value flags ttl => (s.set now key value flags ttl).2
  | Op.add now key value flags ttl => (s.add now key value flags ttl).2
  | Op.replace now key value flags ttl => (s.replace now key value flags ttl).2
  | Op.cas now key value flags ttl tok =>
      (s.cas now key value flags ttl tok).2
  | Op.append now key data => (s.append now key data).2
  | Op.prepend now key data => (s.prepend now key data).2
  | Op.delete key => (s.delete key).2
  | Op.flush_all => s.flush_all
  | Op.cleanup now => (s.cleanup_expired now).2
  | Op.incr now key delta => (handle_incr_decr s now key delta true).2
  | Op.decr now key delta => (handle_incr_decr s now key delta false).2

/-- The state reached by a sequence of operations. -/
def runOps (s : Storage) (ops : List Op) : Storage := ops.foldl applyOp s

/-- `src/protocols/resp/parser.rs`: RESP frame types. -/
inductive Frame : Type
  | Simple (s : String)
  | Error (s : String)
  | Integer (n : Int)
  | Bulk (data : Option (List Nat))
  | Array (frames : Option (List Frame))
deriving Repr

/-- `Frame::null()`: the null bulk string. -/
def Frame.null : Frame := Frame.Bulk none

/-- Whether a frame is an error frame. -/
def Frame.isError : Frame → Bool
  | Frame.Error _ => true
  | _ => false

/-- `String::from_utf8_lossy(..).to_uppercase()` on ASCII bytes (the only
command names the claims exercise are ASCII). -/
def upperString (bs : List Nat) : String := bytesToString (bs.map upperByte)

/-- `i64 as u64` (used by the RESP handler for integer arguments). -/
def intAsU64 (n : Int) : Nat := (n % (U64 : Int)).toNat

/-- `src/protocols/resp/handler.rs`: parsed RESP command. -/
inductive RespCommand : Type
  | Ping (message : Option (List Nat))
  | Get (key : List Nat)
  | Set (key value : List Nat) (ex : Option Nat) (nx xx : Bool)
  | Del (keys : List (List Nat))
  | Hello (version : Nat)
  | Command
deriving Repr

/-- `src/protocols/resp/handler.rs`: per-connection RESP handler state. -/
structure RespHandler : Type where
  storage : Storage
  resp_version : Nat

/-- `RespHandler::new`. -/
def RespHandler.new (storage : Storage) : RespHandler :=
  { storage := storage, resp_version := 2 }

/-- The `while i < frames.len()` option loop of `RespHandler::parse_command`
for `SET`, as a recursion over the remaining argument frames. -/
def parseSetOpts : List Frame → Option Nat → Bool → Bool →
    Except String (Option Nat × Bool × Bool)
  | [], ex, nx, xx => Except.ok (ex, nx, xx)
  | f :: rest, ex, nx, xx =>
      match f with
      | Frame.Bulk (some bs) =>
          if isAsciiBytes bs then
            let opt := upperString bs
            if opt = "EX" then
              match rest with
              | [] => Except.error "ERR syntax error"
              | g :: rest2 =>
                  match g with
                  | Frame.Bulk (some ds) =>
                      if isAsciiBytes ds then
                        match parseU64 ds with
                        | some seconds =>
                            parseSetOpts rest2 (some seconds) nx xx
                        | none => Except.error "ERR invalid expire time"
                      else Except.error "ERR invalid expire time"
                  | Frame.Integer n => parseSetOpts rest2 (some (intAsU64 n)) nx xx
                  | _ => Except.error "ERR invalid expire time"
            else if opt = "PX" then
              match rest with
              | [] => Except.error "ERR syntax error"
              | g :: rest2 =>
                  match g with
                  | Frame.Bulk (some ds) =>
                      if isAsciiBytes ds then
                        match parseU64 ds with
                        | some millis =>
                            parseSetOpts rest2 (some (u64add millis 999 / 1000)) nx xx
                        | none => Except.error "ERR invalid expire time"
                      else Except.error "ERR invalid expire time"
                  | Frame.Integer n =>
                      parseSetOpts rest2 (some (u64add (intAsU64 n) 999 / 1000)) nx xx
                  | _ => Except.error "ERR invalid expire time"
            else if opt = "NX" then parseSetOpts rest ex true xx
            else if opt = "XX" then parseSetOpts rest ex nx true
            else Except.error ("ERR unsupported option: " ++ opt)
          else Except.error "ERR invalid option"
      | _ => Except.error "ERR invalid option"

/-- `RespHandler::parse_command`. -/
def RespHandler.parse_command (frame : Frame) : Except String RespCommand :=
  match frame with
  | Frame.Array (some frames) =>
      match frames with
      | [] => Except.error "ERR empty command"
      | first :: rest =>
          match first with
          | Frame.Bulk (some data) =>
              if isAsciiBytes data then
                let cmd_name := upperString data
                if cmd_name = "PING" then
                  Except.ok (RespCommand.Ping
                    (match rest with
                     | Frame.Bulk (some msg) :: _ => some msg
                     | _ :: _ => none
                     | [] => none))
                else if cmd_name = "GET" then
                  match rest with
                  | Frame.Bulk (some key) :: _ => Except.ok (RespCommand.Get key)
                  | _ :: _ => Except.error "ERR invalid key"
                  | [] =>
                      Except.error "ERR wrong number of arguments for 'get' command"
                else if cmd_name = "SET" then
                  match rest with
                  | arg1 :: arg2 :: opts =>
                      match arg1 with
                      | Frame.Bulk (some key) =>
                          match arg2 with
                          | Frame.Bulk (some value) =>
                              match parseSetOpts opts none false false with
                              | Except.ok (ex, nx, xx) =>
                                  Except.ok (RespCommand.Set key value ex nx xx)
                              | Except.error e => Except.error e
                          | _ => Except.error "ERR invalid value"
                      | _ => Except.error "ERR invalid key"
                  | _ =>
                      Except.error "ERR wrong number of arguments for 'set' command"
                else if cmd_name = "DEL" then
                  match rest with
                  | [] =>
                      Except.error "ERR wrong number of arguments for 'del' command"
                  | _ =>
                      if rest.all (fun f =>
                          match f with
                          | Frame.Bulk (some _) => true
                          | _ => false) then
                        Except.ok (RespCommand.Del (rest.filterMap (fun f =>
                          match f with
                          | Frame.Bulk (some k) => some k
                          | _ => none)))
                      else Except.error "ERR invalid key"
                else if cmd_name = "HELLO" then
                  match rest with
                  | [] => Except.ok (RespCommand.Hello 2)
                  | Frame.Bulk (some ds) :: _ =>
                      if isAsciiBytes ds then
                        match parseNatLt 256 ds with
                        | some v => Except.ok (RespCommand.Hello v)
                        | none => Except.error "ERR invalid protocol version"
                      else Except.error "ERR invalid protocol version"
                  | Frame.Integer n :: _ =>
                      Except.ok (RespCommand.Hello ((n % (256 : Int)).toNat))
                  | _ :: _ => Except.error "ERR invalid protocol version"
                else if cmd_name = "COMMAND" then Except.ok RespCommand.Command
                else Except.error ("ERR unknown command '" ++ cmd_name ++ "'")
              else Except.error "ERR invalid command name"
          | _ => Except.error "ERR expected bulk string for command name"
  | Frame.Array none => Except.error "ERR null command"
  | _ => Except.error "ERR expected array"

/-- `RespHandler::execute`, threading the storage and handler state; `now`
is the instant of the store calls. -/
def RespHandler.execute (h : RespHandler) (now : Nat) (cmd : RespCommand) :
    Frame × RespHandler :=
  match cmd with
  | RespCommand.Ping message =>
      match message with
      | some msg => (Frame.Bulk (some msg), h)
      | none => (Frame.Simple "PONG", h)
  | RespCommand.Get key =>
      if isAsciiBytes key then
        let key_str := bytesToString key
        match h.storage.get now key_str with
        | (some item, s') => (Frame.Bulk (some item.value), { h with storage := s' })
        | (none, s') => (Frame.null, { h with storage := s' })
      else (Frame.Error "ERR invalid key encoding", h)
  | RespCommand.Set key value ex nx xx =>
      if isAsciiBytes key then
        let key_str := bytesToString key
        let ttl := ex.getD 0
        if nx && xx then
          (Frame.Error "ERR XX and NX options at the same time are not compatible", h)
        else
          let call :=
            if nx then h.storage.add now key_str value 0 ttl
            else if xx then h.storage.replace now key_str value 0 ttl
            else h.storage.set now key_str value 0 ttl
          let h' := { h with storage := call.2 }
          match call.1 with
          | StorageResult.Stored => (Frame.Simple "OK", h')
          | StorageResult.NotStored => (Frame.null, h')
          | _ => (Frame.null, h')
      else (Frame.Error "ERR invalid key encoding", h)
  | RespCommand.Del keys =>
      let out := keys.foldl
        (fun (acc : Int × Storage) key =>
          if isAsciiBytes key then
            let del := acc.2.delete (bytesToString key)
            if del.1 = StorageResult.Deleted then (acc.1 + 1, del.2)
            else (acc.1, del.2)
          else acc)
        (0, h.storage)
      (Frame.Integer out.1, { h with storage := out.2 })
  | RespCommand.Hello version =>
      let v := min (max version 2) 3
      (Frame.Array (some
        [Frame.Bulk (some (strBytes "server")),
         Frame.Bulk (some (strBytes "grow-a-cache")),
         Frame.Bulk (some (strBytes "version")),
         Frame.Bulk (some (strBytes "0.1.0")),
         Frame.Bulk (some (strBytes "proto")),
         Frame.Integer (Int.ofNat v)]),
        { h with resp_version := v })
  | RespCommand.Command => (Frame.Array (some []), h)

/-- `execute_resp_command` from `src/runtime/request.rs` — the custom
runtime's RESP executor.  Note that its `SET` arm ignores every option
after the value and always performs a plain `set`. -/
def execute_resp_command (frame : Frame) (s : Storage) (now : Nat) :
    Frame × Storage :=
  match frame with
  | Frame.Array (some args) =>
      match args with
      | [] => (Frame.Error "ERR empty command", s)
      | first :: rest =>
          match first with
          | Frame.Bulk (some bs) =>
              let cmd := upperString bs
              if cmd = "PING" then
                match rest with
                | f :: _ => (f, s)
                | [] => (Frame.Simple "PONG", s)
              else if cmd = "GET" then
                match rest with
                | [Frame.Bulk (some k)] =>
                    match s.get now (bytesToString k) with
                    | (some item, s') => (Frame.Bulk (some item.value), s')
                    | (none, s') => (Frame.null, s')
                | [_] => (Frame.Error "ERR invalid key", s)
                | _ => (Frame.Error "ERR wrong number of arguments for 'get' command", s)
              else if cmd = "SET" then
                match rest with
                | arg1 :: arg2 :: _ =>
                    match arg1 with
                    | Frame.Bulk (some k) =>
                        match arg2 with
                        | Frame.Bulk (some v) =>
                            (Frame.Simple "OK", (s.set now (bytesToString k) v 0 0).2)
                        | _ => (Frame.Error "ERR invalid value", s)
                    | _ => (Frame.Error "ERR invalid key", s)
                | _ => (Frame.Error "ERR wrong number of arguments for 'set' command", s)
              else if cmd = "DEL" then
                match rest with
                | [] => (Frame.Error "ERR wrong number of arguments for 'del' command", s)
                | _ =>
                    let out := rest.foldl
                      (fun (acc : Int × Storage) f =>
                        match f with
                        | Frame.Bulk (some key) =>
                            let del := acc.2.delete (bytesToString key)
                            if del.1 = StorageResult.Deleted then (acc.1 + 1, del.2)
                            else (acc.1, del.2)
                        | _ => acc)
                      (0, s)
                    (Frame.Integer out.1, out.2)
              else if cmd = "EXISTS" then
                match rest with
                | [] => (Frame.Error "ERR wrong number of arguments for 'exists' command", s)
                | _ =>
                    let out := rest.foldl
                      (fun (acc : Int × Storage) f =>
                        match f with
                        | Frame.Bulk (some key) =>
                            let g := acc.2.get now (bytesToString key)
                            if g.1.isSome then (acc.1 + 1, g.2) else (acc.1, g.2)
                        | _ => acc)
                      (0, s)
                    (Frame.Integer out.1, out.2)
              else if cmd = "FLUSHALL" || cmd = "FLUSHDB" then
                (Frame.Simple "OK", s.flush_all)
              else if cmd = "DBSIZE" then
                (Frame.Integer (Int.ofNat s.stats.item_count), s)
              else if cmd = "QUIT" then (Frame.Simple "OK", s)
              else (Frame.Error ("ERR unknown command '" ++ cmd ++ "'"), s)
          | _ => (Frame.Error "ERR invalid command", s)
  | _ => (Frame.Error "ERR invalid command format", s)

/-- `src/protocol.rs`: maximum key length allowed by the memcached
protocol. -/
def MAX_KEY_LENGTH : Nat := 250

/-- `find_crlf`: position of the first `\r` directly followed by `\n`. -/
def find_crlf (buffer : List Nat) : Option Nat :=
  let rec go : List Nat → Nat → Option Nat
    | b1 :: b2 :: rest, i =>
        if b1 = 13 && b2 = 10 then some i else go (b2 :: rest) (i + 1)
    | _, _ => none
  go buffer 0

/-- `str::split_whitespace` on ASCII bytes: maximal runs of
non-whitespace. -/
def splitWs (bs : List Nat) : List (List Nat) :=
  let rec go : List Nat → List Nat → List (List Nat)
    | [], cur => if cur.isEmpty then [] else [cur.reverse]
    | b :: rest, cur =>
        if isWsByte b then
          if cur.isEmpty then go rest [] else cur.reverse :: go rest []
        else go rest (b :: cur)
  go bs []

/-- `src/protocol.rs`: parsed memcached command. -/
inductive Command : Type
  | Get (keys : List String)
  | Gets (keys : List String)
  | Set (key : String) (flags exptime bytes : Nat) (noreply : Bool)
  | Add (key : String) (flags exptime bytes : Nat) (noreply : Bool)
  | Replace (key : String) (flags exptime bytes : Nat) (noreply : Bool)
  | Append (key : String) (flags exptime bytes : Nat) (noreply : Bool)
  | Prepend (key : String) (flags exptime bytes : Nat) (noreply : Bool)
  | Cas (key : String) (flags exptime bytes cas_unique : Nat) (noreply : Bool)
  | Delete (key : String) (noreply : Bool)
  | Incr (key : String) (value : Nat) (noreply : Bool)
  | Decr (key : String) (value : Nat) (noreply : Bool)
  | FlushAll (delay : Nat) (noreply : Bool)
  | Stats
  | Version
  | Quit
deriving DecidableEq, Repr

/-- `src/protocol.rs`: protocol parsing errors. -/
inductive ParseError : Type
  | Incomplete
  | InvalidCommand (msg : String)
  | KeyTooLong (key : String)
  | InvalidNumber (msg : String)
  | UnknownCommand (cmd : String)
deriving DecidableEq, Repr

/-- The `Display` impl for `ParseError`. -/
def ParseError.toString : ParseError → String
  | ParseError.Incomplete => "Incomplete command"
  | ParseError.InvalidCommand msg => "Invalid command: " ++ msg
  | ParseError.KeyTooLong key => "Key too long: " ++ key
  | ParseError.InvalidNumber msg => "Invalid number: " ++ msg
  | ParseError.UnknownCommand cmd => "Unknown command: " ++ cmd

/-- `src/protocol.rs`: result of parsing a command. -/
inductive ParseResult : Type
  | Complete (c : Command) (consumed : Nat)
  | NeedData (command_bytes data_bytes : Nat)
  | Error (e : ParseError)
deriving DecidableEq, Repr

/-- Field access `parts[i]`; every use is guarded by a length check, as in
the source. -/
def partAt (parts : List (List Nat)) (i : Nat) : List Nat := parts.getD i []

namespace Parser

/-- `Parser::parse_get`. -/
def parse_get (parts : List (List Nat)) (with_cas : Bool)
    (command_bytes : Nat) : ParseResult :=
  if parts.length < 2 then
    ParseResult.Error (ParseError.InvalidCommand "get requires at least one key")
  else
    match (parts.drop 1).find? (fun k => k.length > MAX_KEY_LENGTH) with
    | some k => ParseResult.Error (ParseError.KeyTooLong (bytesToString k))
    | none =>
        let keys := (parts.drop 1).map bytesToString
        ParseResult.Complete
          (if with_cas then Command.Gets keys else Command.Get keys)
          command_bytes

/-- `Parser::parse_storage` (set, add, replace, append, prepend). -/
def parse_storage (parts : List (List Nat)) (cmd : String)
    (command_bytes : Nat) : ParseResult :=
  if parts.length < 5 then
    ParseResult.Error (ParseError.InvalidCommand
      (cmd ++ " requires key, flags, exptime, and bytes"))
  else
    let key := partAt parts 1
    if key.length > MAX_KEY_LENGTH then
      ParseResult.Error (ParseError.KeyTooLong (bytesToString key))
    else if (parseU32 (partAt parts 2)).isNone then
      ParseResult.Error (ParseError.InvalidNumber
        ("Invalid flags: " ++ bytesToString (partAt parts 2)))
    else if (parseU64 (partAt parts 3)).isNone then
      ParseResult.Error (ParseError.InvalidNumber
        ("Invalid exptime: " ++ bytesToString (partAt parts 3)))
    else
      match parseU64 (partAt parts 4) with
      | some bytes => ParseResult.NeedData command_bytes bytes
      | none =>
          ParseResult.Error (ParseError.InvalidNumber
            ("Invalid bytes: " ++ bytesToString (partAt parts 4)))

/-- `Parser::parse_cas`. -/
def parse_cas (parts : List (List Nat)) (command_bytes : Nat) : ParseResult :=
  if parts.length < 6 then
    ParseResult.Error (ParseError.InvalidCommand
      "cas requires key, flags, exptime, bytes, and cas unique")
  else
    let key := partAt parts 1
    if key.length > MAX_KEY_LENGTH then
      ParseResult.Error (ParseError.KeyTooLong (bytesToString key))
    else
      match parseU64 (partAt parts 4) with
      | some bytes => ParseResult.NeedData command_bytes bytes
      | none =>
          ParseResult.Error (ParseError.InvalidNumber
            ("Invalid bytes: " ++ bytesToString (partAt parts 4)))

/-- `Parser::parse_delete`. -/
def parse_delete (parts : List (List Nat)) (command_bytes : Nat) :
    ParseResult :=
  if parts.length < 2 then
    ParseResult.Error (ParseError.InvalidCommand "delete requires a key")
  else
    let key := partAt parts 1
    if key.length > MAX_KEY_LENGTH then
      ParseResult.Error (ParseError.KeyTooLong (bytesToString key))
    else
      let noreply :=
        parts.length > 2 && eqIgnoreAsciiCase (partAt parts 2) (strBytes "noreply")
      ParseResult.Complete (Command.Delete (bytesToString key) noreply)
        command_bytes

/-- `Parser::parse_incr_decr`. -/
def parse_incr_decr (parts : List (List Nat)) (is_incr : Bool)
    (command_bytes : Nat) : ParseResult :=
  if parts.length < 3 then
    ParseResult.Error (ParseError.InvalidCommand
      ((if is_incr then "incr" else "decr") ++ " requires key and value"))
  else
    let key := partAt parts 1
    if key.length > MAX_KEY_LENGTH then
      ParseResult.Error (ParseError.KeyTooLong (bytesToString key))
    else
      match parseU64 (partAt parts 2) with
      | some value =>
          let noreply :=
            parts.length > 3 &&
              eqIgnoreAsciiCase (partAt parts 3) (strBytes "noreply")
          ParseResult.Complete
            (if is_incr then Command.Incr (bytesToString key) value noreply
             else Command.Decr (bytesToString key) value noreply)
            command_bytes
      | none =>
          ParseResult.Error (ParseError.InvalidNumber
            ("Invalid value: " ++ bytesToString (partAt parts 2)))

/-- `Parser::parse_flush_all`. -/
def parse_flush_all (parts : List (List Nat)) (command_bytes : Nat) :
    ParseResult :=
  let state :=
    if parts.length > 1 then
      if eqIgnoreAsciiCase (partAt parts 1) (strBytes "noreply") then
        (0, true)
      else
        ((parseU64 (partAt parts 1)).getD 0,
          parts.length > 2 &&
            eqIgnoreAsciiCase (partAt parts 2) (strBytes "noreply"))
    else (0, false)
  ParseResult.Complete (Command.FlushAll state.1 state.2) command_bytes

/-- `Parser::parse`. -/
def parse (buffer : List Nat) : ParseResult :=
  match find_crlf buffer with
  | none => ParseResult.Error ParseError.Incomplete
  | some line_end =>
      let lineBytes := buffer.take line_end
      if isAsciiBytes lineBytes then
        let parts := splitWs lineBytes
        match parts with
        | [] => ParseResult.Error (ParseError.InvalidCommand "Empty command")
        | p0 :: _ =>
            let command_name := bytesToString (p0.map lowerByte)
            let command_line_bytes := line_end + 2
            if command_name = "get" then
              parse_get parts false command_line_bytes
            else if command_name = "gets" then
              parse_get parts true command_line_bytes
            else if command_name = "set" then
              parse_storage parts "set" command_line_bytes
            else if command_name = "add" then
              parse_storage parts "add" command_line_bytes
            else if command_name = "replace" then
              parse_storage parts "replace" command_line_bytes
            else if command_name = "append" then
              parse_storage parts "append" command_line_bytes
            else if command_name = "prepend" then
              parse_storage parts "prepend" command_line_bytes
            else if command_name = "cas" then
              parse_cas parts command_line_bytes
            else if command_name = "delete" then
              parse_delete parts command_line_bytes
            else if command_name = "incr" then
              parse_incr_decr parts true command_line_bytes
            else if command_name = "decr" then
              parse_incr_decr parts false command_line_bytes
            else if command_name = "flush_all" then
              parse_flush_all parts command_line_bytes
            else if command_name = "stats" then
              ParseResult.Complete Command.Stats command_line_bytes
            else if command_name = "version" then
              ParseResult.Complete Command.Version command_line_bytes
            else if command_name = "quit" then
              ParseResult.Complete Command.Quit command_line_bytes
            else ParseResult.Error (ParseError.UnknownCommand command_name)
      else
        ParseResult.Error (ParseError.InvalidCommand "Invalid UTF-8 in command")

/-- `Parser::parse_with_data`: parse a storage command line together with
its data block. -/
def parse_with_data (buffer : List Nat) : ParseResult :=
  match find_crlf buffer with
  | none => ParseResult.Error ParseError.Incomplete
  | some line_end =>
      let lineBytes := buffer.take line_end
      if isAsciiBytes lineBytes then
        let parts := splitWs lineBytes
        match parts with
        | [] => ParseResult.Error (ParseError.InvalidCommand "Empty command")
        | p0 :: _ =>
            let command_name := bytesToString (p0.map lowerByte)
            let command_line_bytes := line_end + 2
            let sized :=
              if command_name = "set" || command_name = "add" ||
                  command_name = "replace" || command_name = "append" ||
                  command_name = "prepend" then
                if parts.length < 5 then
                  Except.error (ParseError.InvalidCommand
                    "Storage command missing parameters")
                else
                  match parseU64 (partAt parts 4) with
                  | some b => Except.ok (b, false)
                  | none => Except.error (ParseError.InvalidNumber "Invalid bytes")
              else if command_name = "cas" then
                if parts.length < 6 then
                  Except.error (ParseError.InvalidCommand
                    "cas command missing parameters")
                else
                  match parseU64 (partAt parts 4) with
                  | some b => Except.ok (b, true)
                  | none => Except.error (ParseError.InvalidNumber "Invalid bytes")
              else
                Except.error (ParseError.InvalidCommand "Not a storage command")
            match sized with
            | Except.error e => ParseResult.Error e
            | Except.ok (data_bytes, is_cas) =>
                let total_needed := command_line_bytes + data_bytes + 2
                if buffer.length < total_needed then
                  ParseResult.Error ParseError.Incomplete
                else if buffer.getD (command_line_bytes + data_bytes) 0 ≠ 13 ∨
                    buffer.getD (command_line_bytes + data_bytes + 1) 0 ≠ 10 then
                  ParseResult.Error (ParseError.InvalidCommand
                    "Data block must end with \\r\\n")
                else
                  let key := partAt parts 1
                  if key.length > MAX_KEY_LENGTH then
                    ParseResult.Error (ParseError.KeyTooLong (bytesToString key))
                  else
                    let keyS := bytesToString key
                    let flags := (parseU32 (partAt parts 2)).getD 0
                    let exptime := (parseU64 (partAt parts 3)).getD 0
                    let noreply :=
                      if is_cas then
                        parts.length > 6 &&
                          eqIgnoreAsciiCase (partAt parts 6) (strBytes "noreply")
                      else
                        parts.length > 5 &&
                          eqIgnoreAsciiCase (partAt parts 5) (strBytes "noreply")
                    let command :=
                      if command_name = "set" then
                        Command.Set keyS flags exptime data_bytes noreply
                      else if command_name = "add" then
                        Command.Add keyS flags exptime data_bytes noreply
                      else if command_name = "replace" then
                        Command.Replace keyS flags exptime data_bytes noreply
                      else if command_name = "append" then
                        Command.Append keyS flags exptime data_bytes noreply
                      else if command_name = "prepend" then
                        Command.Prepend keyS flags exptime data_bytes noreply
                      else
                        Command.Cas keyS flags exptime data_bytes
                          ((parseU64 (partAt parts 5)).getD 0) noreply
                    ParseResult.Complete command total_needed
      else
        ParseResult.Error (ParseError.InvalidCommand "Invalid UTF-8 in command")

end Parser

/-- `execute_command` from `src/runtime/request.rs` (non-storage
commands). -/
def execute_command (c : Command) (s : Storage) (now : Nat) :
    List Nat × Storage :=
  match c with
  | Command.Get keys =>
      let out := s.get_multi now keys
      (out.1.foldl
          (fun acc p => acc ++ Response.value p.1 p.2.flags p.2.value none)
          [] ++ Response.«end»,
        out.2)
  | Command.Gets keys =>
      let out := s.get_multi now keys
      (out.1.foldl
          (fun acc p =>
            acc ++ Response.value p.1 p.2.flags p.2.value (some p.2.cas_unique))
          [] ++ Response.«end»,
        out.2)
  | Command.Delete key noreply =>
      let out := s.delete key
      (if noreply then []
       else
         match out.1 with
         | StorageResult.Deleted => Response.deleted
         | _ => Response.not_found,
        out.2)
  | Command.Incr key value noreply =>
      let out := handle_incr_decr s now key value true
      (if noreply then [] else out.1, out.2)
  | Command.Decr key value noreply =>
      let out := handle_incr_decr s now key value false
      (if noreply then [] else out.1, out.2)
  | Command.FlushAll _ noreply =>
      (if noreply then [] else Response.ok, s.flush_all)
  | Command.Stats =>
      let st := s.stats
      (Response.stat "curr_items" (natToDec st.item_count) ++
         Response.stat "bytes" (natToDec st.memory_used) ++
         Response.stat "limit_maxbytes" (natToDec st.max_memory) ++
         Response.«end»,
        s)
  | Command.Version => (Response.version, s)
  | Command.Quit => ([], s)
  | _ => (Response.error, s)

/-- `execute_storage_command` from `src/runtime/request.rs`. -/
def execute_storage_command (c : Command) (s : Storage) (data : List Nat)
    (now : Nat) : List Nat × Storage :=
  match c with
  | Command.Set key flags exptime _ noreply =>
      let out := s.set now key data flags exptime
      (if noreply then []
       else
         match out.1 with
         | StorageResult.Stored => Response.stored
         | _ => Response.not_stored,
        out.2)
  | Command.Add key flags exptime _ noreply =>
      let out := s.add now key data flags exptime
      (if noreply then []
       else
         match out.1 with
         | StorageResult.Stored => Response.stored
         | _ => Response.not_stored,
        out.2)
  | Command.Replace key flags exptime _ noreply =>
      let out := s.replace now key data flags exptime
      (if noreply then []
       else
         match out.1 with
         | StorageResult.Stored => Response.stored
         | _ => Response.not_stored,
        out.2)
  | Command.Append key _ _ _ noreply =>
      let out := s.append now key data
      (if noreply then []
       else
         match out.1 with
         | StorageResult.Stored => Response.stored
         | _ => Response.not_stored,
        out.2)
  | Command.Prepend key _ _ _ noreply =>
      let out := s.prepend now key data
      (if noreply then []
       else
         match out.1 with
         | StorageResult.Stored => Response.stored
         | _ => Response.not_stored,
        out.2)
  | Command.Cas key flags exptime _ cas_unique noreply =>
      let out := s.cas now key data flags exptime cas_unique
      (if noreply then []
       else
         match out.1 with
         | StorageResult.Stored => Response.stored
         | StorageResult.CasMismatch => Response.exists_
         | StorageResult.NotFound => Response.not_found
         | _ => Response.not_stored,
        out.2)
  | _ => (Response.error, s)

/-- The sized-payload group of the dispatcher's `match &command`: the data
block length for the six storage commands, `none` for everything else. -/
def commandDataBytes : Command → Option Nat
  | Command.Set _ _ _ bytes _ => some bytes
  | Command.Add _ _ _ bytes _ => some bytes
  | Command.Replace _ _ _ bytes _ => some bytes
  | Command.Append _ _ _ bytes _ => some bytes
  | Command.Prepend _ _ _ bytes _ => some bytes
  | Command.Cas _ _ _ bytes _ _ => some bytes
  | _ => none

/-- `src/runtime/request.rs`: result of processing a buffer. -/
inductive ProcessResult : Type
  | NeedData
  | NeedChain (command_len value_len : Nat)
  | Response (consumed response_len : Nat)
  | LargeResponse (consumed : Nat) (response_data : List Nat)
  | Quit
  | Error
deriving DecidableEq, Repr

/-- `copy_response`: bytes written into the output buffer and their
count. -/
def copy_response (response : List Nat) (outputLen : Nat) : Nat × List Nat :=
  (min response.length outputLen, response.take outputLen)

/-- `process_memcached` from `src/runtime/request.rs`.  The fixed-size
output buffer is represented by its capacity `outputLen`; the function
returns the `ProcessResult`, the bytes written to the output buffer, and
the updated store. -/
def process_memcached (input : List Nat) (outputLen : Nat) (s : Storage)
    (max_value_size : Nat) (now : Nat) :
    ProcessResult × List Nat × Storage :=
  match Parser.parse input with
  | ParseResult.Complete command consumed =>
      if command = Command.Quit then (ProcessResult.Quit, [], s)
      else
        match commandDataBytes command with
        | some bytes =>
            if bytes > max_value_size then
              let response := Response.client_error "value too large"
              let copied := copy_response response outputLen
              (ProcessResult.Response consumed copied.1, copied.2, s)
            else
              let data_end := consumed + bytes + 2
              if input.length < data_end then
                if bytes > outputLen then
                  (ProcessResult.NeedChain consumed bytes, [], s)
                else (ProcessResult.NeedData, [], s)
              else
                let data := (input.drop consumed).take bytes
                let out := execute_storage_command command s data now
                let copied := copy_response out.1 outputLen
                (ProcessResult.Response data_end copied.1, copied.2, out.2)
        | none =>
            match command with
            | Command.Get _ =>
                let out := execute_command command s now
                if out.1.length > outputLen then
                  (ProcessResult.LargeResponse consumed out.1, [], out.2)
                else
                  let copied := copy_response out.1 outputLen
                  (ProcessResult.Response consumed copied.1, copied.2, out.2)
            | Command.Gets _ =>
                let out := execute_command command s now
                if out.1.length > outputLen then
                  (ProcessResult.LargeResponse consumed out.1, [], out.2)
                else
                  let copied := copy_response out.1 outputLen
                  (ProcessResult.Response consumed copied.1, copied.2, out.2)
            | _ =>
                let out := execute_command command s now
                let copied := copy_response out.1 outputLen
                (ProcessResult.Response consumed copied.1, copied.2, out.2)
  | ParseResult.NeedData command_bytes data_bytes =>
      if data_bytes > max_value_size then
        let response := Response.client_error "value too large"
        let copied := copy_response response outputLen
        (ProcessResult.Response (command_bytes + 2) copied.1, copied.2, s)
      else
        let total_needed := command_bytes + data_bytes + 2
        if input.length ≥ total_needed then
          match Parser.parse_with_data input with
          | ParseResult.Complete command consumed =>
              let data := (input.drop command_bytes).take data_bytes
              let out := execute_storage_command command s data now
              let copied := copy_response out.1 outputLen
              (ProcessResult.Response consumed copied.1, copied.2, out.2)
          | _ => (ProcessResult.NeedData, [], s)
        else if data_bytes > outputLen then
          (ProcessResult.NeedChain command_bytes data_bytes, [], s)
        else (ProcessResult.NeedData, [], s)
  | ParseResult.Error ParseError.Incomplete => (ProcessResult.NeedData, [], s)
  | ParseResult.Error _ => (ProcessResult.Error, [], s)

/-- `find_recovery_point` from `src/protocols/memcached/handler.rs`:
position just past the next CRLF. -/
def find_recovery_point (buffer : List Nat) : Option Nat :=
  (find_crlf buffer).map (· + 2)

/-- What one iteration of the tokio memcached connection loop
(`handle_connection` in `src/protocols/memcached/handler.rs`) decides to
do with the buffered bytes, before any socket I/O is performed. -/
inductive HandlerStep : Type
  | RunCommand (c : Command) (consumed : Nat)
  | CloseQuit (consumed : Nat)
  | AwaitData (command_bytes data_bytes : Nat)
  | ReadMore
  | RespondClientError (response : List Nat) (bufferAfter : List Nat)
deriving DecidableEq, Repr

/-- The parse dispatch of `handle_connection` in
`src/protocols/memcached/handler.rs`: on a non-`Incomplete` parse error the
handler answers `CLIENT_ERROR <display of the error>` and resumes after the
next CRLF (clearing the buffer when there is none), keeping the connection
open. -/
def memHandlerStep (buffer : List Nat) : HandlerStep :=
  match Parser.parse buffer with
  | ParseResult.Complete c consumed =>
      if c = Command.Quit then HandlerStep.CloseQuit consumed
      else HandlerStep.RunCommand c consumed
  | ParseResult.NeedData command_bytes data_bytes =>
      HandlerStep.AwaitData command_bytes data_bytes
  | ParseResult.Error ParseError.Incomplete => HandlerStep.ReadMore
  | ParseResult.Error e =>
      let response := Response.client_error (ParseError.toString e)
      match find_recovery_point buffer with
      | some pos => HandlerStep.RespondClientError response (buffer.drop pos)
      | none => HandlerStep.RespondClientError response []

/-- `src/runtime/buffer.rs`: per-worker buffer pool.  `free_list` is a
stack with its top at the end of the list, as with `Vec::push`/`pop`. -/
structure BufferPool : Type where
  buffers : List (List Nat)
  free_list : List Nat
  buffer_size : Nat
deriving Repr

/-- `BufferPool::new`. -/
def BufferPool.new (count size : Nat) : BufferPool :=
  { buffers := List.replicate count (List.replicate size 0)
    free_list := List.range count
    buffer_size := size }

/-- `BufferPool::alloc`: pop the free stack. -/
def BufferPool.alloc (p : BufferPool) : Option Nat × BufferPool :=
  match p.free_list.getLast? with
  | some idx => (some idx, { p with free_list := p.free_list.dropLast })
  | none => (none, p)

/-- `BufferPool::get` (and the read side of `get_mut`). -/
def BufferPool.get (p : BufferPool) (idx : Nat) : List Nat :=
  p.buffers.getD idx []

/-- Writing back a buffer obtained through `get_mut`. -/
def BufferPool.setBuf (p : BufferPool) (idx : Nat) (buf : List Nat) :
    BufferPool :=
  { p with buffers := p.buffers.set idx buf }

/-- `src/runtime/buffer.rs`: chain operation errors. -/
inductive ChainError : Type
  | PoolExhausted
  | ValueTooLarge
deriving DecidableEq, Repr

/-- `src/runtime/buffer.rs`: a chain of buffer indices. -/
structure BufferChain : Type where
  buffers : List Nat
  len : Nat
  buffer_size : Nat
deriving Repr

/-- `BufferChain::new`. -/
def BufferChain.new (buffer_size : Nat) : BufferChain :=
  { buffers := [], len := 0, buffer_size := buffer_size }

/-- `BufferChain::current_buffer_and_offset`: the write target for the next
chunk, allocating a fresh buffer when the tail is full (or the chain is
empty). -/
def BufferChain.current_buffer_and_offset (chain : BufferChain)
    (pool : BufferPool) :
    Except ChainError ((Nat × Nat) × BufferChain × BufferPool) :=
  if chain.buffers.isEmpty then
    match pool.alloc with
    | (some idx, pool') =>
        Except.ok ((idx, 0),
          { chain with buffers := chain.buffers ++ [idx] }, pool')
    | (none, _) => Except.error ChainError.PoolExhausted
  else
    let offset_in_last := chain.len % chain.buffer_size
    if offset_in_last = 0 ∧ 0 < chain.len then
      match pool.alloc with
      | (some idx, pool') =>
          Except.ok ((idx, 0),
            { chain with buffers := chain.buffers ++ [idx] }, pool')
      | (none, _) => Except.error ChainError.PoolExhausted
    else
      Except.ok ((chain.buffers.getLastD 0, offset_in_last), chain, pool)

/-- Overwriting `buf[offset .. offset + chunk.length]` with `chunk`
(`copy_from_slice`). -/
def writeAt (buf : List Nat) (offset : Nat) (chunk : List Nat) : List Nat :=
  buf.take offset ++ chunk ++ buf.drop (offset + chunk.length)

/-- The `while offset < data.len()` loop of `BufferChain::append`, as a
recursion on the data still to copy.  `fuel` bounds the iteration count;
`none` marks the one divergent configuration of the source
(`buffer_size = 0` with data left to write). -/
def BufferChain.appendAux :
    Nat → BufferChain → BufferPool → List Nat →
      Option (Except ChainError (BufferChain × BufferPool))
  | _, chain, pool, [] => some (Except.ok (chain, pool))
  | 0, _, _, _ :: _ => none
  | Nat.succ fuel, chain, pool, b :: bs =>
      match chain.current_buffer_and_offset pool with
      | Except.error e => some (Except.error e)
      | Except.ok ((buf_idx, buf_offset), chain1, pool1) =>
          let data := b :: bs
          let available := chain1.buffer_size - buf_offset
          let to_copy := min available data.length
          let pool2 := pool1.setBuf buf_idx
            (writeAt (pool1.get buf_idx) buf_offset (data.take to_copy))
          let chain2 := { chain1 with len := chain1.len + to_copy }
          BufferChain.appendAux fuel chain2 pool2 (data.drop to_copy)

/-- `BufferChain::append`.  Each loop pass copies at least one byte when
`buffer_size > 0`, so `data.length` passes always suffice. -/
def BufferChain.append (chain : BufferChain) (data : List Nat)
    (pool : BufferPool) :
    Option (Except ChainError (BufferChain × BufferPool)) :=
  BufferChain.appendAux data.length chain pool data

/-- `BufferChain::assemble`. -/
def BufferChain.assemble (chain : BufferChain) (pool : BufferPool) :
    List Nat :=
  (chain.buffers.foldl
      (fun (acc : List Nat × Nat) buf_idx =>
        let chunk_len := min acc.2 chain.buffer_size
        (acc.1 ++ (pool.get buf_idx).take chunk_len, acc.2 - chunk_len))
      ([], chain.len)).1

/-- `BufferChain::as_contiguous` (the borrowed/owned distinction of the
`Cow` result is not observable in the bytes and is dropped). -/
def BufferChain.as_contiguous (chain : BufferChain) (pool : BufferPool) :
    List Nat :=
  if chain.buffers.isEmpty then []
  else if chain.buffers.length = 1 then
    (pool.get (chain.buffers.getD 0 0)).take chain.len
  else chain.assemble pool

/-- A sequence of `append` calls that all succeed (the scenario of the
round-trip claim). -/
def chainAppendAll :
    BufferChain → BufferPool → List (List Nat) →
      Option (BufferChain × BufferPool)
  | chain, pool, [] => some (chain, pool)
  | chain, pool, d :: ds =>
      match chain.append d pool with
      | some (Except.ok (chain', pool')) => chainAppendAll chain' pool' ds
      | _ => none

/-- The memory attributed to one present entry: fixed overhead plus value
length plus key length (`CacheItem::memory_size() + key.len()`). -/
def entrySize (p : String × CacheItem) : Nat :=
  p.2.memory_size + p.1.utf8ByteSize

/-- The sum of `entrySize` over all present items — what the specification
says `memory_used` must equal. -/
def liveMemorySum (s : Storage) : Nat :=
  (s.data.map entrySize).sum

/-- Specification predicate: every key of the data map also appears in the
access-order map. -/
def keysCovered (s : Storage) : Prop :=
  ∀ k, (mapFind? s.data k).isSome = true →
    (mapFind? s.access_order k).isSome = true

/-- The CAS tokens of all present items, in map order. -/
def casTokens (s : Storage) : List Nat :=
  s.data.map (fun p => p.2.cas_unique)

/-- Specification predicate for CAS-token health: tokens of present items
are pairwise distinct and below the counter. -/
def CasInv (s : Storage) : Prop :=
  (casTokens s).Nodup ∧ ∀ t ∈ casTokens s, t < s.cas_counter

/-- An access-order entry whose key is present and live (what the
`find_lru_key` scan considers). -/
def isLiveEntry (s : Storage) (now : Nat) (p : String × Nat) : Bool :=
  match mapFind? s.data p.1 with
  | some item => !item.is_expired now
  | none => false

/-- All bytes held by the chain's buffers, in chain order. -/
def chainBytes (chain : BufferChain) (pool : BufferPool) : List Nat :=
  (chain.buffers.map pool.get).flatten

/-- Specification predicate: a well-formed pool whose buffers all have
length `bs` and whose free stack holds distinct valid indices. -/
def PoolInv (pool : BufferPool) (bs : Nat) : Prop :=
  pool.buffer_size = bs ∧
  (∀ b ∈ pool.buffers, b.length = bs) ∧
  pool.free_list.Nodup ∧
  (∀ i ∈ pool.free_list, i < pool.buffers.length)

/-- Specification predicate: the chain holds exactly `content`.  The chain's
indices are distinct, valid, and disjoint from the free stack; every buffer
before the last is full and the logical length bounds hold. -/
def ChainInv (chain : BufferChain) (pool : BufferPool) (bs : Nat)
    (content : List Nat) : Prop :=
  chain.buffer_size = bs ∧
  PoolInv pool bs ∧
  chain.buffers.Nodup ∧
  (∀ i ∈ chain.buffers, i < pool.buffers.length) ∧
  (∀ i ∈ chain.buffers, i ∉ pool.free_list) ∧
  chain.len = content.length ∧
  chain.len ≤ chain.buffers.length * bs ∧
  (chain.buffers = [] → chain.len = 0) ∧
  (chain.buffers ≠ [] → (chain.buffers.length - 1) * bs < chain.len) ∧
  (chainBytes chain pool).take chain.len = content

/-- The recursion underlying `BufferChain::assemble`'s fold: take
`min rem bs` bytes from each buffer in turn. -/
def assembleGo (bs : Nat) : List (List Nat) → Nat → List Nat
  | [], _ => []
  | buf :: rest, rem =>
      buf.take (min rem bs) ++ assembleGo bs rest (rem - min rem bs)

/-- The item built at the top of `Storage::set` (token = the counter value
before the bump). -/
def setNewItem (s : Storage) (now : Nat) (key : String) (v : List Nat)
    (fl ttl : Nat) : CacheItem :=
  { value := v, flags := fl, expires_at := s.calculate_expiry now ttl
    cas_unique := s.cas_counter, last_accessed := now }

/-- The store state of `Storage::set` right after `ensure_memory_available`
(counter already bumped). -/
def setEnsured (s : Storage) (now : Nat) (key : String) (v : List Nat)
    (fl ttl : Nat) : Storage :=
  ({ s with cas_counter := u64add s.cas_counter 1} :
    Storage).ensure_memory_available
    ((setNewItem s now key v fl ttl).memory_size + key.utf8ByteSize) now

/-- The store state of `Storage::set` after the old item's memory (if any)
has been subtracted. -/
def setMid (s : Storage) (now : Nat) (key : String) (v : List Nat)
    (fl ttl : Nat) : Storage :=
  match mapFind? (setEnsured s now key v fl ttl).data key with
  | some old_item =>
      { setEnsured s now key v fl ttl with
        memory_used :=
          u64sub (setEnsured s now key v fl ttl).memory_used
            (old_item.memory_size + key.utf8ByteSize) }
  | none => setEnsured s now key v fl ttl

/-!  Theorems.  Each claim of the specification is settled below; helper
lemmas precede the claim theorems that use them. -/

set_option maxRecDepth 100000

/-- C1: the accounting invariant `stats().memory_used = Σ (overhead +
value.len + key.len)` fails on the code.  Failing input: a store with
`max_memory = 200`, `set "a"` (10-byte value, entry size 75), `set "b"`
(20-byte value, entry size 85), then `cas "a"` with a 100-byte value and
the correct token 1.  The `cas` subtracts the old size of `"a"`, then its
eviction loop picks `"a"` itself (the LRU key, still present in the map)
and subtracts that size again, after which the new item is inserted: the
operation returns `Stored` with `memory_used = 175` while the live items
sum to 250. -/
theorem C1_memory_accounting_failing_input :
    ((runOps (Storage.new 200 0)
      [Op.set 0 "a" (List.replicate 10 0) 0 0,
       Op.set 0 "b" (List.replicate 20 0) 0 0]).cas 0 "a"
      (List.replicate 100 0) 0 0 1).1 = StorageResult.Stored ∧
    ((runOps (Storage.new 200 0)
      [Op.set 0 "a" (List.replicate 10 0) 0 0,
       Op.set 0 "b" (List.replicate 20 0) 0 0]).cas 0 "a"
      (List.replicate 100 0) 0 0 1).2.stats.memory_used = 175 ∧
    liveMemorySum ((runOps (Storage.new 200 0)
      [Op.set 0 "a" (List.replicate 10 0) 0 0,
       Op.set 0 "b" (List.replicate 20 0) 0 0]).cas 0 "a"
      (List.replicate 100 0) 0 0 1).2 = 250 ∧
    ((runOps (Storage.new 200 0)
      [Op.set 0 "a" (List.replicate 10 0) 0 0,
       Op.set 0 "b" (List.replicate 20 0) 0 0]).cas 0 "a"
      (List.replicate 100 0) 0 0 1).2.stats.memory_used ≠
      liveMemorySum ((runOps (Storage.new 200 0)
      [Op.set 0 "a" (List.replicate 10 0) 0 0,
       Op.set 0 "b" (List.replicate 20 0) 0 0]).cas 0 "a"
      (List.replicate 100 0) 0 0 1).2 := by
  decide

/-- C2, counterexample: `replace` observes an expired item and does not
remove it.  Store `"k"` with `ttl = 1` at instant 0; at instant 2 the item
is expired, yet `replace` returns `NotStored` and leaves `"k"` in the data
map. -/
theorem C2_counterexample_replace_keeps_expired :
    let s1 := ((Storage.new 1000 0).set 0 "k" (strBytes "v") 0 1).2
    let out := s1.replace 2 "k" (strBytes "w") 0 0
    (mapFind? s1.data "k").map (fun it => it.is_expired 2) = some true ∧
      out.1 = StorageResult.NotStored ∧
      (mapFind? out.2.data "k").isSome = true := by
  decide

/-- C3, counterexample: the eviction loop does not evict the present key
with the smallest access-sequence number.  With `max_memory = 200`, store
`"a"` (sequence 0, `ttl = 1`) and `"b"` (sequence 1); at instant 2 the
expired `"a"` is still present, and a third `set` must evict.  The code
skips the expired `"a"` and evicts the live `"b"` (sequence 1), keeping
`"a"` — the present key with the smallest sequence number survives while a
larger-sequence key is evicted. -/
theorem C3_counterexample_evicts_live_not_min_seq :
    let s2 := runOps (Storage.new 200 0)
      [Op.set 0 "a" (List.replicate 10 0) 0 1,
       Op.set 0 "b" (List.replicate 10 0) 0 0]
    let s3 := (s2.set 2 "c" (List.replicate 10 0) 0 0).2
    mapFind? s2.access_order "a" = some 0 ∧
      mapFind? s2.access_order "b" = some 1 ∧
      (mapFind? s2.data "a").isSome = true ∧
      (mapFind? s3.data "a").isSome = true ∧
      mapFind? s3.data "b" = none := by
  decide

/-- C5, counterexample: `append` on an expired item removes the key from
the data map but not from the access-order map, so the two maps do not
hold the same keys afterwards. -/
theorem C5_counterexample_stale_access_order :
    let s1 := ((Storage.new 1000 0).set 0 "k" (strBytes "v") 0 1).2
    let out := s1.append 2 "k" (strBytes "x")
    out.1 = StorageResult.NotStored ∧
      mapFind? out.2.data "k" = none ∧
      (mapFind? out.2.access_order "k").isSome = true := by
  decide

/-- C7, counterexample: the custom runtime's RESP executor
(`execute_resp_command` in `src/runtime/request.rs`) ignores the `NX` and
`XX` options of `SET`: `SET k v NX XX` performs a plain set and answers
`+OK`, not an error frame. -/
theorem C7_counterexample_dispatcher_ignores_nx_xx :
    (execute_resp_command
        (Frame.Array (some
          [Frame.Bulk (some (strBytes "SET")),
           Frame.Bulk (some (strBytes "k")),
           Frame.Bulk (some (strBytes "v")),
           Frame.Bulk (some (strBytes "NX")),
           Frame.Bulk (some (strBytes "XX"))]))
        (Storage.new 1000 0) 0).1 = Frame.Simple "OK" := by
  rfl

/-- C8, counterexample: on a 251-byte key the custom runtime's dispatcher
(`process_memcached` in `src/runtime/request.rs`) does not answer
`CLIENT_ERROR` and continue — it returns `ProcessResult::Error`, upon
which the event loop closes the connection. -/
theorem C8_counterexample_dispatcher_closes :
    (process_memcached
        (strBytes ("get " ++ String.mk (List.replicate 251 'k') ++ "\r\n"))
        16384 (Storage.new 1000 0) 1048576 0).1 = ProcessResult.Error := by
  decide

/-! Association-list helper lemmas. -/

theorem mapFind?_insert_self {α : Type} (l : List (String × α)) (k : String)
    (v : α) : mapFind? (mapInsert l k v) k = some v := by
  induction l with
  | nil => simp [mapInsert, mapFind?]
  | cons p rest ih =>
      obtain ⟨a, w⟩ := p
      by_cases h : a = k
      · simp [mapInsert, h, mapFind?]
      · simp [mapInsert, h, mapFind?, ih]

theorem mapFind?_insert_ne {α : Type} (l : List (String × α)) (k k' : String)
    (v : α) (h : k' ≠ k) :
    mapFind? (mapInsert l k v) k' = mapFind? l k' := by
  have hkk : (k = k') = False := eq_false fun he => h he.symm
  induction l with
  | nil => simp [mapInsert, mapFind?, hkk]
  | cons p rest ih =>
      obtain ⟨a, w⟩ := p
      by_cases ha : a = k
      · simp [mapInsert, ha, mapFind?, hkk]
      · by_cases ha' : a = k'
        · simp [mapInsert, ha, mapFind?, ha', h]
        · simp [mapInsert, ha, mapFind?, ha', ih]

theorem mapFind?_erase_self {α : Type} (l : List (String × α)) (k : String) :
    mapFind? (mapErase l k) k = none := by
  induction l with
  | nil => simp [mapErase, mapFind?]
  | cons p rest ih =>
      obtain ⟨a, w⟩ := p
      by_cases h : a = k
      · simpa [mapErase, List.filter_cons, h, mapFind?] using ih
      · simpa [mapErase, List.filter_cons, h, mapFind?] using ih

theorem mapFind?_erase_ne {α : Type} (l : List (String × α)) (k k' : String)
    (h : k' ≠ k) : mapFind? (mapErase l k) k' = mapFind? l k' := by
  induction l with
  | nil => simp [mapErase, mapFind?]
  | cons p rest ih =>
      obtain ⟨a, w⟩ := p
      by_cases ha : a = k
      · have hkk : (k = k') = False := eq_false fun he => h he.symm
        simpa [mapErase, List.filter_cons, ha, mapFind?, hkk] using ih
      · by_cases ha' : a = k'
        · simp [mapErase, List.filter_cons, ha, mapFind?, ha', h]
        · simpa [mapErase, List.filter_cons, ha, mapFind?, ha'] using ih

/-! Small projection lemmas for the storage helpers. -/

@[simp] theorem record_access_data (s : Storage) (key : String) :
    (s.record_access key).data = s.data := rfl

@[simp] theorem record_access_max (s : Storage) (key : String) :
    (s.record_access key).max_memory = s.max_memory := rfl

@[simp] theorem delete_data_find_self (s : Storage) (k : String) :
    mapFind? ((s.delete k).2).data k = none := by
  unfold Storage.delete
  cases h : mapFind? s.data k with
  | none => simpa using h
  | some it => simpa using mapFind?_erase_self s.data k

theorem delete_preserves_none (st : Storage) (k e : String)
    (h : mapFind? st.data k = none) :
    mapFind? (((st.delete e)).2).data k = none := by
  unfold Storage.delete
  cases hf : mapFind? st.data e with
  | none => simpa using h
  | some it =>
      by_cases hke : k = e
      · subst hke
        simpa using mapFind?_erase_self st.data k
      · simpa [mapFind?_erase_ne st.data e k hke] using h

theorem foldl_delete_none (E : List String) :
    ∀ (st : Storage) (k : String), mapFind? st.data k = none →
      mapFind? ((E.foldl (fun st k => (st.delete k).2) st)).data k = none := by
  induction E with
  | nil => intro st k h; simpa using h
  | cons e rest ih =>
      intro st k h
      rw [List.foldl_cons]
      exact ih _ k (delete_preserves_none st k e h)

theorem foldl_delete_mem (E : List String) :
    ∀ (st : Storage) (k : String), k ∈ E →
      mapFind? ((E.foldl (fun st k => (st.delete k).2) st)).data k = none := by
  induction E with
  | nil => intro st k h; exact absurd h (List.not_mem_nil k)
  | cons e rest ih =>
      intro st k h
      rw [List.foldl_cons]
      by_cases hk : k ∈ rest
      · exact ih _ k hk
      · have hke : k = e := by
          cases h with
          | head => rfl
          | tail _ h2 => exact absurd h2 hk
        subst hke
        exact foldl_delete_none rest _ k (delete_data_find_self st k)

/-- C2, amended: an item whose expiration instant is in the past is never
returned — `get` and `get_multi` return only live items, and `get`,
`get_multi`, `cas`, `append`, `prepend`, `incr` and `decr` all remove an
expired item they observe; but `replace` returns `NotStored` leaving the
expired item untouched, and `add` proceeds to `set`, overwriting it. -/
theorem C2_amended_expired_indistinguishable :
    (∀ (s : Storage) (now : Nat) (k : String) (it : CacheItem),
        (s.get now k).1 = some it → it.is_expired now = false) ∧
    (∀ (s : Storage) (now : Nat) (k : String) (it : CacheItem),
        mapFind? s.data k = some it → it.is_expired now = true →
          (s.get now k).1 = none ∧
          mapFind? ((s.get now k).2).data k = none) ∧
    (∀ (s : Storage) (now : Nat) (keys : List String)
        (p : String × CacheItem), p ∈ (s.get_multi now keys).1 →
          p.2.is_expired now = false) ∧
    (∀ (s : Storage) (now : Nat) (keys : List String) (k : String)
        (it : CacheItem), k ∈ keys →
        mapFind? s.data k = some it → it.is_expired now = true →
          mapFind? ((s.get_multi now keys).2).data k = none) ∧
    (∀ (s : Storage) (now : Nat) (k : String) (it : CacheItem)
        (v : List Nat) (fl ttl tok : Nat),
        mapFind? s.data k = some it → it.is_expired now = true →
          (s.cas now k v fl ttl tok).1 = StorageResult.NotFound ∧
          mapFind? ((s.cas now k v fl ttl tok).2).data k = none) ∧
    (∀ (s : Storage) (now : Nat) (k : String) (it : CacheItem)
        (d : List Nat),
        mapFind? s.data k = some it → it.is_expired now = true →
          (s.append now k d).1 = StorageResult.NotStored ∧
          mapFind? ((s.append now k d).2).data k = none) ∧
    (∀ (s : Storage) (now : Nat) (k : String) (it : CacheItem)
        (d : List Nat),
        mapFind? s.data k = some it → it.is_expired now = true →
          (s.prepend now k d).1 = StorageResult.NotStored ∧
          mapFind? ((s.prepend now k d).2).data k = none) ∧
    (∀ (s : Storage) (now : Nat) (k : String) (it : CacheItem)
        (delta : Nat) (b : Bool),
        mapFind? s.data k = some it → it.is_expired now = true →
          (handle_incr_decr s now k delta b).1 = Response.not_found ∧
          mapFind? ((handle_incr_decr s now k delta b).2).data k = none) ∧
    (∀ (s : Storage) (now : Nat) (k : String) (it : CacheItem)
        (v : List Nat) (fl ttl : Nat),
        mapFind? s.data k = some it → it.is_expired now = true →
          s.replace now k v fl ttl = (StorageResult.NotStored, s)) ∧
    (∀ (s : Storage) (now : Nat) (k : String) (it : CacheItem)
        (v : List Nat) (fl ttl : Nat),
        mapFind? s.data k = some it → it.is_expired now = true →
          s.add now k v fl ttl = s.set now k v fl ttl) := by
  have hget : ∀ (s : Storage) (now : Nat) (k : String) (it : CacheItem),
      mapFind? s.data k = some it → it.is_expired now = true →
        (s.get now k).1 = none ∧
        mapFind? ((s.get now k).2).data k = none := by
    intro s now k it hfind hexp
    unfold Storage.get
    rw [hfind]
    simp [hexp]
  refine ⟨?_, hget, ?_, ?_, ?_, ?_, ?_, ?_, ?_, ?_⟩
  · intro s now k it h
    unfold Storage.get at h
    cases hfind : mapFind? s.data k with
    | none => rw [hfind] at h; simp at h
    | some it' =>
        rw [hfind] at h
        by_cases hexp : it'.is_expired now = true
        · simp [hexp] at h
        · simp [hexp] at h
          rw [← h]
          simpa using hexp
  · intro s now keys p hp
    unfold Storage.get_multi at hp
    simp only at hp
    have aux : ∀ (ks : List String)
        (acc : List (String × CacheItem) × List String × Storage),
        (∀ q ∈ acc.1, q.2.is_expired now = false) →
        ∀ q ∈ (ks.foldl
            (fun (acc : List (String × CacheItem) × List String × Storage) key =>
              match mapFind? acc.2.2.data key with
              | some item =>
                  if item.is_expired now then (acc.1, acc.2.1 ++ [key], acc.2.2)
                  else (acc.1 ++ [(key, item)], acc.2.1,
                    acc.2.2.record_access key)
              | none => acc)
            acc).1, q.2.is_expired now = false := by
      intro ks
      induction ks with
      | nil => intro acc hacc q hq; exact hacc q hq
      | cons key rest ih =>
          intro acc hacc q hq
          rw [List.foldl_cons] at hq
          refine ih _ ?_ q hq
          cases hfind : mapFind? acc.2.2.data key with
          | none => simpa [hfind] using hacc
          | some item =>
              by_cases hexp : item.is_expired now = true
              · simpa [hfind, hexp] using hacc
              · simp only [hfind, hexp]
                simp only [Bool.false_eq_true, if_false]
                intro q hq
                rcases List.mem_append.mp hq with hq1 | hq2
                · exact hacc q hq1
                · simp at hq2
                  rw [hq2]
                  simpa using hexp
    exact aux keys ([], [], s) (by simp) p hp
  · intro s now keys k it hk hfind hexp
    have aux2 : ∀ (ks : List String)
        (acc : List (String × CacheItem) × List String × Storage),
        acc.2.2.data = s.data →
        ((ks.foldl
            (fun (acc : List (String × CacheItem) × List String × Storage) key =>
              match mapFind? acc.2.2.data key with
              | some item =>
                  if item.is_expired now then (acc.1, acc.2.1 ++ [key], acc.2.2)
                  else (acc.1 ++ [(key, item)], acc.2.1,
                    acc.2.2.record_access key)
              | none => acc)
            acc).2.2.data = s.data ∧
          ∀ k0, (k0 ∈ acc.2.1 ∨ (k0 ∈ ks ∧ ∃ it0,
              mapFind? s.data k0 = some it0 ∧ it0.is_expired now = true)) →
            k0 ∈ (ks.foldl
              (fun (acc : List (String × CacheItem) × List String × Storage) key =>
                match mapFind? acc.2.2.data key with
                | some item =>
                    if item.is_expired now then
                      (acc.1, acc.2.1 ++ [key], acc.2.2)
                    else (acc.1 ++ [(key, item)], acc.2.1,
                      acc.2.2.record_access key)
                | none => acc)
              acc).2.1) := by
      intro ks
      induction ks with
      | nil =>
          intro acc hdata
          refine ⟨hdata, ?_⟩
          intro k0 hk0
          rcases hk0 with h | ⟨hmem, _⟩
          · exact h
          · exact absurd hmem (List.not_mem_nil k0)
      | cons key rest ih =>
          intro acc hdata
          rw [List.foldl_cons]
          cases hfind2 : mapFind? acc.2.2.data key with
          | none =>
              simp only [hfind2]
              obtain ⟨ihd, ihm⟩ := ih acc hdata
              refine ⟨ihd, ?_⟩
              intro k0 hk0
              apply ihm
              rcases hk0 with h | ⟨hmem, hex⟩
              · exact Or.inl h
              · cases hmem with
                | head =>
                    exfalso
                    obtain ⟨it0, hit0, _⟩ := hex
                    rw [← hdata, hfind2] at hit0
                    exact Option.noConfusion hit0
                | tail _ h2 => exact Or.inr ⟨h2, hex⟩
          | some item =>
              by_cases hexp2 : item.is_expired now = true
              · simp only [hfind2, hexp2, if_true]
                obtain ⟨ihd, ihm⟩ :=
                  ih (acc.1, acc.2.1 ++ [key], acc.2.2) (by simpa using hdata)
                refine ⟨ihd, ?_⟩
                intro k0 hk0
                apply ihm
                rcases hk0 with h | ⟨hmem, hex⟩
                · exact Or.inl (by simp [h])
                · cases hmem with
                  | head => exact Or.inl (by simp)
                  | tail _ h2 => exact Or.inr ⟨h2, hex⟩
              · have hexp3 : item.is_expired now = false := by
                  simpa using hexp2
                simp only [hfind2, hexp3, Bool.false_eq_true, if_false]
                obtain ⟨ihd, ihm⟩ :=
                  ih (acc.1 ++ [(key, item)], acc.2.1,
                    acc.2.2.record_access key) (by simpa using hdata)
                refine ⟨ihd, ?_⟩
                intro k0 hk0
                apply ihm
                rcases hk0 with h | ⟨hmem, hex⟩
                · exact Or.inl h
                · cases hmem with
                  | head =>
                      exfalso
                      obtain ⟨it0, hit0, hex0⟩ := hex
                      rw [← hdata, hfind2] at hit0
                      have heq : item = it0 := Option.some_inj.mp hit0
                      rw [← heq] at hex0
                      rw [hexp3] at hex0
                      exact Bool.noConfusion hex0
                  | tail _ h2 => exact Or.inr ⟨h2, hex⟩
    have hmem := (aux2 keys ([], [], s) rfl).2 k
      (Or.inr ⟨hk, it, hfind, hexp⟩)
    exact foldl_delete_mem _ _ k hmem
  · intro s now k it v fl ttl tok hfind hexp
    unfold Storage.cas
    rw [hfind]
    simp [hexp, mapFind?_erase_self]
  · intro s now k it d hfind hexp
    unfold Storage.append
    rw [hfind]
    simp [hexp, mapFind?_erase_self]
  · intro s now k it d hfind hexp
    unfold Storage.prepend
    rw [hfind]
    simp [hexp, mapFind?_erase_self]
  · intro s now k it delta b hfind hexp
    have h := hget s now k it hfind hexp
    unfold handle_incr_decr
    cases hg : s.get now k with
    | mk fst snd =>
        cases fst with
        | none =>
            constructor
            · simp
            · have : snd = (s.get now k).2 := by rw [hg]
              rw [this]
              exact h.2
        | some it' =>
            exfalso
            have : (s.get now k).1 = some it' := by rw [hg]
            rw [h.1] at this
            exact Option.noConfusion this
  · intro s now k it v fl ttl hfind hexp
    unfold Storage.replace
    rw [hfind]
    simp [hexp]
  · intro s now k it v fl ttl hfind hexp
    unfold Storage.add
    rw [hfind]
    simp [hexp]

/-- Witness for the amended C2 theorem at a concrete expired item:
`set "k" v` with `ttl 1` at instant 0, observed at instant 2. -/
theorem C2_amended_witness :
    ((((Storage.new 1000 0).set 0 "k" (strBytes "v") 0 1).2).get 2 "k").1
        = none ∧
      mapFind?
        (((((Storage.new 1000 0).set 0 "k" (strBytes "v") 0 1).2).get 2
            "k").2).data "k" = none := by
  refine C2_amended_expired_indistinguishable.2.1
    (((Storage.new 1000 0).set 0 "k" (strBytes "v") 0 1).2) 2 "k"
    { value := strBytes "v", flags := 0, expires_at := some 1,
      cas_unique := 1, last_accessed := 0 } (by decide) (by decide)

/-! Preservation of `keysCovered` (data keys appear in the access-order
map) by every helper and operation. -/

theorem keysCovered_record_access (s : Storage) (key : String)
    (h : keysCovered s) : keysCovered (s.record_access key) := by
  intro k hk
  simp only [Storage.record_access] at hk ⊢
  by_cases hkey : k = key
  · subst hkey; simp [mapFind?_insert_self]
  · rw [mapFind?_insert_ne _ _ _ _ hkey]
    exact h k hk

theorem keysCovered_delete (s : Storage) (key : String)
    (h : keysCovered s) : keysCovered ((s.delete key)).2 := by
  unfold Storage.delete
  cases hfind : mapFind? s.data key with
  | none => exact h
  | some it =>
      intro k hk
      simp only at hk ⊢
      by_cases hkey : k = key
      · subst hkey; rw [mapFind?_erase_self] at hk; simp at hk
      · rw [mapFind?_erase_ne _ _ _ hkey] at hk
        rw [mapFind?_erase_ne _ _ _ hkey]
        exact h k hk

theorem keysCovered_ensureAux (needed now : Nat) :
    ∀ (fuel : Nat) (s : Storage), keysCovered s →
      keysCovered (Storage.ensureMemAux needed now fuel s) := by
  intro fuel
  induction fuel with
  | zero => intro s h; exact h
  | succ n ih =>
      intro s h
      unfold Storage.ensureMemAux
      by_cases hover : u64add s.memory_used needed > s.max_memory
      · simp only [hover, if_true]
        cases hl : s.find_lru_key now with
        | some k => exact ih _ (keysCovered_delete s k h)
        | none => exact h
      · simp only [hover, if_false]
        exact h

theorem keysCovered_ensure (s : Storage) (needed now : Nat)
    (h : keysCovered s) :
    keysCovered (s.ensure_memory_available needed now) :=
  keysCovered_ensureAux needed now _ s h

theorem keysCovered_insert_record (sE : Storage) (key : String)
    (it : CacheItem) (m : Nat) (h : keysCovered sE) :
    keysCovered (Storage.record_access
      { sE with data := mapInsert sE.data key it, memory_used := m } key) := by
  intro k hk
  simp only [Storage.record_access] at hk ⊢
  by_cases hkey : k = key
  · subst hkey; simp [mapFind?_insert_self]
  · rw [mapFind?_insert_ne _ _ _ _ hkey]
    rw [mapFind?_insert_ne _ _ _ _ hkey] at hk
    exact h k hk

theorem keysCovered_set (s : Storage) (now : Nat) (key : String)
    (v : List Nat) (fl ttl : Nat) (h : keysCovered s) :
    keysCovered ((s.set now key v fl ttl)).2 := by
  have h2 : keysCovered
      (({ s with cas_counter := u64add s.cas_counter 1} :
        Storage).ensure_memory_available
        (itemOverhead + v.length + key.utf8ByteSize) now) :=
    keysCovered_ensure _ _ _ h
  intro k hk
  simp only [Storage.set, Storage.next_cas_unique, Storage.record_access,
    CacheItem.memory_size] at hk ⊢
  by_cases hkey : k = key
  · subst hkey; simp [mapFind?_insert_self]
  · rw [mapFind?_insert_ne _ _ _ _ hkey]
    rw [mapFind?_insert_ne _ _ _ _ hkey] at hk
    revert hk
    cases hfind : mapFind?
        (({ s with cas_counter := u64add s.cas_counter 1} :
          Storage).ensure_memory_available
          (itemOverhead + v.length + key.utf8ByteSize) now).data key with
    | none => simp only [hfind]; exact h2 k
    | some old => simp only [hfind]; exact h2 k

theorem keysCovered_get (s : Storage) (now : Nat) (key : String)
    (h : keysCovered s) : keysCovered ((s.get now key)).2 := by
  unfold Storage.get
  cases hfind : mapFind? s.data key with
  | none => exact h
  | some it =>
      by_cases hexp : it.is_expired now = true
      · simp only [hexp, if_true]
        exact keysCovered_delete s key h
      · simp only [hexp]
        simp only [Bool.false_eq_true, if_false]
        exact keysCovered_record_access s key h

theorem keysCovered_foldl_delete (l : List String) :
    ∀ (s : Storage), keysCovered s →
      keysCovered (l.foldl (fun st k => (st.delete k).2) s) := by
  induction l with
  | nil => intro s h; exact h
  | cons k rest ih =>
      intro s h
      rw [List.foldl_cons]
      exact ih _ (keysCovered_delete s k h)

theorem keysCovered_get_multi (s : Storage) (now : Nat)
    (keys : List String) (h : keysCovered s) :
    keysCovered ((s.get_multi now keys)).2 := by
  unfold Storage.get_multi
  simp only
  have aux : ∀ (ks : List String)
      (acc : List (String × CacheItem) × List String × Storage),
      keysCovered acc.2.2 →
      keysCovered ((ks.foldl
        (fun (acc : List (String × CacheItem) × List String × Storage) key =>
          match mapFind? acc.2.2.data key with
          | some item =>
              if item.is_expired now then (acc.1, acc.2.1 ++ [key], acc.2.2)
              else (acc.1 ++ [(key, item)], acc.2.1,
                acc.2.2.record_access key)
          | none => acc)
        acc)).2.2 := by
    intro ks
    induction ks with
    | nil => intro acc hacc; exact hacc
    | cons key rest ih =>
        intro acc hacc
        rw [List.foldl_cons]
        refine ih _ ?_
        cases hfind : mapFind? acc.2.2.data key with
        | none => simpa [hfind] using hacc
        | some item =>
            by_cases hexp : item.is_expired now = true
            · simpa [hfind, hexp] using hacc
            · simp only [hfind, hexp, Bool.false_eq_true, if_false]
              exact keysCovered_record_access _ key hacc
  exact keysCovered_foldl_delete _ _ (aux keys ([], [], s) h)

theorem keysCovered_add (s : Storage) (now : Nat) (key : String)
    (v : List Nat) (fl ttl : Nat) (h : keysCovered s) :
    keysCovered ((s.add now key v fl ttl)).2 := by
  unfold Storage.add
  cases hfind : mapFind? s.data key with
  | none => exact keysCovered_set s now key v fl ttl h
  | some it =>
      by_cases hexp : it.is_expired now = true
      · simp only [hexp, if_true]
        exact keysCovered_set s now key v fl ttl h
      · simp only [hexp, Bool.false_eq_true, if_false]
        exact h

theorem keysCovered_replace (s : Storage) (now : Nat) (key : String)
    (v : List Nat) (fl ttl : Nat) (h : keysCovered s) :
    keysCovered ((s.replace now key v fl ttl)).2 := by
  unfold Storage.replace
  cases hfind : mapFind? s.data key with
  | none => exact h
  | some it =>
      by_cases hexp : it.is_expired now = true
      · simp only [hexp, if_true]; exact h
      · simp only [hexp, Bool.false_eq_true, if_false]
        exact keysCovered_set s now key v fl ttl h

theorem keysCovered_dataErase (s : Storage) (key : String) (m : Nat)
    (h : keysCovered s) :
    keysCovered { s with data := mapErase s.data key, memory_used := m } := by
  intro k hk
  simp only at hk ⊢
  by_cases hkey : k = key
  · subst hkey; rw [mapFind?_erase_self] at hk; simp at hk
  · rw [mapFind?_erase_ne _ _ _ hkey] at hk
    exact h k hk

theorem keysCovered_cas (s : Storage) (now : Nat) (key : String)
    (v : List Nat) (fl ttl tok : Nat) (h : keysCovered s) :
    keysCovered ((s.cas now key v fl ttl tok)).2 := by
  unfold Storage.cas
  cases hfind : mapFind? s.data key with
  | none => exact h
  | some it =>
      by_cases hexp : it.is_expired now = true
      · simp only [hexp, if_true]
        exact keysCovered_dataErase s key _ h
      · simp only [hexp, Bool.false_eq_true, if_false]
        by_cases htok : it.cas_unique ≠ tok
        · simp only [if_pos htok]
          exact h
        · simp only [if_neg htok]
          exact keysCovered_insert_record _ key _ _
            (keysCovered_ensure _ _ _ h)

theorem keysCovered_append (s : Storage) (now : Nat) (key : String)
    (d : List Nat) (h : keysCovered s) :
    keysCovered ((s.append now key d)).2 := by
  unfold Storage.append
  cases hfind : mapFind? s.data key with
  | none => exact h
  | some it =>
      by_cases hexp : it.is_expired now = true
      · simp only [hexp, if_true]
        exact keysCovered_dataErase s key _ h
      · simp only [hexp, Bool.false_eq_true, if_false]
        by_cases hover : u64add s.memory_used d.length > s.max_memory
        · simp only [hover, if_true]
          have h1 : keysCovered (s.ensure_memory_available d.length now) :=
            keysCovered_ensure _ _ _ h
          cases hfind1 : mapFind? (s.ensure_memory_available d.length now).data
              key with
          | none => exact h1
          | some it1 =>
              by_cases hexp1 : it1.is_expired now = true
              · simp only [hexp1, if_true]
                exact h1
              · simp only [hexp1, Bool.false_eq_true, if_false]
                exact keysCovered_insert_record _ key _ _ h1
        · simp only [hover, if_false]
          exact keysCovered_insert_record _ key _ _ h

theorem keysCovered_prepend (s : Storage) (now : Nat) (key : String)
    (d : List Nat) (h : keysCovered s) :
    keysCovered ((s.prepend now key d)).2 := by
  unfold Storage.prepend
  cases hfind : mapFind? s.data key with
  | none => exact h
  | some it =>
      by_cases hexp : it.is_expired now = true
      · simp only [hexp, if_true]
        exact keysCovered_dataErase s key _ h
      · simp only [hexp, Bool.false_eq_true, if_false]
        by_cases hover : u64add s.memory_used d.length > s.max_memory
        · simp only [hover, if_true]
          have h1 : keysCovered (s.ensure_memory_available d.length now) :=
            keysCovered_ensure _ _ _ h
          cases hfind1 : mapFind? (s.ensure_memory_available d.length now).data
              key with
          | none => exact h1
          | some it1 =>
              by_cases hexp1 : it1.is_expired now = true
              · simp only [hexp1, if_true]
                exact h1
              · simp only [hexp1, Bool.false_eq_true, if_false]
                exact keysCovered_insert_record _ key _ _ h1
        · simp only [hover, if_false]
          exact keysCovered_insert_record _ key _ _ h

theorem keysCovered_incr_decr (s : Storage) (now : Nat) (key : String)
    (delta : Nat) (b : Bool) (h : keysCovered s) :
    keysCovered ((handle_incr_decr s now key delta b)).2 := by
  have hget := keysCovered_get s now key h
  unfold handle_incr_decr
  cases hg : s.get now key with
  | mk fst snd =>
      have hsnd : keysCovered snd := by
        have : snd = (s.get now key).2 := by rw [hg]
        rw [this]; exact hget
      cases fst with
      | none => exact hsnd
      | some it =>
          by_cases hascii : isAsciiBytes it.value = true
          · simp only [hascii, if_true]
            cases hp : parseU64 (trimAscii it.value) with
            | none => exact hsnd
            | some current =>
                exact keysCovered_set snd now key _ it.flags 0 hsnd
          · simp only [hascii, Bool.false_eq_true, if_false]
            exact hsnd

theorem keysCovered_applyOp (s : Storage) (op : Op) (h : keysCovered s) :
    keysCovered (applyOp s op) := by
  cases op with
  | get now key => exact keysCovered_get s now key h
  | get_multi now keys => exact keysCovered_get_multi s now keys h
  | set now key v fl ttl => exact keysCovered_set s now key v fl ttl h
  | add now key v fl ttl => exact keysCovered_add s now key v fl ttl h
  | replace now key v fl ttl => exact keysCovered_replace s now key v fl ttl h
  | cas now key v fl ttl tok => exact keysCovered_cas s now key v fl ttl tok h
  | append now key d => exact keysCovered_append s now key d h
  | prepend now key d => exact keysCovered_prepend s now key d h
  | delete key => exact keysCovered_delete s key h
  | flush_all => intro k hk; simp [Storage.flush_all, mapFind?] at hk
  | cleanup now =>
      exact keysCovered_foldl_delete _ _ h
  | incr now key delta => exact keysCovered_incr_decr s now key delta true h
  | decr now key delta => exact keysCovered_incr_decr s now key delta false h

theorem keysCovered_runOps (ops : List Op) :
    ∀ (s : Storage), keysCovered s → keysCovered (runOps s ops) := by
  induction ops with
  | nil => intro s h; exact h
  | cons op rest ih =>
      intro s h
      rw [runOps, List.foldl_cons]
      exact ih _ (keysCovered_applyOp s op h)

/-- C5, amended: after every store operation, every key present in the data
map is present in the access-order map.  (The converse fails: the
expired-item removal inside `cas`, `append` and `prepend` deletes the key
from the data map only, leaving a stale access-order entry.) -/
theorem C5_amended_data_keys_in_access_order (max_memory default_ttl : Nat)
    (ops : List Op) (k : String)
    (hk : (mapFind? (runOps (Storage.new max_memory default_ttl) ops).data
        k).isSome = true) :
    (mapFind? (runOps (Storage.new max_memory default_ttl) ops).access_order
        k).isSome = true := by
  refine keysCovered_runOps ops (Storage.new max_memory default_ttl) ?_ k hk
  intro k' hk'
  simp [Storage.new, mapFind?] at hk'

/-- Witness for the amended C5 theorem: after a single `set` the stored key
is in both maps. -/
theorem C5_amended_witness :
    (mapFind? (runOps (Storage.new 1000 0)
        [Op.set 0 "k" (strBytes "v") 0 0]).access_order "k").isSome = true :=
  C5_amended_data_keys_in_access_order 1000 0
    [Op.set 0 "k" (strBytes "v") 0 0] "k" (by decide)

/-! CAS-token lemmas: tokens of present items stay pairwise distinct and
below the counter. -/

theorem u64add_one (c : Nat) (h : c + 1 < U64) : u64add c 1 = c + 1 :=
  Nat.mod_eq_of_lt h

theorem u64add_one_ne (c : Nat) (h : c < U64) : u64add c 1 ≠ c := by
  unfold u64add U64 at *
  omega

theorem tokens_erase_sublist (l : List (String × CacheItem)) (k : String) :
    ((mapErase l k).map (fun p => p.2.cas_unique)).Sublist
      (l.map (fun p => p.2.cas_unique)) :=
  (List.filter_sublist l).map _

theorem mapInsert_eq_of_head {α : Type} (a : String) (w : α)
    (rest : List (String × α)) (key : String) (v : α) (ha : a = key) :
    mapInsert ((a, w) :: rest) key v = (key, v) :: rest := by
  simp [mapInsert, ha]

theorem mapInsert_eq_of_ne {α : Type} (a : String) (w : α)
    (rest : List (String × α)) (key : String) (v : α) (ha : ¬a = key) :
    mapInsert ((a, w) :: rest) key v = (a, w) :: mapInsert rest key v := by
  simp [mapInsert, ha]

theorem mem_insert_tokens (key : String) (it : CacheItem) :
    ∀ (l : List (String × CacheItem)) (t : Nat),
      t ∈ (mapInsert l key it).map (fun p => p.2.cas_unique) →
      t ∈ l.map (fun p => p.2.cas_unique) ∨ t = it.cas_unique := by
  intro l
  induction l with
  | nil =>
      intro t ht
      simp [mapInsert] at ht
      right; exact ht
  | cons p rest ih =>
      obtain ⟨a, w⟩ := p
      intro t ht
      by_cases ha : a = key
      · rw [mapInsert_eq_of_head a w rest key it ha, List.map_cons,
          List.mem_cons] at ht
        rcases ht with h1 | h2
        · exact Or.inr h1
        · refine Or.inl ?_
          rw [List.map_cons, List.mem_cons]
          exact Or.inr h2
      · rw [mapInsert_eq_of_ne a w rest key it ha, List.map_cons,
          List.mem_cons] at ht
        rcases ht with h1 | h2
        · refine Or.inl ?_
          rw [List.map_cons, List.mem_cons]
          exact Or.inl h1
        · rcases ih t h2 with h3 | h4
          · refine Or.inl ?_
            rw [List.map_cons, List.mem_cons]
            exact Or.inr h3
          · exact Or.inr h4

theorem insert_tokens_nodup (c : Nat) (key : String) (it : CacheItem)
    (hit : it.cas_unique = c) :
    ∀ (l : List (String × CacheItem)),
      (∀ t ∈ l.map (fun p => p.2.cas_unique), t < c) →
      (l.map (fun p => p.2.cas_unique)).Nodup →
      ((mapInsert l key it).map (fun p => p.2.cas_unique)).Nodup ∧
        ∀ t ∈ (mapInsert l key it).map (fun p => p.2.cas_unique), t < c + 1 := by
  intro l
  induction l with
  | nil =>
      intro _ _
      constructor
      · simp [mapInsert]
      · intro t ht
        simp [mapInsert, hit] at ht
        omega
  | cons p rest ih =>
      obtain ⟨a, w⟩ := p
      intro hb hn
      rw [List.map_cons] at hb hn
      have hbw : w.cas_unique < c := hb _ (List.mem_cons_self _ _)
      have hbrest : ∀ t ∈ rest.map (fun p => p.2.cas_unique), t < c :=
        fun t ht => hb t (List.mem_cons_of_mem _ ht)
      have hnr := List.nodup_cons.mp hn
      by_cases ha : a = key
      · rw [mapInsert_eq_of_head a w rest key it ha, List.map_cons]
        constructor
        · refine List.nodup_cons.mpr ⟨?_, hnr.2⟩
          intro hmem
          have hmem' : it.cas_unique ∈ rest.map (fun p => p.2.cas_unique) :=
            hmem
          rw [hit] at hmem'
          exact absurd (hbrest _ hmem') (by omega)
        · intro t ht
          rw [List.mem_cons] at ht
          rcases ht with h1 | h2
          · have h1' : t = it.cas_unique := h1
            rw [h1', hit]; omega
          · exact Nat.lt_succ_of_lt (hbrest t h2)
      · rw [mapInsert_eq_of_ne a w rest key it ha, List.map_cons]
        have ihr := ih hbrest hnr.2
        constructor
        · refine List.nodup_cons.mpr ⟨?_, ihr.1⟩
          intro hmem
          have hmem' : w.cas_unique ∈
              (mapInsert rest key it).map (fun p => p.2.cas_unique) := hmem
          rcases mem_insert_tokens key it rest _ hmem' with h1 | h2
          · exact hnr.1 h1
          · rw [hit] at h2
            exact absurd h2 (by omega)
        · intro t ht
          rw [List.mem_cons] at ht
          rcases ht with h1 | h2
          · have h1' : t = w.cas_unique := h1
            rw [h1']; exact Nat.lt_succ_of_lt hbw
          · exact ihr.2 t h2

theorem casInv_sub (s t : Storage)
    (hsub : (casTokens t).Sublist (casTokens s))
    (hc : t.cas_counter = s.cas_counter) (h : CasInv s) : CasInv t :=
  ⟨List.Nodup.sublist hsub h.1, fun x hx => hc ▸ h.2 x (hsub.subset hx)⟩

theorem delete_tokens (s : Storage) (k : String) :
    (s.delete k).2.cas_counter = s.cas_counter ∧
      (casTokens (s.delete k).2).Sublist (casTokens s) := by
  unfold Storage.delete
  cases hfind : mapFind? s.data k with
  | none => exact ⟨rfl, List.Sublist.refl _⟩
  | some it => exact ⟨rfl, tokens_erase_sublist s.data k⟩

theorem ensureAux_tokens (needed now : Nat) :
    ∀ (fuel : Nat) (s : Storage),
      (Storage.ensureMemAux needed now fuel s).cas_counter = s.cas_counter ∧
      (casTokens (Storage.ensureMemAux needed now fuel s)).Sublist
        (casTokens s) := by
  intro fuel
  induction fuel with
  | zero => exact fun s => ⟨rfl, List.Sublist.refl _⟩
  | succ n ih =>
      intro s
      unfold Storage.ensureMemAux
      by_cases hover : u64add s.memory_used needed > s.max_memory
      · simp only [hover, if_true]
        cases hl : s.find_lru_key now with
        | some k =>
            have h1 := delete_tokens s k
            have h2 := ih ((s.delete k).2)
            exact ⟨h2.1.trans h1.1, h2.2.trans h1.2⟩
        | none => exact ⟨rfl, List.Sublist.refl _⟩
      · simp only [hover, if_false]
        exact ⟨trivial, List.Sublist.refl _⟩

theorem ensure_counter (s : Storage) (needed now : Nat) :
    (s.ensure_memory_available needed now).cas_counter = s.cas_counter :=
  (ensureAux_tokens needed now s.data.length s).1

theorem ensure_tokens_sub (s : Storage) (needed now : Nat) :
    (casTokens (s.ensure_memory_available needed now)).Sublist (casTokens s) :=
  (ensureAux_tokens needed now s.data.length s).2

theorem casInv_insert_record (sE : Storage) (key : String) (it : CacheItem)
    (m c : Nat) (hit : it.cas_unique = c) (hcount : sE.cas_counter = c + 1)
    (hb : ∀ t ∈ casTokens sE, t < c) (hn : (casTokens sE).Nodup) :
    CasInv (Storage.record_access
      { sE with data := mapInsert sE.data key it, memory_used := m } key) ∧
    (Storage.record_access
      { sE with data := mapInsert sE.data key it, memory_used := m }
        key).cas_counter = c + 1 := by
  have hI := insert_tokens_nodup c key it hit sE.data hb hn
  refine ⟨⟨hI.1, ?_⟩, hcount⟩
  intro t ht
  have hlt : t < c + 1 := hI.2 t ht
  show t < sE.cas_counter
  rw [hcount]
  exact hlt

theorem casInv_get_aux (s : Storage) (now : Nat) (key : String)
    (h : CasInv s) :
    CasInv ((s.get now key)).2 ∧
      ((s.get now key)).2.cas_counter = s.cas_counter := by
  unfold Storage.get
  cases hfind : mapFind? s.data key with
  | none => exact ⟨h, rfl⟩
  | some it =>
      by_cases hexp : it.is_expired now = true
      · simp only [hexp, if_true]
        have hd := delete_tokens s key
        exact ⟨casInv_sub _ _ hd.2 hd.1 h, hd.1⟩
      · simp only [hexp, Bool.false_eq_true, if_false]
        exact ⟨h, rfl⟩

theorem casInv_foldl_delete (l : List String) :
    ∀ (s : Storage), CasInv s →
      CasInv (l.foldl (fun st k => (st.delete k).2) s) ∧
      (l.foldl (fun st k => (st.delete k).2) s).cas_counter =
        s.cas_counter := by
  induction l with
  | nil => exact fun s h => ⟨h, rfl⟩
  | cons k rest ih =>
      intro s h
      rw [List.foldl_cons]
      have hd := delete_tokens s k
      have hr := ih _ (casInv_sub _ _ hd.2 hd.1 h)
      exact ⟨hr.1, hr.2.trans hd.1⟩

theorem casInv_get_multi_aux (s : Storage) (now : Nat) (keys : List String)
    (h : CasInv s) :
    CasInv ((s.get_multi now keys)).2 ∧
      ((s.get_multi now keys)).2.cas_counter = s.cas_counter := by
  unfold Storage.get_multi
  simp only
  have aux : ∀ (ks : List String)
      (acc : List (String × CacheItem) × List String × Storage),
      CasInv acc.2.2 ∧ acc.2.2.cas_counter = s.cas_counter →
      CasInv ((ks.foldl
        (fun (acc : List (String × CacheItem) × List String × Storage) key =>
          match mapFind? acc.2.2.data key with
          | some item =>
              if item.is_expired now then (acc.1, acc.2.1 ++ [key], acc.2.2)
              else (acc.1 ++ [(key, item)], acc.2.1,
                acc.2.2.record_access key)
          | none => acc)
        acc)).2.2 ∧
      ((ks.foldl
        (fun (acc : List (String × CacheItem) × List String × Storage) key =>
          match mapFind? acc.2.2.data key with
          | some item =>
              if item.is_expired now then (acc.1, acc.2.1 ++ [key], acc.2.2)
              else (acc.1 ++ [(key, item)], acc.2.1,
                acc.2.2.record_access key)
          | none => acc)
        acc)).2.2.cas_counter = s.cas_counter := by
    intro ks
    induction ks with
    | nil => exact fun acc hacc => hacc
    | cons key rest ih =>
        intro acc hacc
        rw [List.foldl_cons]
        refine ih _ ?_
        cases hfind : mapFind? acc.2.2.data key with
        | none => simpa [hfind] using hacc
        | some item =>
            by_cases hexp : item.is_expired now = true
            · simpa [hfind, hexp] using hacc
            · simp only [hfind, hexp, Bool.false_eq_true, if_false]
              exact hacc
  have hpass := aux keys ([], [], s) ⟨h, rfl⟩
  exact ⟨(casInv_foldl_delete _ _ hpass.1).1,
    (casInv_foldl_delete _ _ hpass.1).2.trans hpass.2⟩

theorem set_after (s : Storage) (now : Nat) (key : String) (v : List Nat)
    (fl ttl : Nat) :
    ((s.set now key v fl ttl)).2 =
      Storage.record_access
        { setMid s now key v fl ttl with
          memory_used :=
            u64add (setMid s now key v fl ttl).memory_used
              ((setNewItem s now key v fl ttl).memory_size + key.utf8ByteSize)
          data :=
            mapInsert (setMid s now key v fl ttl).data key
              (setNewItem s now key v fl ttl) } key := rfl

theorem set_result (s : Storage) (now : Nat) (key : String) (v : List Nat)
    (fl ttl : Nat) :
    ((s.set now key v fl ttl)).1 = StorageResult.Stored := rfl

theorem setMid_data (s : Storage) (now : Nat) (key : String) (v : List Nat)
    (fl ttl : Nat) :
    (setMid s now key v fl ttl).data = (setEnsured s now key v fl ttl).data := by
  unfold setMid
  cases hfind : mapFind? (setEnsured s now key v fl ttl).data key <;> rfl

theorem setMid_counter (s : Storage) (now : Nat) (key : String) (v : List Nat)
    (fl ttl : Nat) :
    (setMid s now key v fl ttl).cas_counter =
      (setEnsured s now key v fl ttl).cas_counter := by
  unfold setMid
  cases hfind : mapFind? (setEnsured s now key v fl ttl).data key <;> rfl

theorem setEnsured_counter (s : Storage) (now : Nat) (key : String)
    (v : List Nat) (fl ttl : Nat) :
    (setEnsured s now key v fl ttl).cas_counter = u64add s.cas_counter 1 :=
  ensure_counter _ _ _

theorem set_counter (s : Storage) (now : Nat) (key : String) (v : List Nat)
    (fl ttl : Nat) :
    ((s.set now key v fl ttl)).2.cas_counter = u64add s.cas_counter 1 := by
  rw [set_after]
  show (setMid s now key v fl ttl).cas_counter = u64add s.cas_counter 1
  rw [setMid_counter, setEnsured_counter]

theorem set_lookup (s : Storage) (now : Nat) (key : String) (v : List Nat)
    (fl ttl : Nat) :
    mapFind? ((s.set now key v fl ttl)).2.data key =
      some (setNewItem s now key v fl ttl) := by
  rw [set_after]
  exact mapFind?_insert_self _ _ _

theorem casTokens_set (s : Storage) (now : Nat) (key : String) (v : List Nat)
    (fl ttl : Nat) :
    casTokens ((s.set now key v fl ttl)).2 =
      (mapInsert (setMid s now key v fl ttl).data key
        (setNewItem s now key v fl ttl)).map (fun p => p.2.cas_unique) := by
  rw [set_after]
  rfl

theorem setEnsured_tokens_sub (s : Storage) (now : Nat) (key : String)
    (v : List Nat) (fl ttl : Nat) :
    ((setEnsured s now key v fl ttl).data.map
      (fun p => p.2.cas_unique)).Sublist (casTokens s) :=
  ensure_tokens_sub _ _ _

theorem casInv_set_aux (s : Storage) (now : Nat) (key : String)
    (v : List Nat) (fl ttl : Nat) (h : CasInv s)
    (hc : s.cas_counter + 1 < U64) :
    CasInv ((s.set now key v fl ttl)).2 ∧
      ((s.set now key v fl ttl)).2.cas_counter = s.cas_counter + 1 := by
  have hadd : u64add s.cas_counter 1 = s.cas_counter + 1 := u64add_one _ hc
  have hsub : ((setMid s now key v fl ttl).data.map
      (fun p => p.2.cas_unique)).Sublist (casTokens s) := by
    rw [setMid_data]
    exact setEnsured_tokens_sub s now key v fl ttl
  have hI := insert_tokens_nodup s.cas_counter key
    (setNewItem s now key v fl ttl) rfl (setMid s now key v fl ttl).data
    (fun t ht => h.2 t (hsub.subset ht))
    (List.Nodup.sublist hsub h.1)
  have hcnt : ((s.set now key v fl ttl)).2.cas_counter = s.cas_counter + 1 := by
    rw [set_counter, hadd]
  refine ⟨⟨?_, ?_⟩, hcnt⟩
  · rw [casTokens_set]
    exact hI.1
  · intro t ht
    rw [casTokens_set] at ht
    rw [hcnt]
    exact hI.2 t ht

theorem casInv_cas_aux (s : Storage) (now : Nat) (key : String)
    (v : List Nat) (fl ttl tok : Nat) (h : CasInv s)
    (hc : s.cas_counter + 1 < U64) :
    CasInv ((s.cas now key v fl ttl tok)).2 ∧
      s.cas_counter ≤ ((s.cas now key v fl ttl tok)).2.cas_counter ∧
      ((s.cas now key v fl ttl tok)).2.cas_counter ≤ s.cas_counter + 1 := by
  have hadd : u64add s.cas_counter 1 = s.cas_counter + 1 := u64add_one _ hc
  unfold Storage.cas
  cases hfind : mapFind? s.data key with
  | none => exact ⟨h, Nat.le_refl _, Nat.le_succ _⟩
  | some it =>
      by_cases hexp : it.is_expired now = true
      · simp only [hexp, if_true]
        exact ⟨casInv_sub s _ (tokens_erase_sublist s.data key) rfl h,
          Nat.le_refl _, Nat.le_succ _⟩
      · simp only [hexp, Bool.false_eq_true, if_false]
        by_cases htok : it.cas_unique ≠ tok
        · simp only [if_pos htok]
          exact ⟨h, Nat.le_refl _, Nat.le_succ _⟩
        · simp only [if_neg htok]
          have hsub : (((({ s with
              cas_counter := u64add s.cas_counter 1,
              memory_used := u64sub s.memory_used
                (it.memory_size + key.utf8ByteSize) } :
              Storage)).ensure_memory_available
              (itemOverhead + v.length + key.utf8ByteSize) now).data.map
                (fun p => p.2.cas_unique)).Sublist (casTokens s) :=
            ensure_tokens_sub _ _ _
          have hres := casInv_insert_record
            ((({ s with
              cas_counter := u64add s.cas_counter 1,
              memory_used := u64sub s.memory_used
                (it.memory_size + key.utf8ByteSize) } :
              Storage)).ensure_memory_available
              (itemOverhead + v.length + key.utf8ByteSize) now)
            key
            { value := v, flags := fl,
              expires_at := s.calculate_expiry now ttl,
              cas_unique := s.cas_counter, last_accessed := now }
            (u64add ((({ s with
              cas_counter := u64add s.cas_counter 1,
              memory_used := u64sub s.memory_used
                (it.memory_size + key.utf8ByteSize) } :
              Storage)).ensure_memory_available
              (itemOverhead + v.length + key.utf8ByteSize) now).memory_used
              (itemOverhead + v.length + key.utf8ByteSize))
            s.cas_counter rfl
            (by rw [ensure_counter]; exact hadd)
            (fun t ht => h.2 t (hsub.subset ht))
            (List.Nodup.sublist hsub h.1)
          exact ⟨hres.1,
            (Nat.le_succ s.cas_counter).trans (le_of_eq hres.2.symm),
            le_of_eq hres.2⟩

theorem casInv_append_aux (s : Storage) (now : Nat) (key : String)
    (d : List Nat) (h : CasInv s) (hc : s.cas_counter + 1 < U64) :
    CasInv ((s.append now key d)).2 ∧
      s.cas_counter ≤ ((s.append now key d)).2.cas_counter ∧
      ((s.append now key d)).2.cas_counter ≤ s.cas_counter + 1 := by
  have hadd : u64add s.cas_counter 1 = s.cas_counter + 1 := u64add_one _ hc
  unfold Storage.append
  cases hfind : mapFind? s.data key with
  | none => exact ⟨h, Nat.le_refl _, Nat.le_succ _⟩
  | some it =>
      by_cases hexp : it.is_expired now = true
      · simp only [hexp, if_true]
        exact ⟨casInv_sub s _ (tokens_erase_sublist s.data key) rfl h,
          Nat.le_refl _, Nat.le_succ _⟩
      · simp only [hexp, Bool.false_eq_true, if_false]
        by_cases hover : u64add s.memory_used d.length > s.max_memory
        · simp only [hover, if_true]
          have hsub : ((s.ensure_memory_available d.length now).data.map
              (fun p => p.2.cas_unique)).Sublist (casTokens s) :=
            ensure_tokens_sub _ _ _
          cases hfind1 : mapFind? (s.ensure_memory_available d.length now).data
              key with
          | none =>
              exact ⟨casInv_sub s _ hsub (ensure_counter _ _ _) h,
                le_of_eq (ensure_counter _ _ _).symm,
                (le_of_eq (ensure_counter _ _ _)).trans (Nat.le_succ _)⟩
          | some it1 =>
              by_cases hexp1 : it1.is_expired now = true
              · simp only [hexp1, if_true]
                exact ⟨casInv_sub s _ hsub (ensure_counter _ _ _) h,
                  le_of_eq (ensure_counter _ _ _).symm,
                  (le_of_eq (ensure_counter _ _ _)).trans (Nat.le_succ _)⟩
              · simp only [hexp1, Bool.false_eq_true, if_false]
                have hres := casInv_insert_record
                  ({ s.ensure_memory_available d.length now with
                    cas_counter :=
                      u64add (s.ensure_memory_available d.length
                        now).cas_counter 1 } : Storage)
                  key
                  { it1 with
                    value := it1.value ++ d
                    cas_unique :=
                      (s.ensure_memory_available d.length now).cas_counter
                    last_accessed := now }
                  (u64add (s.ensure_memory_available d.length
                    now).memory_used d.length)
                  s.cas_counter
                  (ensure_counter _ _ _)
                  (by show u64add (s.ensure_memory_available d.length
                        now).cas_counter 1 = s.cas_counter + 1
                      rw [ensure_counter]
                      exact hadd)
                  (fun t ht => h.2 t (hsub.subset ht))
                  (List.Nodup.sublist hsub h.1)
                exact ⟨hres.1,
                  (Nat.le_succ s.cas_counter).trans (le_of_eq hres.2.symm),
                  le_of_eq hres.2⟩
        · simp only [hover, if_false]
          have hres := casInv_insert_record
            ({ s with cas_counter := u64add s.cas_counter 1 } : Storage)
            key
            { it with
              value := it.value ++ d
              cas_unique := s.cas_counter
              last_accessed := now }
            (u64add s.memory_used d.length)
            s.cas_counter rfl hadd (fun t ht => h.2 t ht) h.1
          exact ⟨hres.1,
            (Nat.le_succ s.cas_counter).trans (le_of_eq hres.2.symm),
            le_of_eq hres.2⟩

theorem casInv_prepend_aux (s : Storage) (now : Nat) (key : String)
    (d : List Nat) (h : CasInv s) (hc : s.cas_counter + 1 < U64) :
    CasInv ((s.prepend now key d)).2 ∧
      s.cas_counter ≤ ((s.prepend now key d)).2.cas_counter ∧
      ((s.prepend now key d)).2.cas_counter ≤ s.cas_counter + 1 := by
  have hadd : u64add s.cas_counter 1 = s.cas_counter + 1 := u64add_one _ hc
  unfold Storage.prepend
  cases hfind : mapFind? s.data key with
  | none => exact ⟨h, Nat.le_refl _, Nat.le_succ _⟩
  | some it =>
      by_cases hexp : it.is_expired now = true
      · simp only [hexp, if_true]
        exact ⟨casInv_sub s _ (tokens_erase_sublist s.data key) rfl h,
          Nat.le_refl _, Nat.le_succ _⟩
      · simp only [hexp, Bool.false_eq_true, if_false]
        by_cases hover : u64add s.memory_used d.length > s.max_memory
        · simp only [hover, if_true]
          have hsub : ((s.ensure_memory_available d.length now).data.map
              (fun p => p.2.cas_unique)).Sublist (casTokens s) :=
            ensure_tokens_sub _ _ _
          cases hfind1 : mapFind? (s.ensure_memory_available d.length now).data
              key with
          | none =>
              exact ⟨casInv_sub s _ hsub (ensure_counter _ _ _) h,
                le_of_eq (ensure_counter _ _ _).symm,
                (le_of_eq (ensure_counter _ _ _)).trans (Nat.le_succ _)⟩
          | some it1 =>
              by_cases hexp1 : it1.is_expired now = true
              · simp only [hexp1, if_true]
                exact ⟨casInv_sub s _ hsub (ensure_counter _ _ _) h,
                  le_of_eq (ensure_counter _ _ _).symm,
                  (le_of_eq (ensure_counter _ _ _)).trans (Nat.le_succ _)⟩
              · simp only [hexp1, Bool.false_eq_true, if_false]
                have hres := casInv_insert_record
                  ({ s.ensure_memory_available d.length now with
                    cas_counter :=
                      u64add (s.ensure_memory_available d.length
                        now).cas_counter 1 } : Storage)
                  key
                  { it1 with
                    value := d ++ it1.value
                    cas_unique :=
                      (s.ensure_memory_available d.length now).cas_counter
                    last_accessed := now }
                  (u64add (s.ensure_memory_available d.length
                    now).memory_used d.length)
                  s.cas_counter
                  (ensure_counter _ _ _)
                  (by show u64add (s.ensure_memory_available d.length
                        now).cas_counter 1 = s.cas_counter + 1
                      rw [ensure_counter]
                      exact hadd)
                  (fun t ht => h.2 t (hsub.subset ht))
                  (List.Nodup.sublist hsub h.1)
                exact ⟨hres.1,
                  (Nat.le_succ s.cas_counter).trans (le_of_eq hres.2.symm),
                  le_of_eq hres.2⟩
        · simp only [hover, if_false]
          have hres := casInv_insert_record
            ({ s with cas_counter := u64add s.cas_counter 1 } : Storage)
            key
            { it with
              value := d ++ it.value
              cas_unique := s.cas_counter
              last_accessed := now }
            (u64add s.memory_used d.length)
            s.cas_counter rfl hadd (fun t ht => h.2 t ht) h.1
          exact ⟨hres.1,
            (Nat.le_succ s.cas_counter).trans (le_of_eq hres.2.symm),
            le_of_eq hres.2⟩

theorem casInv_incr_aux (s : Storage) (now : Nat) (key : String)
    (delta : Nat) (b : Bool) (h : CasInv s) (hc : s.cas_counter + 1 < U64) :
    CasInv ((handle_incr_decr s now key delta b)).2 ∧
      s.cas_counter ≤ ((handle_incr_decr s now key delta b)).2.cas_counter ∧
      ((handle_incr_decr s now key delta b)).2.cas_counter ≤
        s.cas_counter + 1 := by
  have hg := casInv_get_aux s now key h
  unfold handle_incr_decr
  cases hgp : s.get now key with
  | mk fst snd =>
      have hsnd : CasInv snd ∧ snd.cas_counter = s.cas_counter := by
        have : snd = (s.get now key).2 := by rw [hgp]
        rw [this]
        exact hg
      cases fst with
      | none =>
          exact ⟨hsnd.1, le_of_eq hsnd.2.symm,
            (le_of_eq hsnd.2).trans (Nat.le_succ _)⟩
      | some it =>
          by_cases hascii : isAsciiBytes it.value = true
          · simp only [hascii, if_true]
            cases hp : parseU64 (trimAscii it.value) with
            | none =>
                exact ⟨hsnd.1, le_of_eq hsnd.2.symm,
                  (le_of_eq hsnd.2).trans (Nat.le_succ _)⟩
            | some current =>
                have hset := casInv_set_aux snd now key
                  (natToDec (if b then u64add current delta
                    else current - delta)) it.flags 0 hsnd.1
                  (by rw [hsnd.2]; exact hc)
                refine ⟨hset.1, ?_, ?_⟩
                · rw [hset.2, hsnd.2]
                  omega
                · rw [hset.2, hsnd.2]
          · simp only [hascii, Bool.false_eq_true, if_false]
            exact ⟨hsnd.1, le_of_eq hsnd.2.symm,
              (le_of_eq hsnd.2).trans (Nat.le_succ _)⟩

theorem casInv_applyOp (s : Storage) (op : Op) (h : CasInv s)
    (hc : s.cas_counter + 1 < U64) :
    CasInv (applyOp s op) ∧
      s.cas_counter ≤ (applyOp s op).cas_counter ∧
      (applyOp s op).cas_counter ≤ s.cas_counter + 1 := by
  cases op with
  | get now key =>
      have hg := casInv_get_aux s now key h
      exact ⟨hg.1, le_of_eq hg.2.symm, (le_of_eq hg.2).trans (Nat.le_succ _)⟩
  | get_multi now keys =>
      have hg := casInv_get_multi_aux s now keys h
      exact ⟨hg.1, le_of_eq hg.2.symm, (le_of_eq hg.2).trans (Nat.le_succ _)⟩
  | set now key v fl ttl =>
      have hs := casInv_set_aux s now key v fl ttl h hc
      exact ⟨hs.1, (Nat.le_succ _).trans (le_of_eq hs.2.symm),
        le_of_eq hs.2⟩
  | add now key v fl ttl =>
      show CasInv ((s.add now key v fl ttl)).2 ∧
        s.cas_counter ≤ ((s.add now key v fl ttl)).2.cas_counter ∧
        ((s.add now key v fl ttl)).2.cas_counter ≤ s.cas_counter + 1
      unfold Storage.add
      cases hfind : mapFind? s.data key with
      | none =>
          have hs := casInv_set_aux s now key v fl ttl h hc
          exact ⟨hs.1, (Nat.le_succ _).trans (le_of_eq hs.2.symm),
            le_of_eq hs.2⟩
      | some it =>
          by_cases hexp : it.is_expired now = true
          · simp only [hexp, if_true]
            have hs := casInv_set_aux s now key v fl ttl h hc
            exact ⟨hs.1, (Nat.le_succ _).trans (le_of_eq hs.2.symm),
              le_of_eq hs.2⟩
          · simp only [hexp, Bool.false_eq_true, if_false]
            exact ⟨h, Nat.le_refl _, Nat.le_succ _⟩
  | replace now key v fl ttl =>
      show CasInv ((s.replace now key v fl ttl)).2 ∧
        s.cas_counter ≤ ((s.replace now key v fl ttl)).2.cas_counter ∧
        ((s.replace now key v fl ttl)).2.cas_counter ≤ s.cas_counter + 1
      unfold Storage.replace
      cases hfind : mapFind? s.data key with
      | none => exact ⟨h, Nat.le_refl _, Nat.le_succ _⟩
      | some it =>
          by_cases hexp : it.is_expired now = true
          · simp only [hexp, if_true]
            exact ⟨h, Nat.le_refl _, Nat.le_succ _⟩
          · simp only [hexp, Bool.false_eq_true, if_false]
            have hs := casInv_set_aux s now key v fl ttl h hc
            exact ⟨hs.1, (Nat.le_succ _).trans (le_of_eq hs.2.symm),
              le_of_eq hs.2⟩
  | cas now key v fl ttl tok => exact casInv_cas_aux s now key v fl ttl tok h hc
  | append now key d => exact casInv_append_aux s now key d h hc
  | prepend now key d => exact casInv_prepend_aux s now key d h hc
  | delete key =>
      have hd := delete_tokens s key
      exact ⟨casInv_sub s _ hd.2 hd.1 h, le_of_eq hd.1.symm,
        (le_of_eq hd.1).trans (Nat.le_succ _)⟩
  | flush_all =>
      refine ⟨⟨List.nodup_nil, ?_⟩, Nat.le_refl _, Nat.le_succ _⟩
      intro t ht
      simp [applyOp, casTokens, Storage.flush_all] at ht
  | cleanup now =>
      have hd := casInv_foldl_delete
        ((s.data.filter (fun p => p.2.is_expired now)).map (·.1)) s h
      exact ⟨hd.1, le_of_eq hd.2.symm, (le_of_eq hd.2).trans (Nat.le_succ _)⟩
  | incr now key delta => exact casInv_incr_aux s now key delta true h hc
  | decr now key delta => exact casInv_incr_aux s now key delta false h hc

theorem runOps_cons (s : Storage) (op : Op) (rest : List Op) :
    runOps s (op :: rest) = runOps (applyOp s op) rest := rfl

theorem casInv_runOps :
    ∀ (ops : List Op) (s : Storage), CasInv s →
      s.cas_counter + ops.length < U64 →
      CasInv (runOps s ops) ∧
        s.cas_counter ≤ (runOps s ops).cas_counter ∧
        (runOps s ops).cas_counter ≤ s.cas_counter + ops.length := by
  intro ops
  induction ops with
  | nil => exact fun s h _ => ⟨h, Nat.le_refl _, Nat.le_refl _⟩
  | cons op rest ih =>
      intro s h hlen
      rw [runOps_cons]
      have hlen' : s.cas_counter + (rest.length + 1) < U64 := by
        simpa [List.length_cons] using hlen
      have hstep := casInv_applyOp s op h (by omega)
      have hrest := ih (applyOp s op) hstep.1
        (by have := hstep.2.2; omega)
      refine ⟨hrest.1, hstep.2.1.trans hrest.2.1, ?_⟩
      have h1 := hrest.2.2
      have h2 := hstep.2.2
      simp only [List.length_cons]
      omega

/-- C4: `set(k,v); set(k,v)` both return `Stored` and assign two distinct
CAS tokens (the counter value before and after one bump), and across any
operation sequence whose length keeps the 64-bit counter from wrapping the
tokens of all present items are pairwise distinct and below the counter,
which starts at 1 and grows by at most one per operation. -/
theorem C4_cas_token_uniqueness :
    (∀ (s : Storage) (now : Nat) (k : String) (v : List Nat) (fl ttl : Nat),
      s.cas_counter < U64 →
        (s.set now k v fl ttl).1 = StorageResult.Stored ∧
        (((s.set now k v fl ttl)).2.set now k v fl ttl).1 =
          StorageResult.Stored ∧
        (mapFind? ((s.set now k v fl ttl)).2.data k).map
          (fun it => it.cas_unique) = some s.cas_counter ∧
        (mapFind?
            ((((s.set now k v fl ttl)).2.set now k v fl ttl)).2.data k).map
          (fun it => it.cas_unique) = some (u64add s.cas_counter 1) ∧
        u64add s.cas_counter 1 ≠ s.cas_counter) ∧
    (∀ (max_memory default_ttl : Nat) (ops : List Op),
      1 + ops.length < U64 →
        (casTokens (runOps (Storage.new max_memory default_ttl) ops)).Nodup ∧
        (∀ t ∈ casTokens (runOps (Storage.new max_memory default_ttl) ops),
          t < (runOps (Storage.new max_memory default_ttl) ops).cas_counter) ∧
        1 ≤ (runOps (Storage.new max_memory default_ttl) ops).cas_counter ∧
        (runOps (Storage.new max_memory default_ttl) ops).cas_counter ≤
          1 + ops.length) := by
  constructor
  · intro s now k v fl ttl hlt
    refine ⟨set_result s now k v fl ttl, set_result _ now k v fl ttl,
      ?_, ?_, u64add_one_ne s.cas_counter hlt⟩
    · rw [set_lookup]
      rfl
    · rw [set_lookup]
      show some ((s.set now k v fl ttl).2.cas_counter) =
        some (u64add s.cas_counter 1)
      rw [set_counter]
  · intro max_memory default_ttl ops hlen
    have hinit : CasInv (Storage.new max_memory default_ttl) := by
      constructor
      · exact List.nodup_nil
      · intro t ht
        simp [casTokens, Storage.new] at ht
    have hrun := casInv_runOps ops (Storage.new max_memory default_ttl) hinit
      (by simpa [Storage.new] using hlen)
    exact ⟨hrun.1.1, hrun.1.2, hrun.2.1, hrun.2.2⟩

/-- Witness for the C4 theorem: a fresh store (counter 1) and the empty
operation sequence. -/
theorem C4_cas_token_uniqueness_witness :
    ((Storage.new 1000 0).set 0 "k" (strBytes "v") 0 0).1 =
        StorageResult.Stored ∧
      (casTokens (runOps (Storage.new 1000 0) [])).Nodup := by
  constructor
  · exact (C4_cas_token_uniqueness.1 (Storage.new 1000 0) 0 "k"
      (strBytes "v") 0 0 (by decide)).1
  · exact (C4_cas_token_uniqueness.2 1000 0 [] (by decide)).1

/-! The `find_lru_key` scan and the eviction loop of
`ensure_memory_available`. -/

theorem fold_lru (s : Storage) (now : Nat) :
    ∀ (l : List (String × Nat)) (acc : Nat × Option String),
      (l.foldl
        (fun (acc : Nat × Option String) p =>
          match mapFind? s.data p.1 with
          | some item =>
              if item.is_expired now then acc
              else if p.2 < acc.1 then (p.2, some p.1) else acc
          | none => acc) acc).1 ≤ acc.1 ∧
      (∀ p ∈ l, isLiveEntry s now p = true →
        (l.foldl
          (fun (acc : Nat × Option String) p =>
            match mapFind? s.data p.1 with
            | some item =>
                if item.is_expired now then acc
                else if p.2 < acc.1 then (p.2, some p.1) else acc
            | none => acc) acc).1 ≤ p.2) ∧
      ((l.foldl
          (fun (acc : Nat × Option String) p =>
            match mapFind? s.data p.1 with
            | some item =>
                if item.is_expired now then acc
                else if p.2 < acc.1 then (p.2, some p.1) else acc
            | none => acc) acc) = acc ∨
        ∃ p ∈ l, isLiveEntry s now p = true ∧
          (l.foldl
            (fun (acc : Nat × Option String) p =>
              match mapFind? s.data p.1 with
              | some item =>
                  if item.is_expired now then acc
                  else if p.2 < acc.1 then (p.2, some p.1) else acc
              | none => acc) acc) = (p.2, some p.1)) := by
  intro l
  induction l with
  | nil =>
      intro acc
      exact ⟨Nat.le_refl _, by intro p hp; simp at hp, Or.inl rfl⟩
  | cons p l ih =>
      intro acc
      rw [List.foldl_cons]
      have hstep : ((match mapFind? s.data p.1 with
          | some item =>
              if item.is_expired now then acc
              else if p.2 < acc.1 then (p.2, some p.1) else acc
          | none => acc) = acc ∧
            (isLiveEntry s now p = true → acc.1 ≤ p.2)) ∨
          (isLiveEntry s now p = true ∧
            (match mapFind? s.data p.1 with
            | some item =>
                if item.is_expired now then acc
                else if p.2 < acc.1 then (p.2, some p.1) else acc
            | none => acc) = (p.2, some p.1)) := by
        cases hfind : mapFind? s.data p.1 with
        | none =>
            left
            constructor
            · rfl
            · intro hlive
              unfold isLiveEntry at hlive
              rw [hfind] at hlive
              simp at hlive
        | some item =>
            by_cases hexp : item.is_expired now = true
            · left
              constructor
              · simp [hexp]
              · intro hlive
                unfold isLiveEntry at hlive
                rw [hfind] at hlive
                simp [hexp] at hlive
            · by_cases hlt : p.2 < acc.1
              · right
                constructor
                · unfold isLiveEntry
                  rw [hfind]
                  simpa using hexp
                · simp [hexp, hlt]
              · left
                constructor
                · simp [hexp, hlt]
                · exact fun _ => Nat.le_of_not_lt hlt
      have ihs := ih ((match mapFind? s.data p.1 with
        | some item =>
            if item.is_expired now then acc
            else if p.2 < acc.1 then (p.2, some p.1) else acc
        | none => acc))
      have hacc1 : ((match mapFind? s.data p.1 with
          | some item =>
              if item.is_expired now then acc
              else if p.2 < acc.1 then (p.2, some p.1) else acc
          | none => acc)).1 ≤ acc.1 := by
        cases hfind : mapFind? s.data p.1 with
        | none => exact Nat.le_refl _
        | some item =>
            by_cases hexp : item.is_expired now = true
            · simp [hexp]
            · by_cases hlt : p.2 < acc.1
              · simp only [hexp, Bool.false_eq_true, if_false, hlt, if_true]
                exact Nat.le_of_lt hlt
              · simp [hexp, hlt]
      refine ⟨ihs.1.trans hacc1, ?_, ?_⟩
      · intro q hq hqlive
        rcases List.mem_cons.mp hq with hq1 | hq2
        · subst hq1
          rcases hstep with ⟨heq, hle⟩ | ⟨hlive2, heq⟩
          · exact (ihs.1.trans hacc1).trans (hle hqlive)
          · exact ihs.1.trans (le_of_eq (congrArg Prod.fst heq))
        · exact ihs.2.1 q hq2 hqlive
      · rcases ihs.2.2 with hsame | ⟨r, hrmem, hrlive, hrq⟩
        · rcases hstep with ⟨heq, _⟩ | ⟨hlive, heq⟩
          · exact Or.inl (hsame.trans heq)
          · exact Or.inr ⟨p, List.mem_cons_self _ _, hlive, hsame.trans heq⟩
        · exact Or.inr ⟨r, List.mem_cons_of_mem _ hrmem, hrlive, hrq⟩

theorem find_lru_spec (s : Storage) (now : Nat)
    (hex : ∃ p ∈ s.access_order, isLiveEntry s now p = true ∧ p.2 < U64 - 1) :
    ∃ k q, s.find_lru_key now = some k ∧ (k, q) ∈ s.access_order ∧
      isLiveEntry s now (k, q) = true ∧
      ∀ p ∈ s.access_order, isLiveEntry s now p = true → q ≤ p.2 := by
  obtain ⟨p0, hp0mem, hp0live, hp0lt⟩ := hex
  have hf := fold_lru s now s.access_order (U64 - 1, none)
  rcases hf.2.2 with hsame | ⟨p, hpmem, hplive, hr⟩
  · exfalso
    have hle := hf.2.1 p0 hp0mem hp0live
    rw [hsame] at hle
    have hle' : U64 - 1 ≤ p0.2 := hle
    omega
  · refine ⟨p.1, p.2, ?_, ?_, ?_, ?_⟩
    · unfold Storage.find_lru_key
      rw [hr]
    · simpa using hpmem
    · simpa using hplive
    · intro q hqmem hqlive
      have hle := hf.2.1 q hqmem hqlive
      rw [hr] at hle
      exact hle

theorem find_lru_mem (s : Storage) (now : Nat) (k : String)
    (h : s.find_lru_key now = some k) :
    (mapFind? s.data k).isSome = true := by
  unfold Storage.find_lru_key at h
  have hf := fold_lru s now s.access_order (U64 - 1, none)
  rcases hf.2.2 with hsame | ⟨p, hpmem, hplive, hr⟩
  · rw [hsame] at h
    have h' : (s.data.head?).map (fun p => p.1) = some k := h
    cases hh : s.data.head? with
    | none => rw [hh] at h'; simp at h'
    | some pr =>
        rw [hh] at h'
        have : pr.1 = k := by simpa using h'
        subst this
        cases hl : s.data with
        | nil => rw [hl] at hh; simp at hh
        | cons q rest =>
            rw [hl] at hh
            simp only [List.head?_cons, Option.some_inj] at hh
            subst hh
            simp [mapFind?]
  · rw [hr] at h
    simp only [Option.some_inj] at h
    subst h
    unfold isLiveEntry at hplive
    cases hfind : mapFind? s.data p.1 with
    | none => rw [hfind] at hplive; simp at hplive
    | some it => simp [hfind]

theorem find_lru_none (s : Storage) (now : Nat)
    (h : s.find_lru_key now = none) : s.data = [] := by
  unfold Storage.find_lru_key at h
  have hf := fold_lru s now s.access_order (U64 - 1, none)
  rcases hf.2.2 with hsame | ⟨p, hpmem, hplive, hr⟩
  · rw [hsame] at h
    have h' : (s.data.head?).map (fun p => p.1) = none := h
    cases hh : s.data.head? with
    | none => exact List.head?_eq_none_iff.mp hh
    | some pr => rw [hh] at h'; simp at h' 
  · rw [hr] at h
    simp at h

theorem mapErase_length_lt {α : Type} (l : List (String × α)) (k : String)
    (h : (mapFind? l k).isSome = true) :
    (mapErase l k).length < l.length := by
  induction l with
  | nil => simp [mapFind?] at h
  | cons p rest ih =>
      obtain ⟨a, w⟩ := p
      by_cases ha : a = k
      · simp only [mapErase, List.filter_cons, ha]
        simp only [bne_self_eq_false, Bool.false_eq_true, if_false]
        calc (List.filter (fun p => p.1 != k) rest).length
            ≤ rest.length := List.length_filter_le _ _
          _ < (( (a, w) :: rest : List (String × α))).length := by
              simp [List.length_cons]
      · have hrest : (mapFind? rest k).isSome = true := by
          simpa [mapFind?, ha] using h
        have := ih hrest
        simp only [mapErase, List.filter_cons] at *
        have hbne : ((a, w).1 != k) = true := by simpa using ha
        rw [hbne]
        simpa [List.length_cons] using this

theorem delete_len_lt (s : Storage) (k : String)
    (h : (mapFind? s.data k).isSome = true) :
    ((s.delete k)).2.data.length < s.data.length := by
  unfold Storage.delete
  cases hfind : mapFind? s.data k with
  | none => rw [hfind] at h; simp at h
  | some it =>
      simp only
      exact mapErase_length_lt s.data k h

theorem delete_max (s : Storage) (k : String) :
    ((s.delete k)).2.max_memory = s.max_memory := by
  unfold Storage.delete
  cases hfind : mapFind? s.data k <;> rfl

theorem ensureAux_post (needed now : Nat) :
    ∀ (fuel : Nat) (s : Storage), s.data.length ≤ fuel →
      (u64add (Storage.ensureMemAux needed now fuel s).memory_used needed ≤
          s.max_memory ∨
        (Storage.ensureMemAux needed now fuel s).data = []) ∧
      (Storage.ensureMemAux needed now fuel s).max_memory = s.max_memory := by
  intro fuel
  induction fuel with
  | zero =>
      intro s hlen
      have : s.data = [] := List.eq_nil_of_length_eq_zero (Nat.le_zero.mp hlen)
      exact ⟨Or.inr this, rfl⟩
  | succ n ih =>
      intro s hlen
      unfold Storage.ensureMemAux
      by_cases hover : u64add s.memory_used needed > s.max_memory
      · simp only [hover, if_true]
        cases hl : s.find_lru_key now with
        | some k =>
            have hk := find_lru_mem s now k hl
            have hlt := delete_len_lt s k hk
            have hres := ih ((s.delete k)).2 (by omega)
            refine ⟨?_, hres.2.trans (delete_max s k)⟩
            rcases hres.1 with h1 | h2
            · exact Or.inl (by rw [← delete_max s k]; exact h1)
            · exact Or.inr h2
        | none =>
            have hdata := find_lru_none s now hl
            exact ⟨Or.inr hdata, rfl⟩
      · simp only [hover, if_false]
        exact ⟨Or.inl (Nat.le_of_not_lt hover), trivial⟩

theorem ensure_post (s : Storage) (needed now : Nat) :
    u64add (s.ensure_memory_available needed now).memory_used needed ≤
        s.max_memory ∨
      (s.ensure_memory_available needed now).data = [] :=
  (ensureAux_post needed now s.data.length s (Nat.le_refl _)).1

/-- C3, amended: (1) whenever the access-order map holds a live entry with
sequence number below `2^64 - 1`, `find_lru_key` returns a key whose entry
is live and whose sequence number is minimal among the live entries (so
eviction targets the least-recently-used *live* key, skipping expired
ones); (2) the eviction loop `ensure_memory_available` returns only when
`memory_used + needed ≤ max_memory` or the data map has been emptied, so
an insert into a non-emptied store never breaches the limit; (3) the
insert always proceeds: `set` returns `Stored` and the key is present
afterwards. -/
theorem C3_amended_lru_eviction (s : Storage) (now : Nat) (key : String)
    (v : List Nat) (fl ttl needed : Nat) :
    ((∃ p ∈ s.access_order, isLiveEntry s now p = true ∧ p.2 < U64 - 1) →
      ∃ k q, s.find_lru_key now = some k ∧ (k, q) ∈ s.access_order ∧
        isLiveEntry s now (k, q) = true ∧
        ∀ p ∈ s.access_order, isLiveEntry s now p = true → q ≤ p.2) ∧
    (u64add (s.ensure_memory_available needed now).memory_used needed ≤
        s.max_memory ∨
      (s.ensure_memory_available needed now).data = []) ∧
    ((s.set now key v fl ttl)).1 = StorageResult.Stored ∧
    (mapFind? ((s.set now key v fl ttl)).2.data key).isSome = true := by
  refine ⟨fun hex => find_lru_spec s now hex, ensure_post s needed now,
    set_result s now key v fl ttl, ?_⟩
  rw [set_lookup]
  rfl

/-- C3, witness: the amended theorem instantiated on a store holding one
live item `"a"` at sequence 0. -/
theorem C3_amended_lru_eviction_witness :
    let sW := (((Storage.new 200 0).set 0 "a" (List.replicate 10 0) 0 0)).2
    (∃ k q, sW.find_lru_key 0 = some k ∧ (k, q) ∈ sW.access_order ∧
        isLiveEntry sW 0 (k, q) = true ∧
        ∀ p ∈ sW.access_order, isLiveEntry sW 0 p = true → q ≤ p.2) ∧
    (u64add (sW.ensure_memory_available 75 0).memory_used 75 ≤
        sW.max_memory ∨
      (sW.ensure_memory_available 75 0).data = []) ∧
    ((sW.set 0 "c" (List.replicate 10 0) 0 0)).1 = StorageResult.Stored ∧
    (mapFind? ((sW.set 0 "c" (List.replicate 10 0) 0 0)).2.data
        "c").isSome = true := by
  intro sW
  have h := C3_amended_lru_eviction sW 0 "c" (List.replicate 10 0) 0 0 75
  exact ⟨h.1 ⟨("a", 0), by decide, by decide, by decide⟩, h.2⟩
theorem natToDec_all_digits (n : Nat) :
    ∀ b ∈ natToDec n, 48 ≤ b ∧ b ≤ 57 := by
  induction n using Nat.strong_induction_on with
  | _ n ih =>
    rw [natToDec]
    by_cases h : n < 10
    · simp only [h, dite_true, List.mem_singleton]
      rintro b rfl
      omega
    · simp only [h, dite_false, List.mem_append, List.mem_singleton]
      intro b hb
      rcases hb with hb | hb
      · exact ih (n / 10) (Nat.div_lt_self (by omega) (by omega)) b hb
      · subst hb
        have : n % 10 < 10 := Nat.mod_lt _ (by omega)
        omega

theorem natToDec_ne_nil (n : Nat) : natToDec n ≠ [] := by
  rw [natToDec]
  by_cases h : n < 10
  · simp [h]
  · simp [h]

theorem natToDec_foldl (n : Nat) : ∀ a : Nat,
    (natToDec n).foldl (fun acc b => acc * 10 + (b - 48)) a =
      a * 10 ^ (natToDec n).length + n := by
  induction n using Nat.strong_induction_on with
  | _ n ih =>
    intro a
    rw [natToDec]
    by_cases h : n < 10
    · simp only [h, dite_true, List.foldl_cons, List.foldl_nil,
        List.length_singleton, pow_one]
      omega
    · simp only [h, dite_false, List.foldl_append, List.foldl_cons,
        List.foldl_nil, List.length_append, List.length_singleton]
      rw [ih (n / 10) (Nat.div_lt_self (by omega) (by omega)) a]
      have hmod : n % 10 < 10 := Nat.mod_lt _ (by omega)
      have hdm : 10 * (n / 10) + n % 10 = n := Nat.div_add_mod n 10
      have hpow : 10 ^ ((natToDec (n / 10)).length + 1) =
          10 ^ (natToDec (n / 10)).length * 10 := pow_succ 10 _
      rw [hpow]
      have h48 : 48 + n % 10 - 48 = n % 10 := by omega
      rw [h48]
      ring_nf
      omega
theorem dropWhile_eq_self_of_no (m : List Nat)
    (hm : ∀ b ∈ m, isWsByte b = false) : m.dropWhile isWsByte = m := by
  cases m with
  | nil => rfl
  | cons x xs =>
      rw [List.dropWhile_cons]
      simp [hm x (List.mem_cons_self _ _)]

theorem trimAscii_eq_of_digits (l : List Nat)
    (h : ∀ b ∈ l, 48 ≤ b ∧ b ≤ 57) : trimAscii l = l := by
  have hws : ∀ b ∈ l, isWsByte b = false := by
    intro b hb
    have := h b hb
    unfold isWsByte
    simp only [Bool.or_eq_false_iff, Bool.and_eq_false_iff]
    constructor
    · simp; omega
    · right; simp; omega
  unfold trimAscii
  rw [dropWhile_eq_self_of_no l hws,
    dropWhile_eq_self_of_no l.reverse (by intro b hb; exact hws b (List.mem_reverse.mp hb)),
    List.reverse_reverse]

theorem isAsciiBytes_natToDec (n : Nat) : isAsciiBytes (natToDec n) = true := by
  unfold isAsciiBytes
  rw [List.all_eq_true]
  intro b hb
  have := natToDec_all_digits n b hb
  simp only [decide_eq_true_eq]
  omega

theorem parseU64_natToDec (n : Nat) (hn : n < U64) :
    parseU64 (natToDec n) = some n := by
  unfold parseU64 parseNatLt
  cases hc : natToDec n with
  | nil => exact absurd hc (natToDec_ne_nil n)
  | cons b rest =>
      have hb := natToDec_all_digits n b (hc ▸ List.mem_cons_self b rest)
      have hb43 : ¬ (b = 43) := by omega
      simp only [hb43, if_false]
      have hne : (b :: rest).isEmpty = false := rfl
      rw [hne]
      simp only [Bool.false_eq_true, if_false]
      have hall : (b :: rest).all (fun c => 48 ≤ c && c ≤ 57) = true := by
        rw [List.all_eq_true]
        intro c hcmem
        have := natToDec_all_digits n c (hc ▸ hcmem)
        simp only [Bool.and_eq_true, decide_eq_true_eq]
        omega
      rw [hall]
      simp only [if_true]
      rw [← hc, natToDec_foldl n 0]
      simp only [zero_mul, zero_add, hn, if_true]
theorem get_of_live (s : Storage) (now : Nat) (key : String) (it : CacheItem)
    (hfind : mapFind? s.data key = some it)
    (hlive : it.is_expired now = false) :
    s.get now key = (some it, s.record_access key) := by
  unfold Storage.get
  rw [hfind]
  simp [hlive]

theorem handle_incr_decr_eq (s : Storage) (now : Nat) (key : String)
    (it : CacheItem) (n delta : Nat) (is_incr : Bool)
    (hfind : mapFind? s.data key = some it)
    (hlive : it.is_expired now = false)
    (hval : it.value = natToDec n) (hn : n < U64) :
    handle_incr_decr s now key delta is_incr =
      (Response.numeric (if is_incr then u64add n delta else n - delta),
       (((s.record_access key).set now key
          (natToDec (if is_incr then u64add n delta else n - delta))
          it.flags 0)).2) := by
  have h1 : isAsciiBytes it.value = true := by
    rw [hval]; exact isAsciiBytes_natToDec n
  have h2 : parseU64 (trimAscii it.value) = some n := by
    rw [hval, trimAscii_eq_of_digits _ (natToDec_all_digits n),
      parseU64_natToDec n hn]
  unfold handle_incr_decr
  rw [get_of_live s now key it hfind hlive]
  show (if isAsciiBytes it.value = true then
      match parseU64 (trimAscii it.value) with
      | some current =>
          (Response.numeric
              (if is_incr = true then u64add current delta
               else current - delta),
           (((s.record_access key).set now key
              (natToDec
                (if is_incr = true then u64add current delta
                 else current - delta))
              it.flags 0)).2)
      | none =>
          (Response.client_error
            "cannot increment or decrement non-numeric value",
           s.record_access key)
    else
      (Response.client_error
        "cannot increment or decrement non-numeric value",
       s.record_access key)) = _
  rw [h1, h2]
  rfl

/-- C6: on a live item whose stored bytes are the decimal digits of
`n < 2^64`, `incr` by `delta` responds with `(n + delta) mod 2^64`
(wrapping) and `decr` responds with `n - delta` saturating at zero
(natural-number subtraction), and in both cases the stored bytes are
replaced by the decimal rendering of the new value. -/
theorem C6_incr_wraps_decr_saturates (s : Storage) (now : Nat) (key : String)
    (it : CacheItem) (n delta : Nat)
    (hfind : mapFind? s.data key = some it)
    (hlive : it.is_expired now = false)
    (hval : it.value = natToDec n) (hn : n < U64) :
    ((handle_incr_decr s now key delta true)).1 =
        Response.numeric ((n + delta) % U64) ∧
    (mapFind? ((handle_incr_decr s now key delta true)).2.data key).map
        (fun j => j.value) = some (natToDec ((n + delta) % U64)) ∧
    ((handle_incr_decr s now key delta false)).1 =
        Response.numeric (n - delta) ∧
    (mapFind? ((handle_incr_decr s now key delta false)).2.data key).map
        (fun j => j.value) = some (natToDec (n - delta)) := by
  rw [handle_incr_decr_eq s now key it n delta true hfind hlive hval hn,
    handle_incr_decr_eq s now key it n delta false hfind hlive hval hn]
  refine ⟨rfl, ?_, rfl, ?_⟩
  · rw [set_lookup]
    rfl
  · rw [set_lookup]
    rfl

/-- C6, witness: a store holding `"k"` with value `"18446744073709551615"`
(the decimal digits of `2^64 - 1`); `incr` by 1 wraps to 0, `decr` by 1
yields `2^64 - 2`, and the stored bytes become the new decimal digits. -/
theorem C6_incr_wraps_decr_saturates_witness :
    let sW := (((Storage.new 1000 0).set 0 "k" (natToDec (U64 - 1)) 7 0)).2
    ((handle_incr_decr sW 0 "k" 1 true)).1 = Response.numeric 0 ∧
    (mapFind? ((handle_incr_decr sW 0 "k" 1 true)).2.data "k").map
        (fun j => j.value) = some (natToDec 0) ∧
    ((handle_incr_decr sW 0 "k" 1 false)).1 =
        Response.numeric (U64 - 2) := by
  intro sW
  have h := C6_incr_wraps_decr_saturates sW 0 "k"
    (setNewItem (Storage.new 1000 0) 0 "k" (natToDec (U64 - 1)) 7 0)
    (U64 - 1) 1 (set_lookup (Storage.new 1000 0) 0 "k" (natToDec (U64 - 1)) 7 0)
    rfl rfl (by decide)
  have e1 : (U64 - 1 + 1) % U64 = 0 := by decide
  have e2 : U64 - 1 - 1 = U64 - 2 := by decide
  rw [e1, e2] at h
  exact ⟨h.1, h.2.1, h.2.2.1⟩

/-- C10: a successful `incr`/`decr` re-stores through `set` with `ttl = 0`,
so the resulting item keeps the old flags but its expiration is recomputed
from the configured default TTL (`none` when `default_ttl = 0`, else
`now + default_ttl`), discarding the item's previous expiration instant. -/
theorem C10_incr_decr_resets_expiry (s : Storage) (now : Nat) (key : String)
    (it : CacheItem) (n delta : Nat) (is_incr : Bool)
    (hfind : mapFind? s.data key = some it)
    (hlive : it.is_expired now = false)
    (hval : it.value = natToDec n) (hn : n < U64) :
    (mapFind? ((handle_incr_decr s now key delta is_incr)).2.data key).map
        (fun j => (j.flags, j.expires_at)) =
      some (it.flags,
        if s.default_ttl = 0 then none else some (now + s.default_ttl)) := by
  rw [handle_incr_decr_eq s now key it n delta is_incr hfind hlive hval hn]
  rw [set_lookup]
  rfl

/-- C10, witness: `default_ttl = 60`; `"k"` is stored at instant 0 with
`ttl = 500` and flags 9, so it expires at 500; `incr` at instant 3
re-stores it with flags 9 and expiry `3 + 60 = 63`, not 500. -/
theorem C10_incr_decr_resets_expiry_witness :
    let sW := (((Storage.new 1000 60).set 0 "k" (natToDec 5) 9 500)).2
    (mapFind? ((handle_incr_decr sW 3 "k" 1 true)).2.data "k").map
        (fun j => (j.flags, j.expires_at)) = some (9, some 63) := by
  intro sW
  have h := C10_incr_decr_resets_expiry sW 3 "k"
    (setNewItem (Storage.new 1000 60) 0 "k" (natToDec 5) 9 500) 5 1 true
    (set_lookup (Storage.new 1000 60) 0 "k" (natToDec 5) 9 500)
    rfl rfl (by decide)
  exact h

/-- C7, amended: the claimed behavior holds in the tokio RESP handler
(`RespHandler` in `src/protocols/resp/handler.rs`): `SET k v NX XX` parses
to a command with both flags, which `execute` answers with an error frame,
leaving the store untouched; `SET .. NX` on an existing live key answers
the null bulk string and stores nothing; `SET .. XX` on a missing key
answers the null bulk string and stores nothing.  The custom runtime's
`execute_resp_command` diverges (see the counterexample): it ignores every
`SET` option. -/
theorem C7_amended_resp_set_options (h : RespHandler) (now : Nat)
    (key value : List Nat) (ex : Option Nat) (it : CacheItem)
    (hascii : isAsciiBytes key = true) :
    RespHandler.parse_command (Frame.Array (some
        [Frame.Bulk (some (strBytes "SET")), Frame.Bulk (some key),
         Frame.Bulk (some value), Frame.Bulk (some (strBytes "NX")),
         Frame.Bulk (some (strBytes "XX"))])) =
      Except.ok (RespCommand.Set key value none true true) ∧
    ((RespHandler.execute h now
        (RespCommand.Set key value ex true true)).1.isError = true ∧
      (RespHandler.execute h now
        (RespCommand.Set key value ex true true)).2.storage = h.storage) ∧
    (mapFind? h.storage.data (bytesToString key) = some it →
      it.is_expired now = false →
      (RespHandler.execute h now
          (RespCommand.Set key value ex true false)).1 = Frame.null ∧
      (RespHandler.execute h now
          (RespCommand.Set key value ex true false)).2.storage = h.storage) ∧
    (mapFind? h.storage.data (bytesToString key) = none →
      (RespHandler.execute h now
          (RespCommand.Set key value ex false true)).1 = Frame.null ∧
      (RespHandler.execute h now
          (RespCommand.Set key value ex false true)).2.storage = h.storage) := by
  refine ⟨rfl, ?_, ?_, ?_⟩
  · constructor <;> simp [RespHandler.execute, hascii, Frame.isError]
  · intro hfind hlive
    constructor <;>
      simp [RespHandler.execute, hascii, Storage.add, hfind, hlive, Frame.null]
  · intro hfind
    constructor <;>
      simp [RespHandler.execute, hascii, Storage.replace, hfind, Frame.null]

/-- C7, witness: a handler whose store holds a live `"k"`; `SET k w NX XX`
errors, `SET k w NX` answers null, `SET z w XX` (missing key) answers
null. -/
theorem C7_amended_resp_set_options_witness :
    let hW := RespHandler.new
      ((((Storage.new 1000 0).set 0 "k" (strBytes "v") 0 0)).2)
    (RespHandler.execute hW 5
        (RespCommand.Set (strBytes "k") (strBytes "w") none true
          true)).1.isError = true ∧
    (RespHandler.execute hW 5
        (RespCommand.Set (strBytes "k") (strBytes "w") none true
          false)).1 = Frame.null ∧
    (RespHandler.execute hW 5
        (RespCommand.Set (strBytes "z") (strBytes "w") none false
          true)).1 = Frame.null := by
  intro hW
  have h1 := C7_amended_resp_set_options hW 5 (strBytes "k") (strBytes "w")
    none (setNewItem (Storage.new 1000 0) 0 "k" (strBytes "v") 0 0)
    (by decide)
  have h2 := C7_amended_resp_set_options hW 5 (strBytes "z") (strBytes "w")
    none (setNewItem (Storage.new 1000 0) 0 "k" (strBytes "v") 0 0)
    (by decide)
  exact ⟨h1.2.1.1, (h1.2.2.1 (by decide) (by decide)).1,
    (h2.2.2.2 (by decide)).1⟩

/-- C8, amended: the claimed behavior holds of the parser and of the tokio
connection loop (`src/protocols/memcached/handler.rs`): every key-taking
memcached command accepts a 250-byte key and rejects a 251-byte key with
`KeyTooLong`, and on the rejected key the handler answers
`CLIENT_ERROR Key too long: <key>` and continues on the same connection,
resuming right after the offending line's CRLF.  The custom runtime's
dispatcher (`process_memcached`) diverges (see the counterexample): it
closes the connection instead. -/
theorem C8_amended_key_length_client_error :
    Parser.parse (strBytes ("get " ++ (String.mk (List.replicate 250 'k')) ++ "\r\n")) =
        ParseResult.Complete (Command.Get [(String.mk (List.replicate 250 'k'))]) 256 ∧
    Parser.parse (strBytes ("gets " ++ (String.mk (List.replicate 250 'k')) ++ "\r\n")) =
        ParseResult.Complete (Command.Gets [(String.mk (List.replicate 250 'k'))]) 257 ∧
    Parser.parse (strBytes ("set " ++ (String.mk (List.replicate 250 'k')) ++ " 0 0 3\r\n")) =
        ParseResult.NeedData 262 3 ∧
    Parser.parse (strBytes ("add " ++ (String.mk (List.replicate 250 'k')) ++ " 0 0 3\r\n")) =
        ParseResult.NeedData 262 3 ∧
    Parser.parse (strBytes ("replace " ++ (String.mk (List.replicate 250 'k')) ++ " 0 0 3\r\n")) =
        ParseResult.NeedData 266 3 ∧
    Parser.parse (strBytes ("append " ++ (String.mk (List.replicate 250 'k')) ++ " 0 0 3\r\n")) =
        ParseResult.NeedData 265 3 ∧
    Parser.parse (strBytes ("prepend " ++ (String.mk (List.replicate 250 'k')) ++ " 0 0 3\r\n")) =
        ParseResult.NeedData 266 3 ∧
    Parser.parse (strBytes ("cas " ++ (String.mk (List.replicate 250 'k')) ++ " 0 0 3 1\r\n")) =
        ParseResult.NeedData 264 3 ∧
    Parser.parse (strBytes ("delete " ++ (String.mk (List.replicate 250 'k')) ++ "\r\n")) =
        ParseResult.Complete (Command.Delete (String.mk (List.replicate 250 'k')) false) 259 ∧
    Parser.parse (strBytes ("incr " ++ (String.mk (List.replicate 250 'k')) ++ " 1\r\n")) =
        ParseResult.Complete (Command.Incr (String.mk (List.replicate 250 'k')) 1 false) 259 ∧
    Parser.parse (strBytes ("decr " ++ (String.mk (List.replicate 250 'k')) ++ " 1\r\n")) =
        ParseResult.Complete (Command.Decr (String.mk (List.replicate 250 'k')) 1 false) 259 ∧
    Parser.parse (strBytes ("get " ++ (String.mk (List.replicate 251 'k')) ++ "\r\n")) =
        ParseResult.Error (ParseError.KeyTooLong (String.mk (List.replicate 251 'k'))) ∧
    Parser.parse (strBytes ("gets " ++ (String.mk (List.replicate 251 'k')) ++ "\r\n")) =
        ParseResult.Error (ParseError.KeyTooLong (String.mk (List.replicate 251 'k'))) ∧
    Parser.parse (strBytes ("set " ++ (String.mk (List.replicate 251 'k')) ++ " 0 0 3\r\n")) =
        ParseResult.Error (ParseError.KeyTooLong (String.mk (List.replicate 251 'k'))) ∧
    Parser.parse (strBytes ("add " ++ (String.mk (List.replicate 251 'k')) ++ " 0 0 3\r\n")) =
        ParseResult.Error (ParseError.KeyTooLong (String.mk (List.replicate 251 'k'))) ∧
    Parser.parse (strBytes ("replace " ++ (String.mk (List.replicate 251 'k')) ++ " 0 0 3\r\n")) =
        ParseResult.Error (ParseError.KeyTooLong (String.mk (List.replicate 251 'k'))) ∧
    Parser.parse (strBytes ("append " ++ (String.mk (List.replicate 251 'k')) ++ " 0 0 3\r\n")) =
        ParseResult.Error (ParseError.KeyTooLong (String.mk (List.replicate 251 'k'))) ∧
    Parser.parse (strBytes ("prepend " ++ (String.mk (List.replicate 251 'k')) ++ " 0 0 3\r\n")) =
        ParseResult.Error (ParseError.KeyTooLong (String.mk (List.replicate 251 'k'))) ∧
    Parser.parse (strBytes ("cas " ++ (String.mk (List.replicate 251 'k')) ++ " 0 0 3 1\r\n")) =
        ParseResult.Error (ParseError.KeyTooLong (String.mk (List.replicate 251 'k'))) ∧
    Parser.parse (strBytes ("delete " ++ (String.mk (List.replicate 251 'k')) ++ "\r\n")) =
        ParseResult.Error (ParseError.KeyTooLong (String.mk (List.replicate 251 'k'))) ∧
    Parser.parse (strBytes ("incr " ++ (String.mk (List.replicate 251 'k')) ++ " 1\r\n")) =
        ParseResult.Error (ParseError.KeyTooLong (String.mk (List.replicate 251 'k'))) ∧
    Parser.parse (strBytes ("decr " ++ (String.mk (List.replicate 251 'k')) ++ " 1\r\n")) =
        ParseResult.Error (ParseError.KeyTooLong (String.mk (List.replicate 251 'k'))) ∧
    memHandlerStep (strBytes ("get " ++ (String.mk (List.replicate 251 'k')) ++ "\r\nversion\r\n")) =
        HandlerStep.RespondClientError
          (Response.client_error ("Key too long: " ++ (String.mk (List.replicate 251 'k'))))
          (strBytes "version\r\n") := by
  decide

/-! Buffer-pool and buffer-chain lemmas for the round-trip claim. -/

theorem pool_get_length (pool : BufferPool) (bs : Nat) (hp : PoolInv pool bs)
    (i : Nat) (hi : i < pool.buffers.length) : (pool.get i).length = bs := by
  unfold BufferPool.get
  have : pool.buffers.getD i [] = pool.buffers.get ⟨i, hi⟩ := by
    simp [List.getD, List.getElem?_eq_getElem hi]
  rw [this]
  exact hp.2.1 _ (List.get_mem pool.buffers i hi)

theorem setBuf_get_ne (pool : BufferPool) (i j : Nat) (b : List Nat)
    (h : i ≠ j) : (pool.setBuf i b).get j = pool.get j := by
  unfold BufferPool.setBuf BufferPool.get
  simp [List.getD, List.getElem?_set_ne h]

theorem setBuf_get_self (pool : BufferPool) (i : Nat) (b : List Nat)
    (hi : i < pool.buffers.length) : (pool.setBuf i b).get i = b := by
  unfold BufferPool.setBuf BufferPool.get
  simp [List.getD, List.getElem?_set_self, hi]

theorem setBuf_buffers_length (pool : BufferPool) (i : Nat) (b : List Nat) :
    (pool.setBuf i b).buffers.length = pool.buffers.length := by
  unfold BufferPool.setBuf
  simp

theorem setBuf_free (pool : BufferPool) (i : Nat) (b : List Nat) :
    (pool.setBuf i b).free_list = pool.free_list := rfl

theorem setBuf_size (pool : BufferPool) (i : Nat) (b : List Nat) :
    (pool.setBuf i b).buffer_size = pool.buffer_size := rfl

theorem poolInv_setBuf (pool : BufferPool) (bs : Nat) (hp : PoolInv pool bs)
    (i : Nat) (b : List Nat) (hb : b.length = bs) :
    PoolInv (pool.setBuf i b) bs := by
  refine ⟨hp.1, ?_, hp.2.2.1, ?_⟩
  · intro buf hbuf
    unfold BufferPool.setBuf at hbuf
    simp only at hbuf
    rcases List.mem_or_eq_of_mem_set hbuf with h | h
    · exact hp.2.1 buf h
    · rw [h]; exact hb
  · intro j hj
    rw [setBuf_buffers_length]
    exact hp.2.2.2 j hj

theorem alloc_spec (pool : BufferPool) (bs : Nat) (hp : PoolInv pool bs)
    (idx : Nat) (pool' : BufferPool)
    (h : pool.alloc = (some idx, pool')) :
    idx < pool.buffers.length ∧ idx ∉ pool'.free_list ∧
      PoolInv pool' bs ∧ pool'.buffers = pool.buffers ∧
      (∀ j ∈ pool'.free_list, j ∈ pool.free_list) := by
  unfold BufferPool.alloc at h
  cases hl : pool.free_list.getLast? with
  | none => rw [hl] at h; simp at h
  | some a =>
      rw [hl] at h
      simp only [Prod.mk.injEq, Option.some_inj] at h
      obtain ⟨hida, hpool⟩ := h
      rw [hida] at hl
      subst hpool
      have hne : pool.free_list ≠ [] := by
        intro hnil; rw [hnil] at hl; simp at hl
      have hlast : pool.free_list.getLast hne = idx := by
        have h2 := List.getLast?_eq_getLast pool.free_list hne
        rw [h2] at hl
        exact Option.some_inj.mp hl
      have hdecomp : pool.free_list.dropLast ++ [idx] = pool.free_list := by
        rw [← hlast]; exact List.dropLast_append_getLast hne
      have hmem : idx ∈ pool.free_list := List.mem_of_mem_getLast? hl
      have hnotin : idx ∉ pool.free_list.dropLast := by
        intro hin
        have hnd := hp.2.2.1
        rw [← hdecomp] at hnd
        exact (List.nodup_append.mp hnd).2.2 hin (List.mem_singleton_self idx)
      refine ⟨hp.2.2.2 idx hmem, hnotin,
        ⟨hp.1, hp.2.1,
          (List.dropLast_sublist pool.free_list).nodup hp.2.2.1,
          fun j hj =>
            hp.2.2.2 j ((List.dropLast_sublist pool.free_list).mem hj)⟩,
        rfl,
        fun j hj => (List.dropLast_sublist pool.free_list).mem hj⟩

theorem writeAt_length (buf chunk : List Nat) (off : Nat)
    (h : off + chunk.length ≤ buf.length) :
    (writeAt buf off chunk).length = buf.length := by
  unfold writeAt
  simp only [List.length_append, List.length_take, List.length_drop]
  omega

theorem writeAt_take (buf chunk : List Nat) (off : Nat)
    (h : off ≤ buf.length) :
    (writeAt buf off chunk).take (off + chunk.length) =
      buf.take off ++ chunk := by
  unfold writeAt
  have hA : (buf.take off).length = off := by
    rw [List.length_take]; omega
  rw [List.append_assoc, List.take_append_eq_append_take,
    List.take_all_of_le (by omega : (buf.take off).length ≤ off + chunk.length),
    hA]
  have h1 : off + chunk.length - off = chunk.length := by omega
  rw [h1, List.take_append_eq_append_take,
    List.take_all_of_le (Nat.le_refl chunk.length), Nat.sub_self,
    List.take_zero, List.append_nil]

theorem flatten_map_length (l : List Nat) (pool : BufferPool) (bs : Nat)
    (h : ∀ i ∈ l, (pool.get i).length = bs) :
    ((l.map pool.get).flatten).length = l.length * bs := by
  induction l with
  | nil => simp
  | cons i rest ih =>
      simp only [List.map_cons, List.flatten_cons, List.length_append,
        List.length_cons, Nat.succ_mul]
      rw [h i (List.mem_cons_self _ _),
        ih (fun j hj => h j (List.mem_cons_of_mem _ hj))]
      omega

theorem flatten_map_setBuf_notin (l : List Nat) (pool : BufferPool)
    (idx : Nat) (buf : List Nat) (h : idx ∉ l) :
    l.map (pool.setBuf idx buf).get = l.map pool.get :=
  List.map_congr_left (fun j hj =>
    setBuf_get_ne pool idx j buf (fun he => h (he ▸ hj)))

theorem cbo_ok (chain : BufferChain) (pool : BufferPool) (bs : Nat)
    (content : List Nat) (hbs : 0 < bs)
    (hinv : ChainInv chain pool bs content)
    (idx off : Nat) (chain1 : BufferChain) (pool1 : BufferPool)
    (h : chain.current_buffer_and_offset pool =
      Except.ok ((idx, off), chain1, pool1)) :
    chain1.buffer_size = bs ∧ chain1.len = chain.len ∧ off < bs ∧
    ((chain1.buffers = chain.buffers ++ [idx] ∧
      pool1.buffers = pool.buffers ∧
      PoolInv pool1 bs ∧
      idx < pool.buffers.length ∧
      idx ∉ pool1.free_list ∧
      (∀ j ∈ pool1.free_list, j ∈ pool.free_list) ∧
      idx ∉ chain.buffers ∧
      off = 0 ∧
      chain.len = chain.buffers.length * bs) ∨
     (chain1 = chain ∧ pool1 = pool ∧
      chain.buffers ≠ [] ∧
      idx = chain.buffers.getLastD 0 ∧
      off = chain.len % bs ∧ off ≠ 0)) := by
  have hlen0 : chain.buffers = [] → chain.len = 0 := hinv.2.2.2.2.2.2.2.1
  have hlenlt : chain.buffers ≠ [] →
      (chain.buffers.length - 1) * bs < chain.len := hinv.2.2.2.2.2.2.2.2.1
  unfold BufferChain.current_buffer_and_offset at h
  by_cases hemp : chain.buffers.isEmpty
  · rw [if_pos hemp] at h
    have hnil : chain.buffers = [] := List.isEmpty_iff.mp hemp
    cases halloc : pool.alloc with
    | mk o pool'' =>
        rw [halloc] at h
        cases o with
        | none => simp at h
        | some i =>
            simp only [Prod.mk.injEq, Except.ok.injEq] at h
            obtain ⟨⟨hi, hoff⟩, hc1, hp1⟩ := h
            rw [hi] at halloc hc1
            subst hoff; subst hc1; subst hp1
            have hal := alloc_spec pool bs hinv.2.1 idx pool'' halloc
            refine ⟨hinv.1, rfl, hbs, Or.inl ⟨rfl, hal.2.2.2.1, hal.2.2.1,
              hal.1, hal.2.1, hal.2.2.2.2, ?_, rfl, ?_⟩⟩
            · rw [hnil]; simp
            · rw [hnil, hlen0 hnil]; simp
  · rw [if_neg hemp] at h
    have hne : chain.buffers ≠ [] := by
      intro hx; exact hemp (List.isEmpty_iff.mpr hx)
    have hpos : 0 < chain.len := by
      have := hlenlt hne
      omega
    by_cases hc : chain.len % chain.buffer_size = 0 ∧ 0 < chain.len
    · rw [if_pos hc] at h
      cases halloc : pool.alloc with
      | mk o pool'' =>
          rw [halloc] at h
          cases o with
          | none => simp at h
          | some i =>
              simp only [Prod.mk.injEq, Except.ok.injEq] at h
              obtain ⟨⟨hi, hoff⟩, hc1, hp1⟩ := h
              rw [hi] at halloc hc1
              subst hoff; subst hc1; subst hp1
              have hal := alloc_spec pool bs hinv.2.1 idx pool'' halloc
              have hmodz : chain.len % bs = 0 := by
                have := hc.1
                rw [hinv.1] at this
                exact this
              obtain ⟨q, hq⟩ := Nat.dvd_of_mod_eq_zero hmodz
              have hleN : chain.len ≤ chain.buffers.length * bs :=
                hinv.2.2.2.2.2.2.1
              have hltN := hlenlt hne
              have hqle : q ≤ chain.buffers.length := by
                have h1 : bs * q ≤ bs * chain.buffers.length := by
                  rw [← hq, Nat.mul_comm bs chain.buffers.length]
                  exact hleN
                exact Nat.le_of_mul_le_mul_left h1 hbs
              have hqgt : chain.buffers.length - 1 < q := by
                have h1 : (chain.buffers.length - 1) * bs < q * bs := by
                  rw [Nat.mul_comm q bs, ← hq]
                  exact hltN
                exact Nat.lt_of_mul_lt_mul_right h1
              have hqeq : q = chain.buffers.length := by
                have hN : 1 ≤ chain.buffers.length :=
                  List.length_pos.mpr hne
                omega
              refine ⟨hinv.1, rfl, hbs, Or.inl ⟨rfl, hal.2.2.2.1, hal.2.2.1,
                hal.1, hal.2.1, hal.2.2.2.2, ?_, rfl, ?_⟩⟩
              · intro hin
                have hfree : idx ∈ pool.free_list := by
                  unfold BufferPool.alloc at halloc
                  cases hl : pool.free_list.getLast? with
                  | none => rw [hl] at halloc; simp at halloc
                  | some a =>
                      rw [hl] at halloc
                      simp only [Prod.mk.injEq, Option.some_inj] at halloc
                      rw [halloc.1] at hl
                      exact List.mem_of_mem_getLast? hl
                exact hinv.2.2.2.2.1 idx hin hfree
              · rw [hq, hqeq, Nat.mul_comm]
    · rw [if_neg hc] at h
      simp only [Prod.mk.injEq, Except.ok.injEq] at h
      obtain ⟨⟨hi, hoff⟩, hc1, hp1⟩ := h
      subst hc1; subst hp1
      have hoffrw : off = chain.len % bs := by
        rw [← hoff, hinv.1]
      refine ⟨hinv.1, rfl, ?_, Or.inr ⟨rfl, rfl, hne, hi.symm, hoffrw, ?_⟩⟩
      · rw [hoffrw]
        exact Nat.mod_lt _ hbs
      · intro hz
        rw [hoffrw] at hz
        exact hc ⟨by rw [hinv.1]; exact hz, hpos⟩

theorem chaininv_fresh (chain chain1 : BufferChain) (pool pool1 : BufferPool)
    (bs : Nat) (content data : List Nat) (idx : Nat) (hbs : 0 < bs)
    (hinv : ChainInv chain pool bs content)
    (h1size : chain1.buffer_size = bs)
    (h1len : chain1.len = chain.len)
    (h1buf : chain1.buffers = chain.buffers ++ [idx])
    (hpb : pool1.buffers = pool.buffers)
    (hpi : PoolInv pool1 bs)
    (hidx : idx < pool.buffers.length)
    (hnf : idx ∉ pool1.free_list)
    (hsub : ∀ j ∈ pool1.free_list, j ∈ pool.free_list)
    (hnc : idx ∉ chain.buffers)
    (hfull : chain.len = chain.buffers.length * bs)
    (hdata : data ≠ [])
    (tc : Nat) (htc : tc = min bs data.length) :
    ChainInv { chain1 with len := chain1.len + tc }
      (pool1.setBuf idx (writeAt (pool1.get idx) 0 (data.take tc)))
      bs (content ++ data.take tc) := by
  have hdlen : 0 < data.length := List.length_pos.mpr hdata
  have htc1 : 0 < tc := by omega
  have htcbs : tc ≤ bs := by omega
  have htcd : tc ≤ data.length := by omega
  have hchunk : (data.take tc).length = tc := by
    rw [List.length_take]; omega
  have hidx1 : idx < pool1.buffers.length := by rw [hpb]; exact hidx
  have hbuflen : (pool1.get idx).length = bs :=
    pool_get_length pool1 bs hpi idx hidx1
  have hnewlen : (writeAt (pool1.get idx) 0 (data.take tc)).length = bs := by
    rw [writeAt_length _ _ _ (by rw [hbuflen, hchunk]; omega)]
    exact hbuflen
  have hpi2 : PoolInv
      (pool1.setBuf idx (writeAt (pool1.get idx) 0 (data.take tc))) bs :=
    poolInv_setBuf pool1 bs hpi idx _ hnewlen
  have hget : ∀ j, pool1.get j = pool.get j := by
    intro j; unfold BufferPool.get; rw [hpb]
  have hmapold :
      chain.buffers.map
          (pool1.setBuf idx (writeAt (pool1.get idx) 0 (data.take tc))).get =
        chain.buffers.map pool.get := by
    rw [flatten_map_setBuf_notin chain.buffers pool1 idx _ hnc]
    exact List.map_congr_left (fun j _ => hget j)
  have hAlen : ((chain.buffers.map pool.get).flatten).length =
      chain.buffers.length * bs :=
    flatten_map_length chain.buffers pool bs
      (fun i hi => pool_get_length pool bs hinv.2.1 i (hinv.2.2.2.1 i hi))
  have hAcontent : (chain.buffers.map pool.get).flatten = content := by
    have hold := hinv.2.2.2.2.2.2.2.2.2
    unfold chainBytes at hold
    rw [← hold, List.take_of_length_le (by rw [hAlen, ← hfull])]
  have hgetnew :
      (pool1.setBuf idx (writeAt (pool1.get idx) 0 (data.take tc))).get idx =
        writeAt (pool1.get idx) 0 (data.take tc) :=
    setBuf_get_self pool1 idx _ hidx1
  have hnewtake : (writeAt (pool1.get idx) 0 (data.take tc)).take tc =
      data.take tc := by
    have := writeAt_take (pool1.get idx) (data.take tc) 0 (by omega)
    rw [hchunk] at this
    simpa using this
  refine ⟨h1size, hpi2, ?_, ?_, ?_, ?_, ?_, ?_, ?_, ?_⟩
  · show chain1.buffers.Nodup
    rw [h1buf, List.nodup_append]
    exact ⟨hinv.2.2.1, List.nodup_singleton idx,
      fun a ha hb => hnc ((List.mem_singleton.mp hb) ▸ ha)⟩
  · intro i hi
    rw [h1buf] at hi
    rw [setBuf_buffers_length, hpb]
    rcases List.mem_append.mp hi with h | h
    · exact hinv.2.2.2.1 i h
    · rw [List.mem_singleton.mp h]; exact hidx
  · intro i hi
    rw [h1buf] at hi
    rw [setBuf_free]
    rcases List.mem_append.mp hi with h | h
    · intro hmem
      exact hinv.2.2.2.2.1 i h (hsub i hmem)
    · rw [List.mem_singleton.mp h]; exact hnf
  · show chain1.len + tc = (content ++ data.take tc).length
    rw [List.length_append, hchunk, h1len, hinv.2.2.2.2.2.1]
  · show chain1.len + tc ≤ chain1.buffers.length * bs
    rw [h1buf, h1len, List.length_append, List.length_singleton, hfull,
      Nat.succ_mul]
    omega
  · intro hnil
    rw [h1buf] at hnil
    simp at hnil
  · intro _
    show (chain1.buffers.length - 1) * bs < chain1.len + tc
    rw [h1buf, h1len, List.length_append, List.length_singleton, hfull]
    simp only [Nat.add_sub_cancel]
    omega
  · show (chainBytes { chain1 with len := chain1.len + tc }
        (pool1.setBuf idx (writeAt (pool1.get idx) 0 (data.take tc)))).take
        (chain1.len + tc) = content ++ data.take tc
    unfold chainBytes
    show ((chain1.buffers.map _).flatten).take _ = _
    rw [h1buf, List.map_append, List.flatten_append, hmapold, h1len]
    simp only [List.map_cons, List.map_nil, List.flatten_cons,
      List.flatten_nil, List.append_nil]
    rw [hgetnew, List.take_append_eq_append_take,
      List.take_of_length_le (by rw [hAlen, ← hfull]; omega)]
    rw [hAcontent]
    have harith : chain.len + tc - content.length = tc := by
      rw [← hinv.2.2.2.2.2.1]; omega
    rw [harith, hnewtake]

theorem chaininv_tail (chain : BufferChain) (pool : BufferPool) (bs : Nat)
    (content data : List Nat) (idx off : Nat) (hbs : 0 < bs)
    (hinv : ChainInv chain pool bs content)
    (hne : chain.buffers ≠ [])
    (hidx : idx = chain.buffers.getLastD 0)
    (hoff : off = chain.len % bs)
    (hoffnz : off ≠ 0)
    (hdata : data ≠ [])
    (tc : Nat) (htc : tc = min (bs - off) data.length) :
    ChainInv { chain with len := chain.len + tc }
      (pool.setBuf idx (writeAt (pool.get idx) off (data.take tc)))
      bs (content ++ data.take tc) := by
  have hdlen : 0 < data.length := List.length_pos.mpr hdata
  have hofflt : off < bs := by rw [hoff]; exact Nat.mod_lt _ hbs
  have htc1 : 0 < tc := by omega
  have htcoff : off + tc ≤ bs := by omega
  have htcd : tc ≤ data.length := by omega
  have hchunk : (data.take tc).length = tc := by
    rw [List.length_take]; omega
  have hidx' : idx = chain.buffers.getLast hne := by
    rw [hidx, List.getLastD_eq_getLast?,
      List.getLast?_eq_getLast chain.buffers hne]
    rfl
  have hdecomp : chain.buffers.dropLast ++ [idx] = chain.buffers := by
    rw [hidx']; exact List.dropLast_append_getLast hne
  have hmem : idx ∈ chain.buffers := by
    rw [hidx']; exact List.getLast_mem hne
  have hidxlt : idx < pool.buffers.length := hinv.2.2.2.1 idx hmem
  have hnB : idx ∉ chain.buffers.dropLast := by
    intro hin
    have hnd := hinv.2.2.1
    rw [← hdecomp] at hnd
    exact (List.nodup_append.mp hnd).2.2 hin (List.mem_singleton_self idx)
  have hN : 1 ≤ chain.buffers.length := List.length_pos.mpr hne
  have hle : chain.len ≤ chain.buffers.length * bs := hinv.2.2.2.2.2.2.1
  have hlt : (chain.buffers.length - 1) * bs < chain.len :=
    hinv.2.2.2.2.2.2.2.2.1 hne
  have hdm : bs * (chain.len / bs) + chain.len % bs = chain.len :=
    Nat.div_add_mod chain.len bs
  have hlena : chain.len = bs * (chain.len / bs) + off := by omega
  have hqlt : chain.len / bs < chain.buffers.length := by
    have h1 : bs * (chain.len / bs) < bs * chain.buffers.length := by
      have : chain.buffers.length * bs = bs * chain.buffers.length :=
        Nat.mul_comm _ _
      omega
    exact Nat.lt_of_mul_lt_mul_left h1
  have hqge : chain.buffers.length - 1 < chain.len / bs + 1 := by
    have h1 : (chain.buffers.length - 1) * bs < (chain.len / bs + 1) * bs := by
      have h2 : (chain.len / bs + 1) * bs = bs * (chain.len / bs) + bs := by
        rw [Nat.succ_mul, Nat.mul_comm]
      omega
    exact Nat.lt_of_mul_lt_mul_right h1
  have hqeq : chain.len / bs = chain.buffers.length - 1 := by omega
  have hlen2 : chain.len = (chain.buffers.length - 1) * bs + off := by
    rw [hlena, hqeq, Nat.mul_comm]
  have hgl : (pool.get idx).length = bs :=
    pool_get_length pool bs hinv.2.1 idx hidxlt
  have hnewlen : (writeAt (pool.get idx) off (data.take tc)).length = bs := by
    rw [writeAt_length _ _ _ (by rw [hgl, hchunk]; omega)]
    exact hgl
  have hpi2 : PoolInv
      (pool.setBuf idx (writeAt (pool.get idx) off (data.take tc))) bs :=
    poolInv_setBuf pool bs hinv.2.1 idx _ hnewlen
  have hAlen : ((chain.buffers.dropLast.map pool.get).flatten).length =
      (chain.buffers.length - 1) * bs := by
    rw [flatten_map_length chain.buffers.dropLast pool bs
      (fun i hi => pool_get_length pool bs hinv.2.1 i
        (hinv.2.2.2.1 i ((List.dropLast_sublist chain.buffers).mem hi))),
      List.length_dropLast]
  have hcontent :
      content = (chain.buffers.dropLast.map pool.get).flatten ++
        (pool.get idx).take off := by
    have hold := hinv.2.2.2.2.2.2.2.2.2
    unfold chainBytes at hold
    rw [← hdecomp, List.map_append, List.flatten_append] at hold
    simp only [List.map_cons, List.map_nil, List.flatten_cons,
      List.flatten_nil, List.append_nil] at hold
    rw [List.take_append_eq_append_take,
      List.take_of_length_le (by rw [hAlen]; omega), hAlen] at hold
    rw [← hold, hlen2]
    have : (chain.buffers.length - 1) * bs + off -
        (chain.buffers.length - 1) * bs = off := by omega
    rw [this]
  have hnbs : chain.buffers.length * bs =
      (chain.buffers.length - 1) * bs + bs := by
    have hm : chain.buffers.length = (chain.buffers.length - 1) + 1 := by
      omega
    calc chain.buffers.length * bs
        = ((chain.buffers.length - 1) + 1) * bs := by rw [← hm]
      _ = (chain.buffers.length - 1) * bs + bs := by rw [Nat.succ_mul]
  refine ⟨hinv.1, hpi2, hinv.2.2.1, ?_, ?_, ?_, ?_, ?_, ?_, ?_⟩
  · intro i hi
    rw [setBuf_buffers_length]
    exact hinv.2.2.2.1 i hi
  · intro i hi
    rw [setBuf_free]
    exact hinv.2.2.2.2.1 i hi
  · show chain.len + tc = (content ++ data.take tc).length
    rw [List.length_append, hchunk, hinv.2.2.2.2.2.1]
  · show chain.len + tc ≤ chain.buffers.length * bs
    omega
  · intro hnil
    exact absurd hnil hne
  · intro _
    show (chain.buffers.length - 1) * bs < chain.len + tc
    omega
  · show (chainBytes { chain with len := chain.len + tc }
        (pool.setBuf idx (writeAt (pool.get idx) off (data.take tc)))).take
        (chain.len + tc) = content ++ data.take tc
    unfold chainBytes
    show ((chain.buffers.map _).flatten).take _ = _
    rw [← hdecomp, List.map_append, List.flatten_append,
      flatten_map_setBuf_notin chain.buffers.dropLast pool idx _ hnB]
    simp only [List.map_cons, List.map_nil, List.flatten_cons,
      List.flatten_nil, List.append_nil]
    rw [setBuf_get_self pool idx _ hidxlt]
    rw [List.take_append_eq_append_take,
      List.take_of_length_le (by rw [hAlen]; omega), hAlen]
    have harith : chain.len + tc - (chain.buffers.length - 1) * bs =
        off + tc := by omega
    rw [harith]
    have hwt := writeAt_take (pool.get idx) (data.take tc) off (by omega)
    rw [hchunk] at hwt
    rw [hwt, hcontent, List.append_assoc]

theorem appendAux_ok (bs : Nat) (hbs : 0 < bs) :
    ∀ (fuel : Nat) (chain : BufferChain) (pool : BufferPool)
      (content data : List Nat) (chain2 : BufferChain) (pool2 : BufferPool),
      ChainInv chain pool bs content →
      BufferChain.appendAux fuel chain pool data =
        some (Except.ok (chain2, pool2)) →
      ChainInv chain2 pool2 bs (content ++ data) := by
  intro fuel
  induction fuel with
  | zero =>
      intro chain pool content data chain2 pool2 hinv h
      cases data with
      | nil =>
          simp only [BufferChain.appendAux, Option.some_inj,
            Except.ok.injEq, Prod.mk.injEq] at h
          obtain ⟨h1, h2⟩ := h
          subst h1; subst h2
          simpa using hinv
      | cons b rest =>
          simp [BufferChain.appendAux] at h
  | succ n ih =>
      intro chain pool content data chain2 pool2 hinv h
      cases data with
      | nil =>
          simp only [BufferChain.appendAux, Option.some_inj,
            Except.ok.injEq, Prod.mk.injEq] at h
          obtain ⟨h1, h2⟩ := h
          subst h1; subst h2
          simpa using hinv
      | cons b rest =>
          unfold BufferChain.appendAux at h
          cases hcbo : chain.current_buffer_and_offset pool with
          | error e => rw [hcbo] at h; simp at h
          | ok r =>
              obtain ⟨⟨idx, off⟩, chain1, pool1⟩ := r
              rw [hcbo] at h
              have hspec := cbo_ok chain pool bs content hbs hinv idx off
                chain1 pool1 hcbo
              have h' : BufferChain.appendAux n
                  { chain1 with
                    len := chain1.len + min (chain1.buffer_size - off)
                        (b :: rest).length }
                  (pool1.setBuf idx (writeAt (pool1.get idx) off
                    ((b :: rest).take
                      (min (chain1.buffer_size - off) (b :: rest).length))))
                  ((b :: rest).drop
                    (min (chain1.buffer_size - off) (b :: rest).length)) =
                  some (Except.ok (chain2, pool2)) := h
              rcases hspec.2.2.2 with
                ⟨h1buf, hpb, hpi, hidxv, hnf, hsub, hnc, hoffz, hfull⟩ |
                ⟨hc1, hp1, hne, hidxe, hoffe, hoffnz⟩
              · subst hoffz
                have hinv2 := chaininv_fresh chain chain1 pool pool1 bs
                  content (b :: rest) idx hbs hinv hspec.1 hspec.2.1 h1buf
                  hpb hpi hidxv hnf hsub hnc hfull (by simp)
                  (min (chain1.buffer_size - 0) (b :: rest).length)
                  (by rw [hspec.1]; omega)
                have hres := ih _ _ _ _ chain2 pool2 hinv2 h'
                rw [List.append_assoc, List.take_append_drop] at hres
                exact hres
              · rw [hc1, hp1] at h'
                have hinv2 := chaininv_tail chain pool bs content (b :: rest)
                  idx off hbs hinv hne hidxe hoffe hoffnz (by simp)
                  (min (chain.buffer_size - off) (b :: rest).length)
                  (by rw [hinv.1])
                have hres := ih _ _ _ _ chain2 pool2 hinv2 h'
                rw [List.append_assoc, List.take_append_drop] at hres
                exact hres

theorem assemble_foldl (pool : BufferPool) (bs : Nat) :
    ∀ (l : List Nat) (rem : Nat) (acc : List Nat),
      (∀ i ∈ l, (pool.get i).length = bs) →
      (l.foldl
        (fun (acc : List Nat × Nat) buf_idx =>
          (acc.1 ++ (pool.get buf_idx).take (min acc.2 bs),
            acc.2 - min acc.2 bs))
        (acc, rem)).1 = acc ++ ((l.map pool.get).flatten).take rem := by
  intro l
  induction l with
  | nil => intro rem acc _; simp
  | cons i rest ih =>
      intro rem acc h
      have hlen : (pool.get i).length = bs := h i (List.mem_cons_self _ _)
      simp only [List.foldl_cons, List.map_cons, List.flatten_cons]
      rw [ih _ _ (fun j hj => h j (List.mem_cons_of_mem _ hj))]
      rw [List.take_append_eq_append_take, hlen]
      have h1 : (pool.get i).take rem = (pool.get i).take (min rem bs) := by
        by_cases hc : rem ≤ bs
        · rw [min_eq_left hc]
        · rw [min_eq_right (by omega),
            List.take_of_length_le (by rw [hlen]; omega),
            List.take_of_length_le (le_of_eq hlen)]
      have h2 : rem - min rem bs = rem - bs := by omega
      rw [h1, h2, List.append_assoc]

theorem as_contiguous_of_inv (chain : BufferChain) (pool : BufferPool)
    (bs : Nat) (content : List Nat)
    (hinv : ChainInv chain pool bs content) :
    chain.as_contiguous pool = content := by
  have hlenc : chain.len = content.length := hinv.2.2.2.2.2.1
  have hold : (chainBytes chain pool).take chain.len = content :=
    hinv.2.2.2.2.2.2.2.2.2
  unfold BufferChain.as_contiguous
  by_cases hemp : chain.buffers.isEmpty
  · rw [if_pos hemp]
    have hnil := List.isEmpty_iff.mp hemp
    have h0 : chain.len = 0 := hinv.2.2.2.2.2.2.2.1 hnil
    rw [h0] at hlenc
    exact (List.length_eq_zero.mp hlenc.symm).symm
  · rw [if_neg hemp]
    by_cases hone : chain.buffers.length = 1
    · rw [if_pos hone]
      obtain ⟨b, hb⟩ := List.length_eq_one.mp hone
      unfold chainBytes at hold
      rw [hb] at hold ⊢
      simp only [List.map_cons, List.map_nil, List.flatten_cons,
        List.flatten_nil, List.append_nil] at hold
      simpa using hold
    · rw [if_neg hone]
      unfold BufferChain.assemble
      simp only [hinv.1]
      rw [assemble_foldl pool bs chain.buffers chain.len []
        (fun i hi => pool_get_length pool bs hinv.2.1 i
          (hinv.2.2.2.1 i hi))]
      rw [List.nil_append]
      exact hold

theorem chainInv_new (count bs : Nat) :
    ChainInv (BufferChain.new bs) (BufferPool.new count bs) bs [] := by
  refine ⟨rfl, ⟨rfl, ?_, ?_, ?_⟩, List.nodup_nil,
    fun i hi => absurd hi (List.not_mem_nil i),
    fun i hi => absurd hi (List.not_mem_nil i),
    rfl, Nat.zero_le _, fun _ => rfl, fun h => absurd rfl h, rfl⟩
  · intro b hb
    rw [List.eq_of_mem_replicate hb]
    exact List.length_replicate _ _
  · exact List.nodup_range count
  · intro i hi
    simpa [BufferPool.new] using List.mem_range.mp hi

theorem chainAppendAll_inv (bs : Nat) (hbs : 0 < bs) :
    ∀ (ds : List (List Nat)) (chain : BufferChain) (pool : BufferPool)
      (content : List Nat) (chain2 : BufferChain) (pool2 : BufferPool),
      ChainInv chain pool bs content →
      chainAppendAll chain pool ds = some (chain2, pool2) →
      ChainInv chain2 pool2 bs (content ++ ds.flatten) := by
  intro ds
  induction ds with
  | nil =>
      intro chain pool content chain2 pool2 hinv h
      simp only [chainAppendAll, Option.some_inj, Prod.mk.injEq] at h
      obtain ⟨h1, h2⟩ := h
      subst h1; subst h2
      simpa using hinv
  | cons d rest ih =>
      intro chain pool content chain2 pool2 hinv h
      unfold chainAppendAll at h
      cases happ : chain.append d pool with
      | none => rw [happ] at h; simp at h
      | some r =>
          cases r with
          | error e => rw [happ] at h; simp at h
          | ok q =>
              obtain ⟨chain', pool'⟩ := q
              rw [happ] at h
              have h' : chainAppendAll chain' pool' rest =
                  some (chain2, pool2) := h
              have hinv' := appendAux_ok bs hbs d.length chain pool content d
                chain' pool' hinv happ
              have hres := ih chain' pool' (content ++ d) chain2 pool2 hinv' h'
              rw [List.flatten_cons, ← List.append_assoc]
              exact hres

/-- C9: on a fresh chain over a fresh pool (`buffer_size > 0`), if a
sequence of `append` calls all succeed then `as_contiguous` returns
exactly the concatenation of the appended byte runs — including when the
data spans several buffers and is assembled by copy. -/
theorem C9_buffer_chain_round_trip (count bs : Nat) (ds : List (List Nat))
    (c : BufferChain) (p : BufferPool) (hbs : 0 < bs)
    (h : chainAppendAll (BufferChain.new bs) (BufferPool.new count bs) ds =
      some (c, p)) :
    c.as_contiguous p = ds.flatten := by
  have hinv := chainAppendAll_inv bs hbs ds (BufferChain.new bs)
    (BufferPool.new count bs) [] c p (chainInv_new count bs) h
  rw [List.nil_append] at hinv
  exact as_contiguous_of_inv c p bs ds.flatten hinv

/-- C9, witness: three 4-byte buffers; appending `[1,2,3]` then
`[4,5,6,7,8]` (8 bytes, spanning two buffers) round-trips. -/
theorem C9_buffer_chain_round_trip_witness :
    ((chainAppendAll (BufferChain.new 4) (BufferPool.new 3 4)
        [[1, 2, 3], [4, 5, 6, 7, 8]]).map
      (fun cp => cp.1.as_contiguous cp.2)) =
      some [1, 2, 3, 4, 5, 6, 7, 8] := by
  cases hh : chainAppendAll (BufferChain.new 4) (BufferPool.new 3 4)
      [[1, 2, 3], [4, 5, 6, 7, 8]] with
  | none =>
      have hs : (chainAppendAll (BufferChain.new 4) (BufferPool.new 3 4)
          [[1, 2, 3], [4, 5, 6, 7, 8]]).isSome = true := by decide
      rw [hh] at hs
      simp at hs
  | some cp =>
      obtain ⟨c, p⟩ := cp
      have hr := C9_buffer_chain_round_trip 3 4 [[1, 2, 3], [4, 5, 6, 7, 8]]
        c p (by decide) hh
      exact congrArg some hr
